import Mathlib

/-!
# Motion-vector utilities and the global-motion warp model of `av1/common/mv.h`

A shallow embedding of the inline functions of `av1/common/mv.h`, and of the block hash
engine declared in `av1/encoder/hash_motion.h`, with proofs of properties of the embedded
functions.

Conventions of the embedding.

* C integers are Lean `Int`s.  A store into an `int16_t` object is `wrap16`, the
  result of an `int` (32-bit) operation that can leave the 32-bit range is
  `wrap32` (two's complement wrap-around).  Operations whose operands cannot
  leave the range (for instance `mv->row - mod` on promoted `int16_t` values)
  are written as plain `Int` operations.
* `%` of C truncates towards zero: `Int.tmod`.  `>>` on a signed value is the
  arithmetic shift `Int.shiftRight`.
* `assert` is compiled out in release builds; the embedded functions return the
  value the code computes, and the asserted conditions are separate predicates.
-/

namespace Aom

/-! ## Machine integers -/

/-- Value kept by a store into an `int16_t` object. -/
def wrap16 (x : Int) : Int := (x + 32768) % 65536 - 32768

/-- Value kept by a 32-bit `int` after two's complement wrap-around. -/
def wrap32 (x : Int) : Int := (x + 2147483648) % 4294967296 - 2147483648

/-- Range of `int16_t`. -/
def isInt16 (x : Int) : Prop := -32768 ≤ x ∧ x ≤ 32767

instance (x : Int) : Decidable (isInt16 x) := by
  unfold isInt16; infer_instance

/-- Range of `int32_t`. -/
def isInt32 (x : Int) : Prop := -2147483648 ≤ x ∧ x ≤ 2147483647

instance (x : Int) : Decidable (isInt32 x) := by
  unfold isInt32; infer_instance

/-- The macro `ABS(x)`: `((x) >= 0) ? (x) : (-(x))`. -/
def ABS (x : Int) : Int := if x ≥ 0 then x else -x

/-! ## Motion vectors -/

/-- The struct `MV`: a motion vector in units of 1/8 pel, two `int16_t` fields. -/
structure MV where
  row : Int
  col : Int
  deriving DecidableEq, Repr

/-- Both fields of the vector are `int16_t` values. -/
def MV.isValid (mv : MV) : Prop := isInt16 mv.row ∧ isInt16 mv.col

instance (mv : MV) : Decidable mv.isValid := by
  unfold MV.isValid; infer_instance

/-- The enumeration `MvSubpelPrecision` (without the count `MV_SUBPEL_PRECISIONS`). -/
inductive MvSubpelPrecision where
  | MV_SUBPEL_NONE
  | MV_SUBPEL_HALF_PRECISION
  | MV_SUBPEL_QTR_PRECISION
  | MV_SUBPEL_EIGHTH_PRECISION
  deriving DecidableEq, Repr

open MvSubpelPrecision

/-- Numeric value of an enumerator of `MvSubpelPrecision`. -/
def MvSubpelPrecision.val : MvSubpelPrecision → Nat
  | MV_SUBPEL_NONE => 0
  | MV_SUBPEL_HALF_PRECISION => 1
  | MV_SUBPEL_QTR_PRECISION => 2
  | MV_SUBPEL_EIGHTH_PRECISION => 3

/-- The value `1 << (MV_SUBPEL_EIGHTH_PRECISION - precision)` of `lower_mv_precision`. -/
def mv_radix (precision : MvSubpelPrecision) : Int :=
  ((1 <<< (MV_SUBPEL_EIGHTH_PRECISION.val - precision.val) : Nat) : Int)

/-- The function `lower_mv_precision`; the updated `*mv` is the result. -/
def lower_mv_precision (mv : MV) (precision : MvSubpelPrecision) : MV :=
  let radix : Int := mv_radix precision
  if radix = 1 then mv
  else
    let mod := Int.tmod mv.row radix
    let row :=
      if mod ≠ 0 then
        let row := wrap16 (mv.row - mod)
        if ABS mod > radix / 2 then
          if mod > 0 then wrap16 (row + radix) else wrap16 (row - radix)
        else row
      else mv.row
    let mod := Int.tmod mv.col radix
    let col :=
      if mod ≠ 0 then
        let col := wrap16 (mv.col - mod)
        if ABS mod > radix / 2 then
          if mod > 0 then wrap16 (col + radix) else wrap16 (col - radix)
        else col
      else mv.col
    { row := row, col := col }

/-! ## Auxiliary definitions for the proofs -/

/-- The update `lower_mv_precision` applies to one field, for `radix ≠ 1`. -/
def lower_mv_component (radix v : Int) : Int :=
  let mod := Int.tmod v radix
  if mod ≠ 0 then
    let w := wrap16 (v - mod)
    if ABS mod > radix / 2 then
      if mod > 0 then wrap16 (w + radix) else wrap16 (w - radix)
    else w
  else v

/-- `w` is a multiple of `radix` nearest to `v`, and when `v` lies exactly halfway between
two multiples (`2 * |v mod radix| = radix`) `w` is the one nearer to zero. -/
def RoundsHalfTowardZero (radix v w : Int) : Prop :=
  radix ∣ w ∧ (∀ m : Int, radix ∣ m → |w - v| ≤ |m - v|) ∧
    (2 * |Int.tmod v radix| = radix → |w| < |v|)

/-- `w` is a multiple of `radix` nearest to `v`, and when `v` lies exactly halfway between
two multiples (`2 * |v mod radix| = radix`) `w` is the one farther from zero. -/
def RoundsHalfAwayFromZero (radix v w : Int) : Prop :=
  radix ∣ w ∧ (∀ m : Int, radix ∣ m → |w - v| ≤ |m - v|) ∧
    (2 * |Int.tmod v radix| = radix → |v| < |w|)

/-! ## The warp model -/

/-- The macro `WARPEDMODEL_PREC_BITS`. -/
def WARPEDMODEL_PREC_BITS : Nat := 16

/-- The macro `GM_TRANS_ONLY_PREC_DIFF`: `WARPEDMODEL_PREC_BITS - 3`. -/
def GM_TRANS_ONLY_PREC_DIFF : Nat := WARPEDMODEL_PREC_BITS - 3

/-- The enumeration `TransformationType` (without the count `TRANS_TYPES`). -/
inductive TransformationType where
  | IDENTITY
  | TRANSLATION
  | ROTZOOM
  | AFFINE
  deriving DecidableEq, Repr

open TransformationType

/-- The struct `WarpedMotionParams`: `int32_t wmmat[8]`, four `int16_t` shear values, the
kind tag and the `int8_t` flag `invalid`. -/
structure WarpedMotionParams where
  wmmat : Fin 8 → Int
  alpha : Int
  beta : Int
  gamma : Int
  delta : Int
  wmtype : TransformationType
  invalid : Int

/-- All eight coefficients are `int32_t` values. -/
def WarpedMotionParams.isValid (gm : WarpedMotionParams) : Prop :=
  ∀ i : Fin 8, isInt32 (gm.wmmat i)

instance (gm : WarpedMotionParams) : Decidable gm.isValid := by
  unfold WarpedMotionParams.isValid; infer_instance

/-- The loop `for (int i = 0; i < 8; i++) if (p1->wmmat[i] != p2->wmmat[i]) return 0;`
of `is_same_wm_params` followed by its `return 1`, run over the indices still to visit. -/
def is_same_wm_params_loop (p1 p2 : WarpedMotionParams) : List (Fin 8) → Int
  | [] => 1
  | i :: rest => if p1.wmmat i ≠ p2.wmmat i then 0 else is_same_wm_params_loop p1 p2 rest

/-- The function `is_same_wm_params`. -/
def is_same_wm_params (p1 p2 : WarpedMotionParams) : Int :=
  if p1.invalid ≠ p2.invalid then 0
  else if p1.wmtype ≠ p2.wmtype then 0
  else if p1.alpha ≠ p2.alpha then 0
  else if p1.beta ≠ p2.beta then 0
  else if p1.gamma ≠ p2.gamma then 0
  else if p1.delta ≠ p2.delta then 0
  else is_same_wm_params_loop p1 p2 [0, 1, 2, 3, 4, 5, 6, 7]

/-- The constant `default_warp_params`. -/
def default_warp_params : WarpedMotionParams :=
  { wmmat := ![0, 0, ((1 <<< WARPEDMODEL_PREC_BITS : Nat) : Int), 0, 0,
               ((1 <<< WARPEDMODEL_PREC_BITS : Nat) : Int), 0, 0],
    alpha := 0, beta := 0, gamma := 0, delta := 0,
    wmtype := IDENTITY,
    invalid := 0 }

/-- Negation of a 32-bit `int` (two's complement: the negation of `INT32_MIN` is itself). -/
def neg32 (x : Int) : Int := wrap32 (-x)

/-- Addition of 32-bit `int`s. -/
def add32 (x y : Int) : Int := wrap32 (x + y)

/-- Subtraction of 32-bit `int`s. -/
def sub32 (x y : Int) : Int := wrap32 (x - y)

/-- Multiplication of 32-bit `int`s. -/
def mul32 (x y : Int) : Int := wrap32 (x * y)

/-- The function `get_wmtype`; `!x` on an integer is `x = 0`. -/
def get_wmtype (gm : WarpedMotionParams) : TransformationType :=
  if gm.wmmat 5 = ((1 <<< WARPEDMODEL_PREC_BITS : Nat) : Int) ∧ gm.wmmat 4 = 0 ∧
      gm.wmmat 2 = ((1 <<< WARPEDMODEL_PREC_BITS : Nat) : Int) ∧ gm.wmmat 3 = 0 then
    if gm.wmmat 1 = 0 ∧ gm.wmmat 0 = 0 then IDENTITY else TRANSLATION
  else if gm.wmmat 2 = gm.wmmat 5 ∧ gm.wmmat 3 = neg32 (gm.wmmat 4) then ROTZOOM
  else AFFINE

/-- Modelled from the spec: the block-size identifier `BLOCK_SIZE`, an index into the external
table "mapping a block-size identifier to its pixel width/height"; the enumeration is declared
in a header outside the sources. -/
abbrev BLOCK_SIZE := Nat

/-- Modelled from the spec: the external tables `block_size_wide` and `block_size_high`
("an external table mapping a block-size identifier to its pixel width/height"), defined in
`av1/common/common_data.h`, outside the sources; they are a parameter of the embedding. -/
structure BlockSizeTables where
  block_size_wide : BLOCK_SIZE → Int
  block_size_high : BLOCK_SIZE → Int

/-- Modelled from the spec: the constant `MI_SIZE`, the unit of the block grid in pixels
(`center = gridIndex*unitSize + size/2 - 1`), 4 in AV1; defined outside the sources. -/
def MI_SIZE : Int := 4

/-- The function `block_center_x`. -/
def block_center_x (T : BlockSizeTables) (mi_col : Int) (bs : BLOCK_SIZE) : Int :=
  let bw := T.block_size_wide bs
  sub32 (add32 (mul32 mi_col MI_SIZE) (Int.tdiv bw 2)) 1

/-- The function `block_center_y`. -/
def block_center_y (T : BlockSizeTables) (mi_row : Int) (bs : BLOCK_SIZE) : Int :=
  let bh := T.block_size_high bs
  sub32 (add32 (mul32 mi_row MI_SIZE) (Int.tdiv bh 2)) 1

/-- Modelled from the spec: the macro `ROUND_POWER_OF_TWO(value, n)` of libaom,
`(((value) + (((1 << (n)) >> 1))) >> (n))`, the "(v + 2^(n-1)) >> n rounding"; defined in a
header outside the sources. -/
def ROUND_POWER_OF_TWO (value : Int) (n : Nat) : Int :=
  (add32 value (((1 <<< n) >>> 1 : Nat) : Int)) >>> n

/-- Modelled from the spec: the macro `ROUND_POWER_OF_TWO_SIGNED(value, n)` of libaom, the
"sign-symmetric" rounding `((value) < 0) ? -ROUND_POWER_OF_TWO(-(value), (n))
: ROUND_POWER_OF_TWO((value), (n))`; defined in a header outside the sources. -/
def ROUND_POWER_OF_TWO_SIGNED (value : Int) (n : Nat) : Int :=
  if value < 0 then neg32 (ROUND_POWER_OF_TWO (neg32 value) n)
  else ROUND_POWER_OF_TWO value n

/-- The function `convert_to_trans_prec`. -/
def convert_to_trans_prec (precision : MvSubpelPrecision) (coor : Int) : Int :=
  if precision.val > MV_SUBPEL_QTR_PRECISION.val then
    ROUND_POWER_OF_TWO_SIGNED coor (WARPEDMODEL_PREC_BITS - 3)
  else
    mul32 (ROUND_POWER_OF_TWO_SIGNED coor (WARPEDMODEL_PREC_BITS - 2)) 2

/-- The function `gm_get_motion_vector`; the result is the `as_mv` view of the returned
`int_mv` (`res.as_int = 0` clears both fields).  The two `assert`s do not change the value. -/
def gm_get_motion_vector (T : BlockSizeTables) (gm : WarpedMotionParams)
    (precision : MvSubpelPrecision) (bsize : BLOCK_SIZE) (mi_col mi_row : Int) : MV :=
  if gm.wmtype = IDENTITY then { row := 0, col := 0 }
  else
    let mat := gm.wmmat
    if gm.wmtype = TRANSLATION then
      let res : MV :=
        { row := wrap16 (gm.wmmat 0 >>> GM_TRANS_ONLY_PREC_DIFF),
          col := wrap16 (gm.wmmat 1 >>> GM_TRANS_ONLY_PREC_DIFF) }
      lower_mv_precision res precision
    else
      let x := block_center_x T mi_col bsize
      let y := block_center_y T mi_row bsize
      let xc :=
        add32 (add32 (mul32 (sub32 (mat 2) ((1 <<< WARPEDMODEL_PREC_BITS : Nat) : Int)) x)
          (mul32 (mat 3) y)) (mat 0)
      let yc :=
        add32 (add32 (mul32 (mat 4) x)
          (mul32 (sub32 (mat 5) ((1 <<< WARPEDMODEL_PREC_BITS : Nat) : Int)) y)) (mat 1)
      let tx := convert_to_trans_prec precision xc
      let ty := convert_to_trans_prec precision yc
      let res : MV := { row := wrap16 ty, col := wrap16 tx }
      lower_mv_precision res precision

/-! ## Coefficient patterns of the four kinds -/

/-- The linear part of the coefficients is the identity: `wmmat[2] == 65536`,
`wmmat[5] == 65536`, `wmmat[3] == 0` and `wmmat[4] == 0`. -/
def LinearPartIsIdentity (m : Fin 8 → Int) : Prop :=
  m 2 = 65536 ∧ m 5 = 65536 ∧ m 3 = 0 ∧ m 4 = 0

instance (m : Fin 8 → Int) : Decidable (LinearPartIsIdentity m) := by
  unfold LinearPartIsIdentity; infer_instance

/-- The coefficient pattern of each kind; `-wmmat[4]` is the 32-bit negation `neg32`. -/
def wm_pattern (m : Fin 8 → Int) : TransformationType → Prop
  | IDENTITY => LinearPartIsIdentity m ∧ m 0 = 0 ∧ m 1 = 0
  | TRANSLATION => LinearPartIsIdentity m ∧ (m 0 ≠ 0 ∨ m 1 ≠ 0)
  | ROTZOOM => ¬ LinearPartIsIdentity m ∧ m 2 = m 5 ∧ m 3 = neg32 (m 4)
  | AFFINE => m 2 ≠ m 5 ∨ m 3 ≠ neg32 (m 4)

/-- The ROTZOOM invariant: `wmmat[5] == wmmat[2]` and `wmmat[4] == -wmmat[3]`. -/
def RotzoomInvariant (m : Fin 8 → Int) : Prop :=
  m 5 = m 2 ∧ m 4 = neg32 (m 3)

instance (m : Fin 8 → Int) : Decidable (RotzoomInvariant m) := by
  unfold RotzoomInvariant; infer_instance

/-- The model with coefficient `i` changed by `d`. -/
def perturb (gm : WarpedMotionParams) (i : Fin 8) (d : Int) : WarpedMotionParams :=
  { gm with wmmat := Function.update gm.wmmat i (gm.wmmat i + d) }

/-! ## Full-pel vectors and clamping -/

/-- The struct `FULLPEL_MV`: a motion vector in units of full pixels, two `int16_t` fields. -/
structure FULLPEL_MV where
  row : Int
  col : Int
  deriving DecidableEq, Repr

/-- The macro `GET_MV_RAWPEL(x)`: `(((x) + 3 + ((x) >= 0)) >> 3)`. -/
def GET_MV_RAWPEL (x : Int) : Int := (x + 3 + (if x ≥ 0 then 1 else 0)) >>> (3 : Nat)

/-- The function `get_fullmv_from_mv`; each `(int16_t)` cast is `wrap16`. -/
def get_fullmv_from_mv (subpel_mv : MV) : FULLPEL_MV :=
  { row := wrap16 (GET_MV_RAWPEL subpel_mv.row),
    col := wrap16 (GET_MV_RAWPEL subpel_mv.col) }

/-- The struct `FullMvLimits`: four `int` fields. -/
structure FullMvLimits where
  col_min : Int
  col_max : Int
  row_min : Int
  row_max : Int

/-- The struct `SubpelMvLimits`: four `int` fields. -/
structure SubpelMvLimits where
  col_min : Int
  col_max : Int
  row_min : Int
  row_max : Int

/-- Modelled from the spec: the helper `clamp(value, low, high)` of libaom, the clamp "to an
inclusive [min,max] range" (`value < low ? low : (value > high ? high : value)`); defined in a
header outside the sources. -/
def clamp (value low high : Int) : Int :=
  if value < low then low else if value > high then high else value

/-- The function `clamp_mv`; the updated `*mv` is the result. -/
def clamp_mv (mv : MV) (mv_limits : SubpelMvLimits) : MV :=
  let col := wrap16 (clamp mv.col mv_limits.col_min mv_limits.col_max)
  let row := wrap16 (clamp mv.row mv_limits.row_min mv_limits.row_max)
  { row := row, col := col }

/-- The function `clamp_fullmv`; the updated `*mv` is the result. -/
def clamp_fullmv (mv : FULLPEL_MV) (mv_limits : FullMvLimits) : FULLPEL_MV :=
  let col := wrap16 (clamp mv.col mv_limits.col_min mv_limits.col_max)
  let row := wrap16 (clamp mv.row mv_limits.row_min mv_limits.row_max)
  { row := row, col := col }

/-! ## Precision loss and the assertions of `gm_get_motion_vector` -/

/-- Modelled from the spec: the macro `AOMMIN(x, y)` of libaom, the minimum
(`((x) < (y)) ? (x) : (y)`); defined in a header outside the sources. -/
def AOMMIN (x y : Int) : Int := if x < y then x else y

/-- The function `get_gm_precision_loss`. -/
def get_gm_precision_loss (precision : MvSubpelPrecision) : Int :=
  AOMMIN 1 ((MV_SUBPEL_EIGHTH_PRECISION.val : Int) - (precision.val : Int))

/-- Modelled from the spec: the macro `IMPLIES(a, b)` of libaom, `(!(a) || (b))`; defined in a
header outside the sources. -/
def IMPLIES (a b : Bool) : Bool := !a || b

/-- The condition of the `assert` in the TRANSLATION path of `gm_get_motion_vector`,
`IMPLIES(1 & (res.as_mv.row | res.as_mv.col), precision == MV_SUBPEL_EIGHTH_PRECISION)`, on the
fields stored just before it. -/
def gm_translation_assert (gm : WarpedMotionParams) (precision : MvSubpelPrecision) : Bool :=
  let row := wrap16 (gm.wmmat 0 >>> GM_TRANS_ONLY_PREC_DIFF)
  let col := wrap16 (gm.wmmat 1 >>> GM_TRANS_ONLY_PREC_DIFF)
  IMPLIES (decide (Int.land 1 (Int.lor row col) ≠ 0))
    (decide (precision = MV_SUBPEL_EIGHTH_PRECISION))

/-- The two `assert`s of the general path of `gm_get_motion_vector`, evaluated only
`if (gm->wmtype == ROTZOOM)`: `gm->wmmat[5] == gm->wmmat[2]` and
`gm->wmmat[4] == -gm->wmmat[3]`. -/
def gm_rotzoom_asserts (gm : WarpedMotionParams) : Prop :=
  gm.wmtype = ROTZOOM → (gm.wmmat 5 = gm.wmmat 2 ∧ gm.wmmat 4 = neg32 (gm.wmmat 3))

instance (gm : WarpedMotionParams) : Decidable (gm_rotzoom_asserts gm) := by
  unfold gm_rotzoom_asserts; infer_instance

/-! ## Auxiliary definitions for the claims on the general path and on full-pel rounding -/

/-- The value of `xc` in `gm_get_motion_vector` over the integers, at the centre `(x, y)`:
`(mat[2] - (1 << WARPEDMODEL_PREC_BITS)) * x + mat[3] * y + mat[0]`. -/
def gm_xc (gm : WarpedMotionParams) (x y : Int) : Int :=
  (gm.wmmat 2 - 65536) * x + gm.wmmat 3 * y + gm.wmmat 0

/-- The value of `yc` in `gm_get_motion_vector` over the integers, at the centre `(x, y)`:
`mat[4] * x + (mat[5] - (1 << WARPEDMODEL_PREC_BITS)) * y + mat[1]`. -/
def gm_yc (gm : WarpedMotionParams) (x y : Int) : Int :=
  gm.wmmat 4 * x + (gm.wmmat 5 - 65536) * y + gm.wmmat 1

/-- `r` is the full-pel value of the subpel component `x`: the floor of
`(x + 3 + (1 if x >= 0 else 0)) / 8`, an integer nearest to `x / 8` (`|8r - x| <= 4`), farther
from zero than `x / 8` at an exact half, and inside `[-4096, 4096]`. -/
def IsRawpelOf (x r : Int) : Prop :=
  r = Int.fdiv (x + 3 + (if x ≥ 0 then 1 else 0)) 8 ∧
  |8 * r - x| ≤ 4 ∧ (|8 * r - x| = 4 → |x| < |8 * r|) ∧ -4096 ≤ r ∧ r ≤ 4096

/-! ## The reserved vector `INVALID_MV` and the 32-bit view of a vector -/

/-- The macro `INVALID_MV`: `0x80008000`. -/
def INVALID_MV : Int := 0x80008000

/-- The constant `kZeroMv`. -/
def kZeroMv : MV := { row := 0, col := 0 }

/-- The `as_mv` view of the union `int_mv` holding the `uint32_t` value `as_int`: the two
16-bit halves of the word read as `int16_t`.  `row` is the first field of `MV`, so it is the low
half on a little-endian target and the high half on a big-endian target (`big_endian`). -/
def int_mv_as_mv (big_endian : Bool) (as_int : Int) : MV :=
  let lo := as_int % 65536
  let hi := (as_int / 65536) % 65536
  if big_endian then { row := wrap16 hi, col := wrap16 lo }
  else { row := wrap16 lo, col := wrap16 hi }

/-- The `uint32_t` read through `*((const uint32_t *)mv)`: the word whose two 16-bit halves
are the fields of the vector. -/
def mv_as_uint32 (big_endian : Bool) (mv : MV) : Int :=
  if big_endian then (mv.row % 65536) * 65536 + mv.col % 65536
  else (mv.col % 65536) * 65536 + mv.row % 65536

/-- The macro `MARK_MV_INVALID(mv)`: `((int_mv *)(mv))->as_int = INVALID_MV`; the updated
`*mv` is the result. -/
def MARK_MV_INVALID (big_endian : Bool) (_mv : MV) : MV :=
  int_mv_as_mv big_endian INVALID_MV

/-- The function `is_zero_mv`. -/
def is_zero_mv (big_endian : Bool) (mv : MV) : Int :=
  if mv_as_uint32 big_endian mv = 0 then 1 else 0

/-- The function `is_equal_mv`. -/
def is_equal_mv (big_endian : Bool) (a b : MV) : Int :=
  if mv_as_uint32 big_endian a = mv_as_uint32 big_endian b then 1 else 0

/-! ## Parameter counts and parameter bounds of the global-motion model -/

/-- The table `trans_model_params`, indexed by the kind. -/
def trans_model_params : TransformationType → Nat
  | IDENTITY => 0
  | TRANSLATION => 2
  | ROTZOOM => 4
  | AFFINE => 6

/-- The macro `GM_TRANS_PREC_BITS`. -/
def GM_TRANS_PREC_BITS : Nat := 6

/-- The macro `GM_ABS_TRANS_BITS`. -/
def GM_ABS_TRANS_BITS : Nat := 12

/-- The macro `GM_TRANS_PREC_DIFF`: `WARPEDMODEL_PREC_BITS - GM_TRANS_PREC_BITS`. -/
def GM_TRANS_PREC_DIFF : Nat := WARPEDMODEL_PREC_BITS - GM_TRANS_PREC_BITS

/-- The macro `GM_TRANS_DECODE_FACTOR`: `1 << GM_TRANS_PREC_DIFF`. -/
def GM_TRANS_DECODE_FACTOR : Int := ((1 <<< GM_TRANS_PREC_DIFF : Nat) : Int)

/-- The macro `GM_ALPHA_PREC_BITS`. -/
def GM_ALPHA_PREC_BITS : Nat := 15

/-- The macro `GM_ABS_ALPHA_BITS`. -/
def GM_ABS_ALPHA_BITS : Nat := 12

/-- The macro `GM_ALPHA_PREC_DIFF`: `WARPEDMODEL_PREC_BITS - GM_ALPHA_PREC_BITS`. -/
def GM_ALPHA_PREC_DIFF : Nat := WARPEDMODEL_PREC_BITS - GM_ALPHA_PREC_BITS

/-- The macro `GM_ALPHA_DECODE_FACTOR`: `1 << GM_ALPHA_PREC_DIFF`. -/
def GM_ALPHA_DECODE_FACTOR : Int := ((1 <<< GM_ALPHA_PREC_DIFF : Nat) : Int)

/-- The macro `GM_TRANS_MAX`: `1 << GM_ABS_TRANS_BITS`. -/
def GM_TRANS_MAX : Int := ((1 <<< GM_ABS_TRANS_BITS : Nat) : Int)

/-- The macro `GM_ALPHA_MAX`: `1 << GM_ABS_ALPHA_BITS`. -/
def GM_ALPHA_MAX : Int := ((1 <<< GM_ABS_ALPHA_BITS : Nat) : Int)

/-- The documented bounds of the global-motion parameters: the translation coefficients are
within `GM_TRANS_MAX * GM_TRANS_DECODE_FACTOR` of zero and the four linear coefficients, less
the identity, within `GM_ALPHA_MAX * GM_ALPHA_DECODE_FACTOR` of zero. -/
def GmParamsInBounds (gm : WarpedMotionParams) : Prop :=
  |gm.wmmat 0| ≤ GM_TRANS_MAX * GM_TRANS_DECODE_FACTOR ∧
  |gm.wmmat 1| ≤ GM_TRANS_MAX * GM_TRANS_DECODE_FACTOR ∧
  |gm.wmmat 2 - 65536| ≤ GM_ALPHA_MAX * GM_ALPHA_DECODE_FACTOR ∧
  |gm.wmmat 3| ≤ GM_ALPHA_MAX * GM_ALPHA_DECODE_FACTOR ∧
  |gm.wmmat 4| ≤ GM_ALPHA_MAX * GM_ALPHA_DECODE_FACTOR ∧
  |gm.wmmat 5 - 65536| ≤ GM_ALPHA_MAX * GM_ALPHA_DECODE_FACTOR

instance (gm : WarpedMotionParams) : Decidable (GmParamsInBounds gm) := by
  unfold GmParamsInBounds; infer_instance

/-! ## Evaluation of `gm_get_motion_vector` with overflow detection -/

/-- The result of a 32-bit `int` operation whose integer value is `v`: defined when `v` fits
`int32_t`, undefined (signed overflow) otherwise. -/
def checked32 (v : Int) : Option Int := if isInt32 v then some v else none

/-- The function `block_center_x`, every `int` operation checked for overflow. -/
def block_center_x_checked (T : BlockSizeTables) (mi_col : Int) (bs : BLOCK_SIZE) :
    Option Int :=
  let bw := T.block_size_wide bs
  (checked32 (mi_col * MI_SIZE)).bind fun a =>
  (checked32 (a + Int.tdiv bw 2)).bind fun b =>
  checked32 (b - 1)

/-- The function `block_center_y`, every `int` operation checked for overflow. -/
def block_center_y_checked (T : BlockSizeTables) (mi_row : Int) (bs : BLOCK_SIZE) :
    Option Int :=
  let bh := T.block_size_high bs
  (checked32 (mi_row * MI_SIZE)).bind fun a =>
  (checked32 (a + Int.tdiv bh 2)).bind fun b =>
  checked32 (b - 1)

/-- The macro `ROUND_POWER_OF_TWO` (see `ROUND_POWER_OF_TWO`), the rounding addition checked
for overflow. -/
def ROUND_POWER_OF_TWO_checked (value : Int) (n : Nat) : Option Int :=
  (checked32 (value + (((1 <<< n) >>> 1 : Nat) : Int))).bind fun a =>
  some (a >>> n)

/-- The macro `ROUND_POWER_OF_TWO_SIGNED` (see `ROUND_POWER_OF_TWO_SIGNED`), the two
negations and the rounding addition checked for overflow. -/
def ROUND_POWER_OF_TWO_SIGNED_checked (value : Int) (n : Nat) : Option Int :=
  if value < 0 then
    (checked32 (-value)).bind fun a =>
    (ROUND_POWER_OF_TWO_checked a n).bind fun r =>
    checked32 (-r)
  else ROUND_POWER_OF_TWO_checked value n

/-- The function `convert_to_trans_prec`, every `int` operation checked for overflow. -/
def convert_to_trans_prec_checked (precision : MvSubpelPrecision) (coor : Int) : Option Int :=
  if precision.val > MV_SUBPEL_QTR_PRECISION.val then
    ROUND_POWER_OF_TWO_SIGNED_checked coor (WARPEDMODEL_PREC_BITS - 3)
  else
    (ROUND_POWER_OF_TWO_SIGNED_checked coor (WARPEDMODEL_PREC_BITS - 2)).bind fun r =>
    checked32 (r * 2)

/-- The value `xc` of `gm_get_motion_vector` at the centre `(x, y)`, every `int` operation
checked for overflow. -/
def gm_xc_checked (gm : WarpedMotionParams) (x y : Int) : Option Int :=
  let mat := gm.wmmat
  (checked32 (mat 2 - ((1 <<< WARPEDMODEL_PREC_BITS : Nat) : Int))).bind fun a =>
  (checked32 (a * x)).bind fun ax =>
  (checked32 (mat 3 * y)).bind fun b_y =>
  (checked32 (ax + b_y)).bind fun s =>
  checked32 (s + mat 0)

/-- The value `yc` of `gm_get_motion_vector` at the centre `(x, y)`, every `int` operation
checked for overflow. -/
def gm_yc_checked (gm : WarpedMotionParams) (x y : Int) : Option Int :=
  let mat := gm.wmmat
  (checked32 (mat 4 * x)).bind fun cx =>
  (checked32 (mat 5 - ((1 <<< WARPEDMODEL_PREC_BITS : Nat) : Int))).bind fun d =>
  (checked32 (d * y)).bind fun dy =>
  (checked32 (cx + dy)).bind fun s =>
  checked32 (s + mat 1)

/-- The function `gm_get_motion_vector`, every `int` operation checked for overflow: `none`
when the evaluation has a step with signed overflow, the returned vector otherwise. -/
def gm_get_motion_vector_checked (T : BlockSizeTables) (gm : WarpedMotionParams)
    (precision : MvSubpelPrecision) (bsize : BLOCK_SIZE) (mi_col mi_row : Int) : Option MV :=
  if gm.wmtype = IDENTITY then some { row := 0, col := 0 }
  else
    if gm.wmtype = TRANSLATION then
      let res : MV :=
        { row := wrap16 (gm.wmmat 0 >>> GM_TRANS_ONLY_PREC_DIFF),
          col := wrap16 (gm.wmmat 1 >>> GM_TRANS_ONLY_PREC_DIFF) }
      some (lower_mv_precision res precision)
    else
      (block_center_x_checked T mi_col bsize).bind fun x =>
      (block_center_y_checked T mi_row bsize).bind fun y =>
      (gm_xc_checked gm x y).bind fun xc =>
      (gm_yc_checked gm x y).bind fun yc =>
      (convert_to_trans_prec_checked precision xc).bind fun tx =>
      (convert_to_trans_prec_checked precision yc).bind fun ty =>
      let res : MV := { row := wrap16 ty, col := wrap16 tx }
      some (lower_mv_precision res precision)

/-! ## The block hash engine (`av1/encoder/hash_motion.h`) -/

/-- The struct `block_hash`: the position `int16_t x`, `int16_t y` of a block and the second
hash value `uint32_t hash_value2`. -/
structure block_hash where
  x : Int
  y : Int
  hash_value2 : Nat
  deriving DecidableEq, Repr

/-- The struct `hash_table`: `p_lookup_table` holds for every table address a vector of
`block_hash`, here the list of its elements in the order they were pushed (the empty list for a
vector that is not allocated). -/
structure hash_table where
  p_lookup_table : Nat → List block_hash

/-- Modelled from the spec: the hash functions of the engine, which the spec names without
defining them and whose code is outside the sources: the table address of a block ("primary
hash value", "used for bucketing") and its "secondary hash" as functions of the block size and
of the hash value kept for the position, the hash of a 2×2 pixel neighbourhood, and the
combination of the hashes of the four quadrants of a block. -/
structure HashFunctions where
  hash_value1 : Int → Nat → Nat
  hash_value2 : Nat → Nat
  hash_2x2 : Nat → Nat → Nat → Nat → Nat
  hash_compose : Int → Nat → Nat → Nat → Nat → Nat

/-- Modelled from the spec: the luma plane of `YV12_BUFFER_CONFIG` (the picture buffer "read
only through stride-aware addressing"), as its size and the sample at column `x`, row `y`; the
type is declared outside the sources. -/
structure YV12_BUFFER_CONFIG where
  y_crop_width : Int
  y_crop_height : Int
  y_sample : Int → Int → Nat

/-- Modelled from the spec: the table made by `av1_hash_table_create`, with no entry under
any address; the function is declared in `hash_motion.h` and defined outside the sources. -/
def av1_hash_table_create : hash_table := { p_lookup_table := fun _ => [] }

/-- Modelled from the spec: `av1_hash_table_count`, the "number of candidate entries sharing
that key"; declared in `hash_motion.h`, defined outside the sources. -/
def av1_hash_table_count (p_hash_table : hash_table) (hash_value : Nat) : Int :=
  ((p_hash_table.p_lookup_table hash_value).length : Int)

/-- Modelled from the spec: `av1_hash_get_first_iterator`, as the finite sequence the iterator
produces: "every entry under a key, in insertion order"; declared in `hash_motion.h`, defined
outside the sources. -/
def av1_hash_get_first_iterator (p_hash_table : hash_table) (hash_value : Nat) :
    List block_hash :=
  p_hash_table.p_lookup_table hash_value

/-- Modelled from the spec: the insertion of one entry under a table address: the entry is
appended to the vector of the address ("all are retained (no eviction)"); `ok` tells whether
the allocation the insertion needs succeeds, and a failure is "surfaced to the caller". -/
def hash_table_add_to_table (ok : Bool) (p_hash_table : hash_table) (hash_value : Nat)
    (curr_block_hash : block_hash) : Option hash_table :=
  if ok then
    some
      { p_lookup_table :=
          Function.update p_hash_table.p_lookup_table hash_value
            (p_hash_table.p_lookup_table hash_value ++ [curr_block_hash]) }
  else none

/-- The table address under which the block at a position is inserted. -/
def position_key (F : HashFunctions) (pic_hash : Int → Int → Nat) (block_size : Int)
    (p : Int × Int) : Nat :=
  F.hash_value1 block_size (pic_hash p.1 p.2)

/-- The entry inserted for the block at a position: the position stored in the two `int16_t`
fields and the second hash value. -/
def position_entry (F : HashFunctions) (pic_hash : Int → Int → Nat) (p : Int × Int) :
    block_hash :=
  { x := wrap16 p.1, y := wrap16 p.2, hash_value2 := F.hash_value2 (pic_hash p.1 p.2) }

/-- Modelled from the spec: the insertion loop of
`av1_add_to_hash_map_by_row_with_precal_data` over the positions still to visit; `n` counts the
insertions done, `alloc_ok n` tells whether the allocation of insertion `n` succeeds, and the
first failure ends the build with `none`. -/
def add_to_hash_map_loop (F : HashFunctions) (alloc_ok : Nat → Bool)
    (pic_hash : Int → Int → Nat) (block_size : Int) :
    List (Int × Int) → Nat → hash_table → Option hash_table
  | [], _, p_hash_table => some p_hash_table
  | p :: rest, n, p_hash_table =>
    match hash_table_add_to_table (alloc_ok n) p_hash_table
        (position_key F pic_hash block_size p) (position_entry F pic_hash p) with
    | none => none
    | some t => add_to_hash_map_loop F alloc_ok pic_hash block_size rest (n + 1) t

/-- Modelled from the spec: "every valid top-left position of a block of the given size
(stepping by 1 pixel, bounded so the block fits in the picture)", row by row. -/
def block_positions (pic_width pic_height block_size : Int) : List (Int × Int) :=
  let x_end := pic_width - block_size + 1
  let y_end := pic_height - block_size + 1
  (List.range y_end.toNat).flatMap fun (y_pos : Nat) =>
    (List.range x_end.toNat).map fun (x_pos : Nat) => ((x_pos : Int), (y_pos : Int))

/-- Modelled from the spec: `av1_add_to_hash_map_by_row_with_precal_data` ("for every valid
top-left position ... insert a BlockHashEntry keyed by that position's primary hash value,
recording its secondary hash"); `pic_hash` is the plane of hash values addressed by position;
the result is the updated table, `none` for the return value `false`.  Declared in
`hash_motion.h`, defined outside the sources. -/
def av1_add_to_hash_map_by_row_with_precal_data (F : HashFunctions) (alloc_ok : Nat → Bool)
    (p_hash_table : hash_table) (pic_hash : Int → Int → Nat)
    (pic_width pic_height block_size : Int) : Option hash_table :=
  add_to_hash_map_loop F alloc_ok pic_hash block_size
    (block_positions pic_width pic_height block_size) 0 p_hash_table

/-- Modelled from the spec: `av1_generate_block_2x2_hash_value` ("for every pixel position,
compute ... over the 2×2 pixel neighborhood"), as the plane of hash values addressed by
position; positions where the 2×2 block does not fit hold 0.  Declared in `hash_motion.h`,
defined outside the sources. -/
def av1_generate_block_2x2_hash_value (F : HashFunctions) (picture : YV12_BUFFER_CONFIG) :
    Int → Int → Nat :=
  fun x_pos y_pos =>
    if 0 ≤ x_pos ∧ 0 ≤ y_pos ∧ x_pos + 2 ≤ picture.y_crop_width ∧
        y_pos + 2 ≤ picture.y_crop_height then
      F.hash_2x2 (picture.y_sample x_pos y_pos) (picture.y_sample (x_pos + 1) y_pos)
        (picture.y_sample x_pos (y_pos + 1)) (picture.y_sample (x_pos + 1) (y_pos + 1))
    else 0

/-- Modelled from the spec: `av1_generate_block_hash_value` ("for a block of size n×n, combine
the 4 already-computed hash pairs of its n/2 × n/2 quadrants"), from the plane of the previous
level to the plane of this level; positions where the block does not fit hold 0.  Declared in
`hash_motion.h`, defined outside the sources. -/
def av1_generate_block_hash_value (F : HashFunctions) (picture : YV12_BUFFER_CONFIG)
    (block_size : Int) (src_pic_block_hash : Int → Int → Nat) : Int → Int → Nat :=
  let src_size := Int.tdiv block_size 2
  fun x_pos y_pos =>
    if 0 ≤ x_pos ∧ 0 ≤ y_pos ∧ x_pos + block_size ≤ picture.y_crop_width ∧
        y_pos + block_size ≤ picture.y_crop_height then
      F.hash_compose block_size (src_pic_block_hash x_pos y_pos)
        (src_pic_block_hash (x_pos + src_size) y_pos)
        (src_pic_block_hash x_pos (y_pos + src_size))
        (src_pic_block_hash (x_pos + src_size) (y_pos + src_size))
    else 0

/-- Modelled from the spec: the hash pyramid ("levels are block sizes that double at each
step (2×2, 4×4, 8×8, …)"): level `k` is the plane of the block size `2^(k+1)`, built from
the level below. -/
def hash_pyramid (F : HashFunctions) (picture : YV12_BUFFER_CONFIG) : Nat → Int → Int → Nat
  | 0 => av1_generate_block_2x2_hash_value F picture
  | k + 1 =>
    av1_generate_block_hash_value F picture (2 ^ (k + 2)) (hash_pyramid F picture k)

/-- Modelled from the spec: `av1_hash_is_horizontal_perfect` ("true iff every row ... within
the block is a constant color run"); declared in `hash_motion.h`, defined outside the
sources. -/
def av1_hash_is_horizontal_perfect (picture : YV12_BUFFER_CONFIG)
    (block_size x_start y_start : Int) : Int :=
  if (List.range block_size.toNat).all fun i =>
      (List.range block_size.toNat).all fun j =>
        decide (picture.y_sample (x_start + j) (y_start + i) =
          picture.y_sample x_start (y_start + i)) then 1
  else 0

/-- Modelled from the spec: `av1_hash_is_vertical_perfect` ("true iff every ... column
within the block is a constant color run"); declared in `hash_motion.h`, defined outside the
sources. -/
def av1_hash_is_vertical_perfect (picture : YV12_BUFFER_CONFIG)
    (block_size x_start y_start : Int) : Int :=
  if (List.range block_size.toNat).all fun i =>
      (List.range block_size.toNat).all fun j =>
        decide (picture.y_sample (x_start + i) (y_start + j) =
          picture.y_sample (x_start + i) y_start) then 1
  else 0

/-- The block of the given size at `(x_start, y_start)` holds the single sample value `c`. -/
def BlockIsConstant (picture : YV12_BUFFER_CONFIG) (block_size x_start y_start : Int)
    (c : Nat) : Prop :=
  ∀ dx dy : Int, 0 ≤ dx → dx < block_size → 0 ≤ dy → dy < block_size →
    picture.y_sample (x_start + dx) (y_start + dy) = c

/-- The hash value of a block of the level `k` (size `2^(k+1)`) filled with the sample `c`. -/
def constant_block_hash (F : HashFunctions) (c : Nat) : Nat → Nat
  | 0 => F.hash_2x2 c c c c
  | k + 1 =>
    F.hash_compose (2 ^ (k + 2)) (constant_block_hash F c k) (constant_block_hash F c k)
      (constant_block_hash F c k) (constant_block_hash F c k)

/-! ## Conversion from full-pel to subpel vectors -/

/-- The macro `GET_MV_SUBPEL(x)`: `((x)*8)`. -/
def GET_MV_SUBPEL (x : Int) : Int := x * 8

/-- The function `get_mv_from_fullmv`; each `(int16_t)` cast is `wrap16`. -/
def get_mv_from_fullmv (full_mv : FULLPEL_MV) : MV :=
  { row := wrap16 (GET_MV_SUBPEL full_mv.row),
    col := wrap16 (GET_MV_SUBPEL full_mv.col) }

/-! ## Lemmas on the rounding of one component -/

theorem lower_mv_precision_eq (mv : MV) (precision : MvSubpelPrecision) :
    lower_mv_precision mv precision =
      if mv_radix precision = 1 then mv
      else { row := lower_mv_component (mv_radix precision) mv.row,
             col := lower_mv_component (mv_radix precision) mv.col } := rfl

theorem neg_tmod (v r : Int) : Int.tmod (-v) r = -Int.tmod v r := by
  rw [Int.tmod_def, Int.tmod_def, Int.neg_tdiv]; ring

theorem tmod_eq_ite (v r : Int) (hr : 0 < r) :
    Int.tmod v r = if 0 ≤ v then v % r else -((-v) % r) := by
  split
  · next h => exact Int.tmod_eq_emod h hr.le
  · next h =>
    have h1 : Int.tmod v r = -Int.tmod (-v) r := by
      rw [neg_tmod, neg_neg]
    rw [h1, Int.tmod_eq_emod (by omega) hr.le]

theorem mv_radix_eq (precision : MvSubpelPrecision) :
    mv_radix precision = 2 ^ (3 - precision.val) := by
  cases precision <;> rfl

theorem mv_radix_cases (precision : MvSubpelPrecision) :
    mv_radix precision = 8 ∨ mv_radix precision = 4 ∨ mv_radix precision = 2 ∨
      mv_radix precision = 1 := by
  cases precision <;> simp [mv_radix, MvSubpelPrecision.val]

theorem lower_mv_component_one (v : Int) : lower_mv_component 1 v = v := by
  simp [lower_mv_component]

/-- Whatever the precision, a field of the result is `lower_mv_component` of the field. -/
theorem lower_mv_precision_fields (mv : MV) (precision : MvSubpelPrecision) :
    (lower_mv_precision mv precision).row = lower_mv_component (mv_radix precision) mv.row ∧
    (lower_mv_precision mv precision).col = lower_mv_component (mv_radix precision) mv.col := by
  rw [lower_mv_precision_eq]
  split
  · next h => rw [h, lower_mv_component_one, lower_mv_component_one]; exact ⟨rfl, rfl⟩
  · exact ⟨rfl, rfl⟩

/-- The lowered field is a multiple of the radix, for every input (wrapped stores included). -/
theorem lower_mv_component_dvd (r v : Int) (hr : r = 8 ∨ r = 4 ∨ r = 2 ∨ r = 1) :
    r ∣ lower_mv_component r v := by
  rcases hr with rfl | rfl | rfl | rfl <;>
  · unfold lower_mv_component
    rw [tmod_eq_ite _ _ (by norm_num)]
    simp only [ABS, wrap16]
    split_ifs <;> omega

/-- A multiple of the radix is left unchanged. -/
theorem lower_mv_component_of_dvd (r v : Int) (h : r ∣ v) : lower_mv_component r v = v := by
  have h0 : Int.tmod v r = 0 := Int.tmod_eq_zero_of_dvd h
  simp [lower_mv_component, h0]

theorem lower_mv_component_bounds (r v : Int) (hr : r = 8 ∨ r = 4 ∨ r = 2 ∨ r = 1)
    (hv : isInt16 v) (hb : v + r / 2 ≤ 32768) :
    2 * (lower_mv_component r v - v) ≤ r ∧ 2 * (v - lower_mv_component r v) ≤ r ∧
    (2 * (lower_mv_component r v - v) = r → v < 0) ∧
    (2 * (v - lower_mv_component r v) = r → 0 < v) := by
  obtain ⟨hv1, hv2⟩ := hv
  rcases hr with rfl | rfl | rfl | rfl <;>
  · unfold lower_mv_component
    rw [tmod_eq_ite _ _ (by norm_num)]
    simp only [ABS, wrap16]
    split_ifs <;> omega

theorem lower_mv_component_tie (r v : Int) (hr : r = 8 ∨ r = 4 ∨ r = 2 ∨ r = 1)
    (hv : isInt16 v) (hb : v + r / 2 ≤ 32768) (ht : 2 * |Int.tmod v r| = r) :
    (0 < v ∧ 2 * (v - lower_mv_component r v) = r) ∨
    (v < 0 ∧ 2 * (lower_mv_component r v - v) = r) := by
  obtain ⟨hv1, hv2⟩ := hv
  rcases abs_cases (Int.tmod v r) with ⟨h2, _⟩ | ⟨h2, _⟩ <;>
  rw [h2] at ht <;> clear h2 <;>
  rcases hr with rfl | rfl | rfl | rfl <;>
  · unfold lower_mv_component
    rw [tmod_eq_ite _ _ (by norm_num)] at ht ⊢
    simp only [ABS, wrap16]
    split_ifs at ht ⊢ <;> omega

theorem lower_mv_component_nearest (r v : Int) (hr : r = 8 ∨ r = 4 ∨ r = 2 ∨ r = 1)
    (hv : isInt16 v) (hb : v + r / 2 ≤ 32768) :
    RoundsHalfTowardZero r v (lower_mv_component r v) := by
  have hd := lower_mv_component_dvd r v hr
  have hB := lower_mv_component_bounds r v hr hv hb
  have hT := lower_mv_component_tie r v hr hv hb
  generalize lower_mv_component r v = w at *
  obtain ⟨b1, b2, b3, b4⟩ := hB
  refine ⟨hd, ?_, ?_⟩
  · intro m hm
    rcases abs_cases (m - v) with ⟨h2, _⟩ | ⟨h2, _⟩ <;>
    rcases abs_cases (w - v) with ⟨h1, _⟩ | ⟨h1, _⟩ <;>
    rw [h1, h2] <;> clear h1 h2 <;>
    rcases hr with rfl | rfl | rfl | rfl <;> omega
  · intro ht
    rcases hT ht with ⟨h1, h2⟩ | ⟨h1, h2⟩ <;>
    rcases abs_cases w with ⟨h1, _⟩ | ⟨h1, _⟩ <;>
    rcases abs_cases v with ⟨h3, _⟩ | ⟨h3, _⟩ <;>
    rw [h1, h3] <;> clear h1 h3 <;>
    rcases hr with rfl | rfl | rfl | rfl <;> omega

/-- Both fields of the lowered vector are multiples of the radix. -/
theorem lower_mv_precision_dvd (mv : MV) (precision : MvSubpelPrecision) :
    (2 : Int) ^ (3 - precision.val) ∣ (lower_mv_precision mv precision).row ∧
    (2 : Int) ^ (3 - precision.val) ∣ (lower_mv_precision mv precision).col := by
  obtain ⟨hrow, hcol⟩ := lower_mv_precision_fields mv precision
  have h1 := lower_mv_component_dvd _ mv.row (mv_radix_cases precision)
  have h2 := lower_mv_component_dvd _ mv.col (mv_radix_cases precision)
  rw [hrow, hcol, ← mv_radix_eq]
  exact ⟨h1, h2⟩

/-! ## Claims on `lower_mv_precision` -/

/-- C1, counterexample: at precision NONE (radix 8) the fields 4 and -4 lie exactly halfway
between two multiples of 8 and `lower_mv_precision` sends both to 0, towards zero, so the
result is not the half-away-from-zero rounding; and the field 32767 is sent to -32768 by the
wrapping `int16_t` store, which is farther from 32767 than the multiple 32760. -/
theorem lower_mv_precision_half_away_counterexample :
    MV.isValid ⟨4, -4⟩ ∧
    2 * |Int.tmod 4 (2 ^ (3 - MV_SUBPEL_NONE.val))| = 2 ^ (3 - MV_SUBPEL_NONE.val) ∧
    lower_mv_precision ⟨4, -4⟩ MV_SUBPEL_NONE = ⟨0, 0⟩ ∧
    ¬ RoundsHalfAwayFromZero (2 ^ (3 - MV_SUBPEL_NONE.val)) 4
        (lower_mv_precision ⟨4, -4⟩ MV_SUBPEL_NONE).row ∧
    MV.isValid ⟨32767, 0⟩ ∧
    lower_mv_precision ⟨32767, 0⟩ MV_SUBPEL_NONE = ⟨-32768, 0⟩ ∧
    ¬ RoundsHalfAwayFromZero (2 ^ (3 - MV_SUBPEL_NONE.val)) 32767
        (lower_mv_precision ⟨32767, 0⟩ MV_SUBPEL_NONE).row := by
  have h : lower_mv_precision ⟨4, -4⟩ MV_SUBPEL_NONE = ⟨0, 0⟩ := by decide
  have h' : lower_mv_precision ⟨32767, 0⟩ MV_SUBPEL_NONE = ⟨-32768, 0⟩ := by decide
  refine ⟨by decide, by decide, h, ?_, by decide, h', ?_⟩
  · rw [h]
    rintro ⟨-, -, h3⟩
    have := h3 (by decide)
    simp at this
  · rw [h']
    rintro ⟨-, h2, -⟩
    have := h2 32760 (by decide)
    simp at this

/-- C1, amended: for every `int16_t` field `v` of the vector and every precision `p`, with
`radix = 2^(3 - p)`, whenever `v + radix/2 ≤ 32768` (the rounded value fits `int16_t`),
`lower_mv_precision` replaces `v` by the multiple of `radix` nearest to it, and a field
lying exactly halfway between two multiples is rounded towards zero. -/
theorem lower_mv_precision_rounds_half_toward_zero (mv : MV) (precision : MvSubpelPrecision) :
    (isInt16 mv.row → mv.row + 2 ^ (3 - precision.val) / 2 ≤ 32768 →
      RoundsHalfTowardZero (2 ^ (3 - precision.val)) mv.row
        (lower_mv_precision mv precision).row) ∧
    (isInt16 mv.col → mv.col + 2 ^ (3 - precision.val) / 2 ≤ 32768 →
      RoundsHalfTowardZero (2 ^ (3 - precision.val)) mv.col
        (lower_mv_precision mv precision).col) := by
  obtain ⟨hrow, hcol⟩ := lower_mv_precision_fields mv precision
  rw [hrow, hcol, ← mv_radix_eq]
  exact ⟨fun hv hb => lower_mv_component_nearest _ _ (mv_radix_cases precision) hv hb,
    fun hv hb => lower_mv_component_nearest _ _ (mv_radix_cases precision) hv hb⟩

theorem lower_mv_precision_rounds_half_toward_zero_witness :
    RoundsHalfTowardZero (2 ^ (3 - MV_SUBPEL_NONE.val)) (-12)
        (lower_mv_precision ⟨-12, 32764⟩ MV_SUBPEL_NONE).row ∧
    RoundsHalfTowardZero (2 ^ (3 - MV_SUBPEL_NONE.val)) 32764
        (lower_mv_precision ⟨-12, 32764⟩ MV_SUBPEL_NONE).col :=
  ⟨(lower_mv_precision_rounds_half_toward_zero ⟨-12, 32764⟩ MV_SUBPEL_NONE).1
      (by decide) (by decide),
   (lower_mv_precision_rounds_half_toward_zero ⟨-12, 32764⟩ MV_SUBPEL_NONE).2
      (by decide) (by decide)⟩

/-- C8: for every vector (in particular every `int16_t` vector, the extreme values where the
`int16_t` store wraps included) and every precision `p`, both fields of the vector produced by
`lower_mv_precision` are multiples of `2^(3 - p)`: their low `3 - p` bits are zero. -/
theorem lower_mv_precision_multiple (mv : MV) (precision : MvSubpelPrecision) :
    (2 : Int) ^ (3 - precision.val) ∣ (lower_mv_precision mv precision).row ∧
    (2 : Int) ^ (3 - precision.val) ∣ (lower_mv_precision mv precision).col ∧
    (lower_mv_precision mv precision).row % 2 ^ (3 - precision.val) = 0 ∧
    (lower_mv_precision mv precision).col % 2 ^ (3 - precision.val) = 0 := by
  obtain ⟨h1, h2⟩ := lower_mv_precision_dvd mv precision
  exact ⟨h1, h2, Int.emod_eq_zero_of_dvd h1, Int.emod_eq_zero_of_dvd h2⟩

/-- C9: `lower_mv_precision` is idempotent: for every vector and every precision `p`,
lowering the lowered vector again with `p` returns the lowered vector. -/
theorem lower_mv_precision_idempotent (mv : MV) (precision : MvSubpelPrecision) :
    lower_mv_precision (lower_mv_precision mv precision) precision =
      lower_mv_precision mv precision := by
  obtain ⟨hrow, hcol⟩ := lower_mv_precision_fields (lower_mv_precision mv precision) precision
  obtain ⟨hrow1, hcol1⟩ := lower_mv_precision_fields mv precision
  have h1 := lower_mv_component_dvd _ mv.row (mv_radix_cases precision)
  have h2 := lower_mv_component_dvd _ mv.col (mv_radix_cases precision)
  rw [← hrow1] at h1
  rw [← hcol1] at h2
  rw [lower_mv_component_of_dvd _ _ h1] at hrow
  rw [lower_mv_component_of_dvd _ _ h2] at hcol
  cases hm : lower_mv_precision (lower_mv_precision mv precision) precision
  cases hn : lower_mv_precision mv precision
  rw [hm, hn] at hrow hcol
  simp only at hrow hcol
  rw [hrow, hcol]

/-! ## Lemmas on 32-bit arithmetic -/

theorem one_shl_prec_bits : ((1 <<< WARPEDMODEL_PREC_BITS : Nat) : Int) = 65536 := by
  decide

theorem neg32_zero : neg32 0 = 0 := by decide

/-- Away from `INT32_MIN` the 32-bit negation is the mathematical one. -/
theorem neg32_eq_neg (x : Int) (h : isInt32 x) (hmin : x ≠ -2147483648) : neg32 x = -x := by
  obtain ⟨h1, h2⟩ := h
  unfold neg32 wrap32
  omega

/-- The 32-bit negation is injective on `int32_t` values. -/
theorem neg32_injective (x y : Int) (hx : isInt32 x) (hy : isInt32 y)
    (h : neg32 x = neg32 y) : x = y := by
  obtain ⟨h1, h2⟩ := hx
  obtain ⟨h3, h4⟩ := hy
  unfold neg32 wrap32 at h
  omega

/-- The 32-bit negation is an involution on `int32_t` values. -/
theorem neg32_neg32 (x : Int) (hx : isInt32 x) : neg32 (neg32 x) = x := by
  obtain ⟨h1, h2⟩ := hx
  unfold neg32 wrap32
  omega

/-! ## Claims on the warp model -/

/-- C2: for every model whose `wmtype` is IDENTITY, whatever its other fields hold, every
precision, every block size and every `mi_col`, `mi_row`, `gm_get_motion_vector` returns the
zero vector. -/
theorem gm_get_motion_vector_identity (T : BlockSizeTables) (gm : WarpedMotionParams)
    (precision : MvSubpelPrecision) (bsize : BLOCK_SIZE) (mi_col mi_row : Int)
    (h : gm.wmtype = IDENTITY) :
    gm_get_motion_vector T gm precision bsize mi_col mi_row = { row := 0, col := 0 } := by
  unfold gm_get_motion_vector
  rw [if_pos h]

theorem gm_get_motion_vector_identity_witness :
    gm_get_motion_vector ⟨fun _ => 16, fun _ => 8⟩
      { wmmat := ![7, -3, 70000, 5, 9, 1, 2, 3], alpha := 1, beta := 2, gamma := 3, delta := 4,
        wmtype := IDENTITY, invalid := 1 }
      MV_SUBPEL_QTR_PRECISION 3 17 29 = { row := 0, col := 0 } :=
  gm_get_motion_vector_identity _ _ _ _ _ _ rfl

/-- C3: for every model whose `wmtype` is TRANSLATION and every precision,
`gm_get_motion_vector` returns the same vector for any two choices of the block-size tables,
the block size and the block position. -/
theorem gm_get_motion_vector_translation_position_independent
    (T1 T2 : BlockSizeTables) (gm : WarpedMotionParams) (precision : MvSubpelPrecision)
    (bsize1 bsize2 : BLOCK_SIZE) (mi_col1 mi_row1 mi_col2 mi_row2 : Int)
    (h : gm.wmtype = TRANSLATION) :
    gm_get_motion_vector T1 gm precision bsize1 mi_col1 mi_row1 =
      gm_get_motion_vector T2 gm precision bsize2 mi_col2 mi_row2 := by
  unfold gm_get_motion_vector
  simp [h]

theorem gm_get_motion_vector_translation_position_independent_witness :
    gm_get_motion_vector ⟨fun _ => 16, fun _ => 8⟩
      { wmmat := ![81920, -40960, 65536, 0, 0, 65536, 0, 0], alpha := 0, beta := 0,
        gamma := 0, delta := 0, wmtype := TRANSLATION, invalid := 0 }
      MV_SUBPEL_QTR_PRECISION 3 17 29 =
    gm_get_motion_vector ⟨fun _ => 64, fun _ => 128⟩
      { wmmat := ![81920, -40960, 65536, 0, 0, 65536, 0, 0], alpha := 0, beta := 0,
        gamma := 0, delta := 0, wmtype := TRANSLATION, invalid := 0 }
      MV_SUBPEL_QTR_PRECISION 12 0 1000 :=
  gm_get_motion_vector_translation_position_independent _ _ _ _ _ _ _ _ _ _ rfl

/-- C4: `get_wmtype` is exactly the four-way classification `wm_pattern` of the
coefficients: it returns a kind if and only if the coefficients match the pattern of that kind
(IDENTITY: identity linear part and zero translation; TRANSLATION: identity linear part and
non-zero translation; ROTZOOM: linear part not the identity, `wmmat[2] == wmmat[5]` and
`wmmat[3] == -wmmat[4]`; AFFINE: `wmmat[2] != wmmat[5]` or `wmmat[3] != -wmmat[4]`), and
exactly one of the four patterns holds for every input.  Here `-wmmat[4]` is the 32-bit
negation of the code; for `int32_t` values with `wmmat[4]` not `INT32_MIN` the comparison with
it is the comparison with the mathematical negation. -/
theorem get_wmtype_classification (gm : WarpedMotionParams) :
    (∀ k : TransformationType, get_wmtype gm = k ↔ wm_pattern gm.wmmat k) ∧
    (∃! k : TransformationType, wm_pattern gm.wmmat k) ∧
    (isInt32 (gm.wmmat 4) → gm.wmmat 4 ≠ -2147483648 →
      (gm.wmmat 3 = neg32 (gm.wmmat 4) ↔ gm.wmmat 3 = -gm.wmmat 4)) := by
  have key : ∀ k : TransformationType, get_wmtype gm = k ↔ wm_pattern gm.wmmat k := by
    intro k
    unfold get_wmtype
    rw [one_shl_prec_bits]
    by_cases hL : LinearPartIsIdentity gm.wmmat
    · have hL1 := hL
      obtain ⟨h2, h5, h3, h4⟩ := hL1
      rw [if_pos ⟨h5, h4, h2, h3⟩]
      by_cases h01 : gm.wmmat 1 = 0 ∧ gm.wmmat 0 = 0
      · rw [if_pos h01]
        cases k <;> simp [wm_pattern, hL, h01.1, h01.2, h2, h5, h3, h4, neg32_zero]
      · rw [if_neg h01]
        have h01b : gm.wmmat 0 ≠ 0 ∨ gm.wmmat 1 ≠ 0 := by
          by_contra hc
          push_neg at hc
          exact h01 ⟨hc.2, hc.1⟩
        have h01c : ¬ (gm.wmmat 0 = 0 ∧ gm.wmmat 1 = 0) := fun hc => h01 ⟨hc.2, hc.1⟩
        cases k <;> simp [wm_pattern, hL, h01b, h01c, h2, h5, h3, h4, neg32_zero]
    · have hL2 : ¬ (gm.wmmat 5 = 65536 ∧ gm.wmmat 4 = 0 ∧ gm.wmmat 2 = 65536 ∧
          gm.wmmat 3 = 0) := fun hc => hL ⟨hc.2.2.1, hc.1, hc.2.2.2, hc.2.1⟩
      rw [if_neg hL2]
      by_cases hrz : gm.wmmat 2 = gm.wmmat 5 ∧ gm.wmmat 3 = neg32 (gm.wmmat 4)
      · rw [if_pos hrz]
        cases k <;> simp [wm_pattern, hL, hrz.1, hrz.2]
      · rw [if_neg hrz]
        have hrz2 : gm.wmmat 2 ≠ gm.wmmat 5 ∨ gm.wmmat 3 ≠ neg32 (gm.wmmat 4) := by
          by_contra hc
          push_neg at hc
          exact hrz hc
        cases k <;> simp [wm_pattern, hL, hrz, hrz2]
  refine ⟨key, ⟨get_wmtype gm, (key _).1 rfl, fun k hk => ((key k).2 hk).symm⟩, ?_⟩
  intro h32 hmin
  rw [neg32_eq_neg _ h32 hmin]

theorem get_wmtype_classification_witness :
    (default_warp_params.wmmat 3 = neg32 (default_warp_params.wmmat 4) ↔
      default_warp_params.wmmat 3 = -default_warp_params.wmmat 4) :=
  (get_wmtype_classification default_warp_params).2.2 (by decide) (by decide)

/-- C5, counterexample: the coefficients of `default_warp_params` are `int32_t` values that
satisfy the ROTZOOM invariant (`wmmat[5] == wmmat[2]`, `wmmat[4] == -wmmat[3]`, with the 32-bit
and with the mathematical negation), and `get_wmtype` returns IDENTITY on them, not ROTZOOM. -/
theorem get_wmtype_rotzoom_invariant_counterexample :
    default_warp_params.isValid ∧
    RotzoomInvariant default_warp_params.wmmat ∧
    default_warp_params.wmmat 5 = default_warp_params.wmmat 2 ∧
    default_warp_params.wmmat 4 = -default_warp_params.wmmat 3 ∧
    get_wmtype default_warp_params = IDENTITY ∧
    get_wmtype default_warp_params ≠ ROTZOOM := by
  refine ⟨by decide, by decide, by decide, by decide, by decide, by decide⟩

/-- C5, amended: for every `int32_t` coefficient array that satisfies the ROTZOOM invariant
(`wmmat[5] == wmmat[2]` and `wmmat[4] == -wmmat[3]`) and whose linear part is not the identity
(not all of `wmmat[2] == 65536`, `wmmat[5] == 65536`, `wmmat[3] == 0`, `wmmat[4] == 0`),
`get_wmtype` returns ROTZOOM. -/
theorem get_wmtype_rotzoom_of_invariant (gm : WarpedMotionParams) (hv : gm.isValid)
    (hinv : RotzoomInvariant gm.wmmat) (hnl : ¬ LinearPartIsIdentity gm.wmmat) :
    get_wmtype gm = ROTZOOM := by
  obtain ⟨h52, h43⟩ := hinv
  have h34 : gm.wmmat 3 = neg32 (gm.wmmat 4) := by
    rw [h43, neg32_neg32 _ (hv 3)]
  unfold get_wmtype
  rw [one_shl_prec_bits]
  have hL2 : ¬ (gm.wmmat 5 = 65536 ∧ gm.wmmat 4 = 0 ∧ gm.wmmat 2 = 65536 ∧
      gm.wmmat 3 = 0) := fun hc => hnl ⟨hc.2.2.1, hc.1, hc.2.2.2, hc.2.1⟩
  rw [if_neg hL2, if_pos ⟨h52.symm, h34⟩]

theorem get_wmtype_rotzoom_of_invariant_witness :
    get_wmtype
      { wmmat := ![4096, -8192, 65000, 300, -300, 65000, 0, 0], alpha := 0, beta := 0,
        gamma := 0, delta := 0, wmtype := AFFINE, invalid := 0 } = ROTZOOM :=
  get_wmtype_rotzoom_of_invariant _ (by decide) (by decide) (by decide)

/-- C6: for every `int32_t` coefficient array that `get_wmtype` classifies as ROTZOOM,
adding +1 or -1 to any single one of `wmmat[2]`, `wmmat[3]`, `wmmat[4]`, `wmmat[5]` (the sum
still an `int32_t` value) yields an array that `get_wmtype` classifies as AFFINE. -/
theorem get_wmtype_perturbed_rotzoom (gm : WarpedMotionParams) (i : Fin 8) (d : Int)
    (hv : gm.isValid) (hi : i = 2 ∨ i = 3 ∨ i = 4 ∨ i = 5) (hd : d = 1 ∨ d = -1)
    (hno : isInt32 (gm.wmmat i + d)) (hrz : get_wmtype gm = ROTZOOM) :
    get_wmtype (perturb gm i d) = AFFINE := by
  have hne : gm.wmmat i + d ≠ gm.wmmat i := by
    rcases hd with rfl | rfl <;> omega
  unfold get_wmtype at hrz
  rw [one_shl_prec_bits] at hrz
  split_ifs at hrz with hL h01 hr
  obtain ⟨h25, h34⟩ := hr
  unfold get_wmtype perturb
  rw [one_shl_prec_bits]
  rcases hi with rfl | rfl | rfl | rfl
  · have e2 : Function.update gm.wmmat 2 (gm.wmmat 2 + d) 2 = gm.wmmat 2 + d := by simp
    have e5 : Function.update gm.wmmat 2 (gm.wmmat 2 + d) 5 = gm.wmmat 5 :=
      Function.update_noteq (by decide) _ _
    simp only [e2, e5]
    have hx : gm.wmmat 2 + d ≠ gm.wmmat 5 := by rw [← h25]; exact hne
    rw [if_neg (fun hc => hx (by rw [hc.2.2.1, hc.1])), if_neg (fun hc => hx hc.1)]
  · have e3 : Function.update gm.wmmat 3 (gm.wmmat 3 + d) 3 = gm.wmmat 3 + d := by simp
    have e4 : Function.update gm.wmmat 3 (gm.wmmat 3 + d) 4 = gm.wmmat 4 :=
      Function.update_noteq (by decide) _ _
    simp only [e3, e4]
    have hx : gm.wmmat 3 + d ≠ neg32 (gm.wmmat 4) := by rw [← h34]; exact hne
    rw [if_neg (fun hc => hx (by rw [hc.2.2.2, hc.2.1, neg32_zero])),
      if_neg (fun hc => hx hc.2)]
  · have e4 : Function.update gm.wmmat 4 (gm.wmmat 4 + d) 4 = gm.wmmat 4 + d := by simp
    have e3 : Function.update gm.wmmat 4 (gm.wmmat 4 + d) 3 = gm.wmmat 3 :=
      Function.update_noteq (by decide) _ _
    simp only [e3, e4]
    have hx : gm.wmmat 3 ≠ neg32 (gm.wmmat 4 + d) := by
      rw [h34]
      intro hc
      exact hne (neg32_injective _ _ hno (hv 4) hc.symm)
    rw [if_neg (fun hc => hx (by rw [hc.2.2.2, hc.2.1, neg32_zero])),
      if_neg (fun hc => hx hc.2)]
  · have e5 : Function.update gm.wmmat 5 (gm.wmmat 5 + d) 5 = gm.wmmat 5 + d := by simp
    have e2 : Function.update gm.wmmat 5 (gm.wmmat 5 + d) 2 = gm.wmmat 2 :=
      Function.update_noteq (by decide) _ _
    simp only [e2, e5]
    have hx : gm.wmmat 2 ≠ gm.wmmat 5 + d := by rw [h25]; exact hne.symm
    rw [if_neg (fun hc => hx (by rw [hc.2.2.1, hc.1])), if_neg (fun hc => hx hc.1)]

theorem get_wmtype_perturbed_rotzoom_witness :
    get_wmtype (perturb
      { wmmat := ![4096, -8192, 65000, 300, -300, 65000, 0, 0], alpha := 0, beta := 0,
        gamma := 0, delta := 0, wmtype := ROTZOOM, invalid := 0 } 4 (-1)) = AFFINE :=
  get_wmtype_perturbed_rotzoom _ 4 (-1) (by decide) (by decide) (by decide) (by decide)
    (by decide)

theorem is_same_wm_params_loop_spec (p1 p2 : WarpedMotionParams) (l : List (Fin 8)) :
    (is_same_wm_params_loop p1 p2 l = 1 ↔ ∀ i ∈ l, p1.wmmat i = p2.wmmat i) ∧
    (is_same_wm_params_loop p1 p2 l = 1 ∨ is_same_wm_params_loop p1 p2 l = 0) := by
  induction l with
  | nil => simp [is_same_wm_params_loop]
  | cons i rest ih =>
    unfold is_same_wm_params_loop
    by_cases h : p1.wmmat i = p2.wmmat i
    · rw [if_neg (not_not.mpr h)]
      refine ⟨?_, ih.2⟩
      rw [ih.1]
      simp [h]
    · rw [if_pos h]
      simp [h]

/-- C7: for every pair of models, `is_same_wm_params` returns 1 if and only if the `invalid`
flags, the `wmtype` tags, `alpha`, `beta`, `gamma`, `delta` are pairwise equal and `wmmat[i]`
is equal for every `i` in 0..7; otherwise it returns 0. -/
theorem is_same_wm_params_iff (p1 p2 : WarpedMotionParams) :
    (is_same_wm_params p1 p2 = 1 ↔
      p1.invalid = p2.invalid ∧ p1.wmtype = p2.wmtype ∧ p1.alpha = p2.alpha ∧
      p1.beta = p2.beta ∧ p1.gamma = p2.gamma ∧ p1.delta = p2.delta ∧
      ∀ i : Fin 8, p1.wmmat i = p2.wmmat i) ∧
    (is_same_wm_params p1 p2 = 1 ∨ is_same_wm_params p1 p2 = 0) := by
  obtain ⟨hl1, hl2⟩ := is_same_wm_params_loop_spec p1 p2 [0, 1, 2, 3, 4, 5, 6, 7]
  have hall : (∀ i ∈ ([0, 1, 2, 3, 4, 5, 6, 7] : List (Fin 8)), p1.wmmat i = p2.wmmat i) ↔
      ∀ i : Fin 8, p1.wmmat i = p2.wmmat i := by
    constructor
    · intro h i
      exact h i (by fin_cases i <;> simp)
    · intro h i _
      exact h i
  rw [hall] at hl1
  unfold is_same_wm_params
  constructor
  · split_ifs with h1 h2 h3 h4 h5 h6 <;> simp_all
  · split_ifs <;> simp [hl2]

/-- C10: for every model (any `wmtype`), every precision `p`, every block size and every
`mi_col`, `mi_row`, both fields of the vector returned by `gm_get_motion_vector` are multiples
of `2^(3 - p)`: the bottom bit is zero whenever `p < EIGHTH`, and the bottom three bits are
zero when `p == NONE`. -/
theorem gm_get_motion_vector_multiple (T : BlockSizeTables) (gm : WarpedMotionParams)
    (precision : MvSubpelPrecision) (bsize : BLOCK_SIZE) (mi_col mi_row : Int) :
    ((2 : Int) ^ (3 - precision.val) ∣
        (gm_get_motion_vector T gm precision bsize mi_col mi_row).row ∧
      (2 : Int) ^ (3 - precision.val) ∣
        (gm_get_motion_vector T gm precision bsize mi_col mi_row).col) ∧
    (precision.val < MV_SUBPEL_EIGHTH_PRECISION.val →
      (gm_get_motion_vector T gm precision bsize mi_col mi_row).row % 2 = 0 ∧
      (gm_get_motion_vector T gm precision bsize mi_col mi_row).col % 2 = 0) ∧
    (precision = MV_SUBPEL_NONE →
      (gm_get_motion_vector T gm precision bsize mi_col mi_row).row % 8 = 0 ∧
      (gm_get_motion_vector T gm precision bsize mi_col mi_row).col % 8 = 0) := by
  have hd : (2 : Int) ^ (3 - precision.val) ∣
        (gm_get_motion_vector T gm precision bsize mi_col mi_row).row ∧
      (2 : Int) ^ (3 - precision.val) ∣
        (gm_get_motion_vector T gm precision bsize mi_col mi_row).col := by
    unfold gm_get_motion_vector
    split_ifs
    · exact ⟨dvd_zero _, dvd_zero _⟩
    · exact lower_mv_precision_dvd _ _
    · exact lower_mv_precision_dvd _ _
  obtain ⟨hr, hc⟩ := hd
  generalize (gm_get_motion_vector T gm precision bsize mi_col mi_row).row = r at hr ⊢
  generalize (gm_get_motion_vector T gm precision bsize mi_col mi_row).col = c at hc ⊢
  refine ⟨⟨hr, hc⟩, ?_, ?_⟩
  · intro hp
    cases precision <;> simp [MvSubpelPrecision.val] at hp hr hc <;> omega
  · intro hp
    subst hp
    simp [MvSubpelPrecision.val] at hr hc
    omega

theorem gm_get_motion_vector_multiple_witness :
    (gm_get_motion_vector ⟨fun _ => 16, fun _ => 8⟩
      { wmmat := ![4096, -8192, 65000, 300, -300, 65000, 0, 0], alpha := 0, beta := 0,
        gamma := 0, delta := 0, wmtype := ROTZOOM, invalid := 0 }
      MV_SUBPEL_NONE 3 17 29).row % 8 = 0 ∧
    (gm_get_motion_vector ⟨fun _ => 16, fun _ => 8⟩
      { wmmat := ![4096, -8192, 65000, 300, -300, 65000, 0, 0], alpha := 0, beta := 0,
        gamma := 0, delta := 0, wmtype := ROTZOOM, invalid := 0 }
      MV_SUBPEL_NONE 3 17 29).col % 8 = 0 :=
  (gm_get_motion_vector_multiple _ _ MV_SUBPEL_NONE 3 17 29).2.2 rfl

/-! ## Lemmas on stores, congruences modulo `2^32` and parity -/

theorem wrap16_of_isInt16 (x : Int) (h : isInt16 x) : wrap16 x = x := by
  obtain ⟨h1, h2⟩ := h
  unfold wrap16
  omega

theorem wrap32_of_isInt32 (x : Int) (h : isInt32 x) : wrap32 x = x := by
  obtain ⟨h1, h2⟩ := h
  unfold wrap32
  omega

theorem wrap32_modEq (x : Int) : wrap32 x ≡ x [ZMOD 4294967296] := by
  unfold Int.ModEq wrap32
  omega

theorem wrap32_congr (x y : Int) (h : x ≡ y [ZMOD 4294967296]) : wrap32 x = wrap32 y := by
  unfold Int.ModEq at h
  unfold wrap32
  omega

theorem block_center_x_modEq (T : BlockSizeTables) (mi_col : Int) (bs : BLOCK_SIZE) :
    block_center_x T mi_col bs ≡
      mi_col * MI_SIZE + Int.tdiv (T.block_size_wide bs) 2 - 1 [ZMOD 4294967296] := by
  unfold block_center_x sub32 add32 mul32
  exact (wrap32_modEq _).trans
    (((wrap32_modEq _).trans ((wrap32_modEq _).add (Int.ModEq.refl _))).sub (Int.ModEq.refl 1))

theorem block_center_y_modEq (T : BlockSizeTables) (mi_row : Int) (bs : BLOCK_SIZE) :
    block_center_y T mi_row bs ≡
      mi_row * MI_SIZE + Int.tdiv (T.block_size_high bs) 2 - 1 [ZMOD 4294967296] := by
  unfold block_center_y sub32 add32 mul32
  exact (wrap32_modEq _).trans
    (((wrap32_modEq _).trans ((wrap32_modEq _).add (Int.ModEq.refl _))).sub (Int.ModEq.refl 1))

theorem xc_modEq (gm : WarpedMotionParams) (x y x' y' : Int)
    (hx : x ≡ x' [ZMOD 4294967296]) (hy : y ≡ y' [ZMOD 4294967296]) :
    add32 (add32 (mul32 (sub32 (gm.wmmat 2) 65536) x) (mul32 (gm.wmmat 3) y)) (gm.wmmat 0) =
      wrap32 (gm_xc gm x' y') := by
  unfold add32 mul32 sub32 gm_xc
  apply wrap32_congr
  refine Int.ModEq.add ((wrap32_modEq _).trans (Int.ModEq.add ?_ ?_)) (Int.ModEq.refl _)
  · exact (wrap32_modEq _).trans ((wrap32_modEq _).mul hx)
  · exact (wrap32_modEq _).trans ((Int.ModEq.refl _).mul hy)

theorem yc_modEq (gm : WarpedMotionParams) (x y x' y' : Int)
    (hx : x ≡ x' [ZMOD 4294967296]) (hy : y ≡ y' [ZMOD 4294967296]) :
    add32 (add32 (mul32 (gm.wmmat 4) x) (mul32 (sub32 (gm.wmmat 5) 65536) y)) (gm.wmmat 1) =
      wrap32 (gm_yc gm x' y') := by
  unfold add32 mul32 sub32 gm_yc
  apply wrap32_congr
  refine Int.ModEq.add ((wrap32_modEq _).trans (Int.ModEq.add ?_ ?_)) (Int.ModEq.refl _)
  · exact (wrap32_modEq _).trans ((Int.ModEq.refl _).mul hx)
  · exact (wrap32_modEq _).trans ((wrap32_modEq _).mul hy)

/-- The general path of `gm_get_motion_vector` in terms of the integer values of `xc`, `yc`. -/
theorem gm_get_motion_vector_general_eq (T : BlockSizeTables) (gm : WarpedMotionParams)
    (precision : MvSubpelPrecision) (bsize : BLOCK_SIZE) (mi_col mi_row : Int)
    (h : gm.wmtype = ROTZOOM ∨ gm.wmtype = AFFINE) :
    gm_get_motion_vector T gm precision bsize mi_col mi_row =
      lower_mv_precision
        { row := wrap16 (convert_to_trans_prec precision (wrap32 (gm_yc gm
            (mi_col * MI_SIZE + Int.tdiv (T.block_size_wide bsize) 2 - 1)
            (mi_row * MI_SIZE + Int.tdiv (T.block_size_high bsize) 2 - 1)))),
          col := wrap16 (convert_to_trans_prec precision (wrap32 (gm_xc gm
            (mi_col * MI_SIZE + Int.tdiv (T.block_size_wide bsize) 2 - 1)
            (mi_row * MI_SIZE + Int.tdiv (T.block_size_high bsize) 2 - 1)))) }
        precision := by
  have h1 : gm.wmtype ≠ IDENTITY := by rcases h with h | h <;> rw [h] <;> decide
  have h2 : gm.wmtype ≠ TRANSLATION := by rcases h with h | h <;> rw [h] <;> decide
  unfold gm_get_motion_vector
  rw [if_neg h1, if_neg h2, one_shl_prec_bits]
  simp only
  rw [xc_modEq gm _ _ _ _ (block_center_x_modEq T mi_col bsize)
      (block_center_y_modEq T mi_row bsize),
    yc_modEq gm _ _ _ _ (block_center_x_modEq T mi_col bsize)
      (block_center_y_modEq T mi_row bsize)]

theorem land_zero_left (y : Int) : Int.land 0 y = 0 := by
  cases y with
  | ofNat n =>
    show ((0 &&& n : Nat) : Int) = 0
    simp
  | negSucc n =>
    show ((Nat.ldiff 0 n : Nat) : Int) = 0
    simp [Nat.ldiff]

theorem bodd_eq_false_of_even (a : Int) (ha : a % 2 = 0) : a.bodd = false := by
  have h := Int.bodd_add_div2 a
  rw [Int.div2_val] at h
  cases hb : a.bodd
  · rfl
  · rw [hb] at h
    simp only [cond_true] at h
    omega

/-- The bottom bit of `a | b` is clear when `a` and `b` are even. -/
theorem land_one_lor_of_even (a b : Int) (ha : a % 2 = 0) (hb : b % 2 = 0) :
    Int.land 1 (Int.lor a b) = 0 := by
  have h1 : (1 : Int) = Int.bit true 0 := by decide
  rw [← Int.bit_decomp a, ← Int.bit_decomp b, h1, Int.lor_bit, Int.land_bit,
    bodd_eq_false_of_even a ha, bodd_eq_false_of_even b hb, land_zero_left]
  rfl

/-- A coefficient with 14 clear low bits is even after the shift by 13 and the store. -/
theorem shifted_even (c : Int) (h : c % 2 ^ 14 = 0) :
    wrap16 (c >>> GM_TRANS_ONLY_PREC_DIFF) % 2 = 0 := by
  have e : GM_TRANS_ONLY_PREC_DIFF = 13 := rfl
  rw [e, Int.shiftRight_eq_div_pow]
  unfold wrap16
  norm_num at h ⊢
  omega

/-! ## Lemmas on the rounding macros -/

theorem ROUND_POWER_OF_TWO_SIGNED_13 (coor : Int) (h : |coor| + 4096 ≤ 2147483647) :
    ROUND_POWER_OF_TWO_SIGNED coor 13 =
      if coor < 0 then -((-coor + 4096) / 8192) else (coor + 4096) / 8192 := by
  have habs := abs_le.mp (show |coor| ≤ 2147483647 - 4096 by omega)
  obtain ⟨h1, h2⟩ := habs
  unfold ROUND_POWER_OF_TWO_SIGNED ROUND_POWER_OF_TWO neg32 add32 wrap32
  simp only [Int.shiftRight_eq_div_pow]
  norm_num
  split_ifs <;> omega

theorem ROUND_POWER_OF_TWO_SIGNED_14 (coor : Int) (h : |coor| + 8192 ≤ 2147483647) :
    ROUND_POWER_OF_TWO_SIGNED coor 14 =
      if coor < 0 then -((-coor + 8192) / 16384) else (coor + 8192) / 16384 := by
  have habs := abs_le.mp (show |coor| ≤ 2147483647 - 8192 by omega)
  obtain ⟨h1, h2⟩ := habs
  unfold ROUND_POWER_OF_TWO_SIGNED ROUND_POWER_OF_TWO neg32 add32 wrap32
  simp only [Int.shiftRight_eq_div_pow]
  norm_num
  split_ifs <;> omega

theorem rounds_half_away_13 (v r : Int)
    (hr : r = if v < 0 then -((-v + 4096) / 8192) else (v + 4096) / 8192) :
    RoundsHalfAwayFromZero 8192 v (8192 * r) := by
  refine ⟨dvd_mul_right _ _, ?_, ?_⟩
  · intro m hm
    rcases abs_cases (m - v) with ⟨e2, _⟩ | ⟨e2, _⟩ <;>
    rcases abs_cases (8192 * r - v) with ⟨e1, _⟩ | ⟨e1, _⟩ <;>
    rw [e1, e2] <;> clear e1 e2 <;> split_ifs at hr <;> omega
  · intro ht
    rw [tmod_eq_ite _ _ (by norm_num)] at ht
    rcases abs_cases (8192 * r) with ⟨e1, _⟩ | ⟨e1, _⟩ <;>
    rcases abs_cases v with ⟨e3, _⟩ | ⟨e3, _⟩ <;>
    rw [e1, e3] <;> clear e1 e3 <;> split_ifs at hr ht <;>
    first
    | omega
    | (rcases abs_cases (v % 8192) with ⟨e2, _⟩ | ⟨e2, _⟩ <;> rw [e2] at ht <;> omega)
    | (rw [abs_neg] at ht
       rcases abs_cases (-v % 8192) with ⟨e2, _⟩ | ⟨e2, _⟩ <;> rw [e2] at ht <;> omega)

theorem rounds_half_away_14 (v r : Int)
    (hr : r = if v < 0 then -((-v + 8192) / 16384) else (v + 8192) / 16384) :
    RoundsHalfAwayFromZero 16384 v (16384 * r) := by
  refine ⟨dvd_mul_right _ _, ?_, ?_⟩
  · intro m hm
    rcases abs_cases (m - v) with ⟨e2, _⟩ | ⟨e2, _⟩ <;>
    rcases abs_cases (16384 * r - v) with ⟨e1, _⟩ | ⟨e1, _⟩ <;>
    rw [e1, e2] <;> clear e1 e2 <;> split_ifs at hr <;> omega
  · intro ht
    rw [tmod_eq_ite _ _ (by norm_num)] at ht
    rcases abs_cases (16384 * r) with ⟨e1, _⟩ | ⟨e1, _⟩ <;>
    rcases abs_cases v with ⟨e3, _⟩ | ⟨e3, _⟩ <;>
    rw [e1, e3] <;> clear e1 e3 <;> split_ifs at hr ht <;>
    first
    | omega
    | (rcases abs_cases (v % 16384) with ⟨e2, _⟩ | ⟨e2, _⟩ <;> rw [e2] at ht <;> omega)
    | (rw [abs_neg] at ht
       rcases abs_cases (-v % 16384) with ⟨e2, _⟩ | ⟨e2, _⟩ <;> rw [e2] at ht <;> omega)

theorem GET_MV_RAWPEL_eq (x : Int) :
    GET_MV_RAWPEL x = (x + 3 + (if x ≥ 0 then 1 else 0)) / 8 := by
  unfold GET_MV_RAWPEL
  rw [Int.shiftRight_eq_div_pow]
  norm_num

theorem GET_MV_RAWPEL_spec (x : Int) (hx : isInt16 x) :
    IsRawpelOf x (GET_MV_RAWPEL x) := by
  obtain ⟨h1, h2⟩ := hx
  have hr := GET_MV_RAWPEL_eq x
  have hb : -4096 ≤ GET_MV_RAWPEL x ∧ GET_MV_RAWPEL x ≤ 4096 := by
    rw [hr]; split_ifs <;> omega
  refine ⟨?_, ?_, ?_, hb.1, hb.2⟩
  · rw [hr, Int.fdiv_eq_ediv _ (by norm_num)]
  · rw [abs_le]
    rw [hr]; split_ifs <;> omega
  · generalize GET_MV_RAWPEL x = r at *
    intro ht
    rcases abs_cases (8 * r - x) with ⟨e1, _⟩ | ⟨e1, _⟩ <;>
    rcases abs_cases (8 * r) with ⟨e2, _⟩ | ⟨e2, _⟩ <;>
    rcases abs_cases x with ⟨e3, _⟩ | ⟨e3, _⟩ <;>
    rw [e1] at ht <;> rw [e2, e3] <;> clear e1 e2 e3 <;> split_ifs at hr <;> omega

theorem clamp_bounds (value low high : Int) (h : low ≤ high) :
    low ≤ clamp value low high ∧ clamp value low high ≤ high := by
  unfold clamp
  split_ifs <;> omega

/-! ## Claims on the paths of `gm_get_motion_vector` -/

/-- C11: for every model with `wmtype == TRANSLATION` whose shifted coefficients fit in
`int16_t`, `gm_get_motion_vector` returns `lower_mv_precision` applied to the vector
(row = `wmmat[0] >> 13`, col = `wmmat[1] >> 13`), where `>>` by
`WARPEDMODEL_PREC_BITS - 3` is the arithmetic shift: the floor of the division by `2^13`. -/
theorem gm_get_motion_vector_translation (T : BlockSizeTables) (gm : WarpedMotionParams)
    (precision : MvSubpelPrecision) (bsize : BLOCK_SIZE) (mi_col mi_row : Int)
    (h : gm.wmtype = TRANSLATION)
    (h0 : isInt16 (gm.wmmat 0 >>> (WARPEDMODEL_PREC_BITS - 3)))
    (h1 : isInt16 (gm.wmmat 1 >>> (WARPEDMODEL_PREC_BITS - 3))) :
    gm_get_motion_vector T gm precision bsize mi_col mi_row =
      lower_mv_precision
        { row := gm.wmmat 0 >>> (WARPEDMODEL_PREC_BITS - 3),
          col := gm.wmmat 1 >>> (WARPEDMODEL_PREC_BITS - 3) } precision ∧
    gm.wmmat 0 >>> (WARPEDMODEL_PREC_BITS - 3) = Int.fdiv (gm.wmmat 0) (2 ^ 13) ∧
    gm.wmmat 1 >>> (WARPEDMODEL_PREC_BITS - 3) = Int.fdiv (gm.wmmat 1) (2 ^ 13) := by
  have e : WARPEDMODEL_PREC_BITS - 3 = 13 := rfl
  have hne : gm.wmtype ≠ IDENTITY := by rw [h]; decide
  refine ⟨?_, ?_, ?_⟩
  · unfold gm_get_motion_vector
    rw [if_neg hne, if_pos h]
    simp only [GM_TRANS_ONLY_PREC_DIFF]
    rw [wrap16_of_isInt16 _ h0, wrap16_of_isInt16 _ h1]
  · rw [e, Int.shiftRight_eq_div_pow, Int.fdiv_eq_ediv _ (by norm_num)]
    norm_num
  · rw [e, Int.shiftRight_eq_div_pow, Int.fdiv_eq_ediv _ (by norm_num)]
    norm_num

theorem gm_get_motion_vector_translation_witness :
    gm_get_motion_vector ⟨fun _ => 16, fun _ => 8⟩
      { wmmat := ![81920, -40961, 65536, 0, 0, 65536, 0, 0], alpha := 0, beta := 0,
        gamma := 0, delta := 0, wmtype := TRANSLATION, invalid := 0 }
      MV_SUBPEL_QTR_PRECISION 3 17 29 =
      lower_mv_precision
        { row := (81920 : Int) >>> (WARPEDMODEL_PREC_BITS - 3),
          col := (-40961 : Int) >>> (WARPEDMODEL_PREC_BITS - 3) } MV_SUBPEL_QTR_PRECISION ∧
    (81920 : Int) >>> (WARPEDMODEL_PREC_BITS - 3) = Int.fdiv 81920 (2 ^ 13) ∧
    (-40961 : Int) >>> (WARPEDMODEL_PREC_BITS - 3) = Int.fdiv (-40961) (2 ^ 13) :=
  gm_get_motion_vector_translation ⟨fun _ => 16, fun _ => 8⟩
    { wmmat := ![81920, -40961, 65536, 0, 0, 65536, 0, 0], alpha := 0, beta := 0,
      gamma := 0, delta := 0, wmtype := TRANSLATION, invalid := 0 }
    MV_SUBPEL_QTR_PRECISION 3 17 29 rfl (by decide) (by decide)

/-- C12: for every model with `wmtype` ROTZOOM or AFFINE, with
`x = mi_col*MI_SIZE + block_width/2 - 1` and `y = mi_row*MI_SIZE + block_height/2 - 1`
(`MI_SIZE = 4`), `gm_get_motion_vector` returns `lower_mv_precision` of the vector whose col is
`convert_to_trans_prec(precision, (wmmat[2] - 65536)*x + wmmat[3]*y + wmmat[0])` and whose row
is `convert_to_trans_prec(precision, wmmat[4]*x + (wmmat[5] - 65536)*y + wmmat[1])`, each
stored as `int16_t`.  The two arguments are 32-bit `int` values (`wrap32` of the integer
expressions); when the integer expressions fit in 32 bits they are the expressions
themselves. -/
theorem gm_get_motion_vector_general (T : BlockSizeTables) (gm : WarpedMotionParams)
    (precision : MvSubpelPrecision) (bsize : BLOCK_SIZE) (mi_col mi_row : Int)
    (h : gm.wmtype = ROTZOOM ∨ gm.wmtype = AFFINE) :
    MI_SIZE = 4 ∧
    gm_get_motion_vector T gm precision bsize mi_col mi_row =
      lower_mv_precision
        { row := wrap16 (convert_to_trans_prec precision (wrap32 (gm_yc gm
            (mi_col * MI_SIZE + Int.tdiv (T.block_size_wide bsize) 2 - 1)
            (mi_row * MI_SIZE + Int.tdiv (T.block_size_high bsize) 2 - 1)))),
          col := wrap16 (convert_to_trans_prec precision (wrap32 (gm_xc gm
            (mi_col * MI_SIZE + Int.tdiv (T.block_size_wide bsize) 2 - 1)
            (mi_row * MI_SIZE + Int.tdiv (T.block_size_high bsize) 2 - 1)))) }
        precision ∧
    (isInt32 (gm_xc gm
        (mi_col * MI_SIZE + Int.tdiv (T.block_size_wide bsize) 2 - 1)
        (mi_row * MI_SIZE + Int.tdiv (T.block_size_high bsize) 2 - 1)) →
      isInt32 (gm_yc gm
        (mi_col * MI_SIZE + Int.tdiv (T.block_size_wide bsize) 2 - 1)
        (mi_row * MI_SIZE + Int.tdiv (T.block_size_high bsize) 2 - 1)) →
      gm_get_motion_vector T gm precision bsize mi_col mi_row =
        lower_mv_precision
          { row := wrap16 (convert_to_trans_prec precision (gm_yc gm
              (mi_col * MI_SIZE + Int.tdiv (T.block_size_wide bsize) 2 - 1)
              (mi_row * MI_SIZE + Int.tdiv (T.block_size_high bsize) 2 - 1))),
            col := wrap16 (convert_to_trans_prec precision (gm_xc gm
              (mi_col * MI_SIZE + Int.tdiv (T.block_size_wide bsize) 2 - 1)
              (mi_row * MI_SIZE + Int.tdiv (T.block_size_high bsize) 2 - 1))) }
          precision) := by
  have key := gm_get_motion_vector_general_eq T gm precision bsize mi_col mi_row h
  refine ⟨rfl, key, ?_⟩
  intro hx hy
  rw [key, wrap32_of_isInt32 _ hx, wrap32_of_isInt32 _ hy]

theorem gm_get_motion_vector_general_witness :
    gm_get_motion_vector ⟨fun _ => 16, fun _ => 8⟩
      { wmmat := ![4096, -8192, 65000, 300, -300, 65000, 0, 0], alpha := 0, beta := 0,
        gamma := 0, delta := 0, wmtype := ROTZOOM, invalid := 0 }
      MV_SUBPEL_NONE 3 17 29 =
      lower_mv_precision
        { row := wrap16 (convert_to_trans_prec MV_SUBPEL_NONE (-94476)),
          col := wrap16 (convert_to_trans_prec MV_SUBPEL_NONE (-404)) }
        MV_SUBPEL_NONE :=
  (gm_get_motion_vector_general ⟨fun _ => 16, fun _ => 8⟩
    { wmmat := ![4096, -8192, 65000, 300, -300, 65000, 0, 0], alpha := 0, beta := 0,
      gamma := 0, delta := 0, wmtype := ROTZOOM, invalid := 0 }
    MV_SUBPEL_NONE 3 17 29 (Or.inl rfl)).2.2 (by decide) (by decide)

/-- C13: for every `coor` in the range where no `int32_t` overflow occurs
(`|coor| + 2^12 <= INT32_MAX` at EIGHTH, `|coor| + 2^13 <= INT32_MAX` at a coarser precision),
`convert_to_trans_prec(EIGHTH, coor)` is `coor / 2^13` rounded to the nearest integer with
halves away from zero, and for every coarser precision `convert_to_trans_prec` returns exactly
2 times (`coor / 2^14` rounded to the nearest integer with halves away from zero);
`ROUND_POWER_OF_TWO_SIGNED(v, n)` is the sign-symmetric `(v + 2^(n-1)) >> n`. -/
theorem convert_to_trans_prec_rounds (precision : MvSubpelPrecision) (coor : Int) :
    (precision = MV_SUBPEL_EIGHTH_PRECISION → |coor| + 4096 ≤ 2147483647 →
      convert_to_trans_prec precision coor =
        (if coor < 0 then -((-coor + 4096) / 8192) else (coor + 4096) / 8192) ∧
      RoundsHalfAwayFromZero 8192 coor (8192 * convert_to_trans_prec precision coor)) ∧
    (precision ≠ MV_SUBPEL_EIGHTH_PRECISION → |coor| + 8192 ≤ 2147483647 →
      convert_to_trans_prec precision coor =
        2 * (if coor < 0 then -((-coor + 8192) / 16384) else (coor + 8192) / 16384) ∧
      RoundsHalfAwayFromZero 16384 coor
        (16384 * (if coor < 0 then -((-coor + 8192) / 16384) else (coor + 8192) / 16384))) := by
  constructor
  · intro hp hc
    subst hp
    have e : convert_to_trans_prec MV_SUBPEL_EIGHTH_PRECISION coor =
        ROUND_POWER_OF_TWO_SIGNED coor 13 := rfl
    rw [e, ROUND_POWER_OF_TWO_SIGNED_13 coor hc]
    exact ⟨rfl, rounds_half_away_13 coor _ rfl⟩
  · intro hp hc
    have e : convert_to_trans_prec precision coor =
        mul32 (ROUND_POWER_OF_TWO_SIGNED coor 14) 2 := by
      cases precision <;> first | rfl | exact absurd rfl hp
    have habs := abs_le.mp (show |coor| ≤ 2147483647 - 8192 by omega)
    refine ⟨?_, rounds_half_away_14 coor _ rfl⟩
    rw [e, ROUND_POWER_OF_TWO_SIGNED_14 coor hc]
    unfold mul32 wrap32
    split_ifs <;> omega

theorem convert_to_trans_prec_rounds_witness :
    (convert_to_trans_prec MV_SUBPEL_EIGHTH_PRECISION (-12288) =
        (if (-12288 : Int) < 0 then -((-(-12288) + 4096) / 8192) else (-12288 + 4096) / 8192) ∧
      RoundsHalfAwayFromZero 8192 (-12288)
        (8192 * convert_to_trans_prec MV_SUBPEL_EIGHTH_PRECISION (-12288))) ∧
    (convert_to_trans_prec MV_SUBPEL_HALF_PRECISION 24576 =
        2 * (if (24576 : Int) < 0 then -((-24576 + 8192) / 16384) else (24576 + 8192) / 16384) ∧
      RoundsHalfAwayFromZero 16384 24576
        (16384 * (if (24576 : Int) < 0 then -((-24576 + 8192) / 16384)
          else (24576 + 8192) / 16384))) :=
  ⟨(convert_to_trans_prec_rounds MV_SUBPEL_EIGHTH_PRECISION (-12288)).1 rfl (by decide),
   (convert_to_trans_prec_rounds MV_SUBPEL_HALF_PRECISION 24576).2 (by decide) (by decide)⟩

/-- C14: the coarse-tier rule of `convert_to_trans_prec` is not rounding at eighth-pel
followed by lowering the precision: at `coor = 8192`, `convert_to_trans_prec(QTR, coor)` is 2
while `lower_mv_precision` at QTR applied to `convert_to_trans_prec(EIGHTH, coor) = 1` is 0. -/
theorem convert_to_trans_prec_coarse_differs :
    convert_to_trans_prec MV_SUBPEL_QTR_PRECISION 8192 = 2 ∧
    convert_to_trans_prec MV_SUBPEL_EIGHTH_PRECISION 8192 = 1 ∧
    lower_mv_precision
      { row := convert_to_trans_prec MV_SUBPEL_EIGHTH_PRECISION 8192,
        col := convert_to_trans_prec MV_SUBPEL_EIGHTH_PRECISION 8192 }
      MV_SUBPEL_QTR_PRECISION = { row := 0, col := 0 } ∧
    ∃ coor : Int,
      lower_mv_precision
        { row := convert_to_trans_prec MV_SUBPEL_EIGHTH_PRECISION coor,
          col := convert_to_trans_prec MV_SUBPEL_EIGHTH_PRECISION coor }
        MV_SUBPEL_QTR_PRECISION ≠
      { row := convert_to_trans_prec MV_SUBPEL_QTR_PRECISION coor,
        col := convert_to_trans_prec MV_SUBPEL_QTR_PRECISION coor } := by
  refine ⟨by decide, by decide, by decide, 8192, by decide⟩

/-! ## Claims on full-pel conversion and clamping -/

/-- C15: for every `int16_t` subpel component `x`, `get_fullmv_from_mv` returns
`r = floor((x + 3 + (1 if x >= 0 else 0)) / 8)`; `r` is the integer nearest to `x/8`
(`|8r - x| <= 4`) with exact halves rounded away from zero, and `r` always lies in
`[-4096, 4096]`, so the `int16_t` cast never truncates. -/
theorem get_fullmv_from_mv_rounds (mv : MV) :
    (isInt16 mv.row →
      IsRawpelOf mv.row (get_fullmv_from_mv mv).row ∧
      (get_fullmv_from_mv mv).row = GET_MV_RAWPEL mv.row) ∧
    (isInt16 mv.col →
      IsRawpelOf mv.col (get_fullmv_from_mv mv).col ∧
      (get_fullmv_from_mv mv).col = GET_MV_RAWPEL mv.col) := by
  constructor
  · intro hx
    have hs := GET_MV_RAWPEL_spec mv.row hx
    have e : (get_fullmv_from_mv mv).row = GET_MV_RAWPEL mv.row :=
      wrap16_of_isInt16 _ ⟨by have := hs.2.2.2.1; omega, by have := hs.2.2.2.2; omega⟩
    rw [e]
    exact ⟨hs, rfl⟩
  · intro hx
    have hs := GET_MV_RAWPEL_spec mv.col hx
    have e : (get_fullmv_from_mv mv).col = GET_MV_RAWPEL mv.col :=
      wrap16_of_isInt16 _ ⟨by have := hs.2.2.2.1; omega, by have := hs.2.2.2.2; omega⟩
    rw [e]
    exact ⟨hs, rfl⟩

theorem get_fullmv_from_mv_rounds_witness :
    (IsRawpelOf (-12) (get_fullmv_from_mv ⟨-12, 32767⟩).row ∧
      (get_fullmv_from_mv ⟨-12, 32767⟩).row = GET_MV_RAWPEL (-12)) ∧
    (IsRawpelOf 32767 (get_fullmv_from_mv ⟨-12, 32767⟩).col ∧
      (get_fullmv_from_mv ⟨-12, 32767⟩).col = GET_MV_RAWPEL 32767) :=
  ⟨(get_fullmv_from_mv_rounds ⟨-12, 32767⟩).1 (by decide),
   (get_fullmv_from_mv_rounds ⟨-12, 32767⟩).2 (by decide)⟩

/-- C16, counterexample: with the limits `col_min = 10`, `col_max = 5` (all limits inside the
`int16_t` range) the component `col = 7` is below its axis minimum and above its axis maximum;
`clamp_mv` sets it to 10, which is not the maximum 5 (no result can be both). -/
theorem clamp_mv_inverted_limits_counterexample :
    isInt16 10 ∧ isInt16 5 ∧ isInt16 0 ∧ MV.isValid ⟨0, 7⟩ ∧
    (7 : Int) < 10 ∧ (7 : Int) > 5 ∧
    (clamp_mv ⟨0, 7⟩ ⟨10, 5, 0, 0⟩).col = 10 ∧
    (clamp_mv ⟨0, 7⟩ ⟨10, 5, 0, 0⟩).col ≠ 5 := by
  decide

/-- C16, amended: for every vector and every limits inside the `int16_t` range with
`min <= max` on the axis, `clamp_mv` sets a component that is below its axis minimum to exactly
that minimum and a component above its axis maximum to exactly that maximum, and returns
unchanged a component that lies inside `[min, max]` of its axis; the row result depends only on
row and the row limits, the col result only on col and the col limits. -/
theorem clamp_mv_boundary (mv : MV) (mv_limits : SubpelMvLimits) :
    (isInt16 mv_limits.col_min → isInt16 mv_limits.col_max →
      mv_limits.col_min ≤ mv_limits.col_max →
      (mv.col < mv_limits.col_min → (clamp_mv mv mv_limits).col = mv_limits.col_min) ∧
      (mv.col > mv_limits.col_max → (clamp_mv mv mv_limits).col = mv_limits.col_max) ∧
      (mv_limits.col_min ≤ mv.col → mv.col ≤ mv_limits.col_max →
        (clamp_mv mv mv_limits).col = mv.col)) ∧
    (isInt16 mv_limits.row_min → isInt16 mv_limits.row_max →
      mv_limits.row_min ≤ mv_limits.row_max →
      (mv.row < mv_limits.row_min → (clamp_mv mv mv_limits).row = mv_limits.row_min) ∧
      (mv.row > mv_limits.row_max → (clamp_mv mv mv_limits).row = mv_limits.row_max) ∧
      (mv_limits.row_min ≤ mv.row → mv.row ≤ mv_limits.row_max →
        (clamp_mv mv mv_limits).row = mv.row)) ∧
    (∀ (mv' : MV) (mv_limits' : SubpelMvLimits), mv'.row = mv.row →
      mv_limits'.row_min = mv_limits.row_min → mv_limits'.row_max = mv_limits.row_max →
      (clamp_mv mv' mv_limits').row = (clamp_mv mv mv_limits).row) ∧
    (∀ (mv' : MV) (mv_limits' : SubpelMvLimits), mv'.col = mv.col →
      mv_limits'.col_min = mv_limits.col_min → mv_limits'.col_max = mv_limits.col_max →
      (clamp_mv mv' mv_limits').col = (clamp_mv mv mv_limits).col) := by
  refine ⟨?_, ?_, ?_, ?_⟩
  · rintro ⟨a1, a2⟩ ⟨b1, b2⟩ hle
    simp only [clamp_mv, clamp, wrap16]
    refine ⟨fun h => ?_, fun h => ?_, fun h h' => ?_⟩ <;> split_ifs <;> omega
  · rintro ⟨a1, a2⟩ ⟨b1, b2⟩ hle
    simp only [clamp_mv, clamp, wrap16]
    refine ⟨fun h => ?_, fun h => ?_, fun h h' => ?_⟩ <;> split_ifs <;> omega
  · intro mv' l' h1 h2 h3
    simp only [clamp_mv, h1, h2, h3]
  · intro mv' l' h1 h2 h3
    simp only [clamp_mv, h1, h2, h3]

theorem clamp_mv_boundary_witness :
    (((-40 : Int) < -16 → (clamp_mv ⟨9, -40⟩ ⟨-16, 24, -8, 8⟩).col = -16) ∧
      ((-40 : Int) > 24 → (clamp_mv ⟨9, -40⟩ ⟨-16, 24, -8, 8⟩).col = 24) ∧
      ((-16 : Int) ≤ -40 → (-40 : Int) ≤ 24 →
        (clamp_mv ⟨9, -40⟩ ⟨-16, 24, -8, 8⟩).col = -40)) ∧
    (((9 : Int) < -8 → (clamp_mv ⟨9, -40⟩ ⟨-16, 24, -8, 8⟩).row = -8) ∧
      ((9 : Int) > 8 → (clamp_mv ⟨9, -40⟩ ⟨-16, 24, -8, 8⟩).row = 8) ∧
      ((-8 : Int) ≤ 9 → (9 : Int) ≤ 8 → (clamp_mv ⟨9, -40⟩ ⟨-16, 24, -8, 8⟩).row = 9)) :=
  ⟨(clamp_mv_boundary ⟨9, -40⟩ ⟨-16, 24, -8, 8⟩).1 (by decide) (by decide) (by decide),
   (clamp_mv_boundary ⟨9, -40⟩ ⟨-16, 24, -8, 8⟩).2.1 (by decide) (by decide) (by decide)⟩

/-- C17: for every vector and every limits with `col_min <= col_max` and `row_min <= row_max`,
all inside the `int16_t` range, the vector produced by `clamp_mv` satisfies
`col_min <= col <= col_max` and `row_min <= row <= row_max`. -/
theorem clamp_mv_within_limits (mv : MV) (mv_limits : SubpelMvLimits)
    (hc1 : isInt16 mv_limits.col_min) (hc2 : isInt16 mv_limits.col_max)
    (hr1 : isInt16 mv_limits.row_min) (hr2 : isInt16 mv_limits.row_max)
    (hc : mv_limits.col_min ≤ mv_limits.col_max)
    (hr : mv_limits.row_min ≤ mv_limits.row_max) :
    mv_limits.col_min ≤ (clamp_mv mv mv_limits).col ∧
    (clamp_mv mv mv_limits).col ≤ mv_limits.col_max ∧
    mv_limits.row_min ≤ (clamp_mv mv mv_limits).row ∧
    (clamp_mv mv mv_limits).row ≤ mv_limits.row_max := by
  obtain ⟨c1, c2⟩ := clamp_bounds mv.col _ _ hc
  obtain ⟨r1, r2⟩ := clamp_bounds mv.row _ _ hr
  have ec : (clamp_mv mv mv_limits).col =
      clamp mv.col mv_limits.col_min mv_limits.col_max :=
    wrap16_of_isInt16 _ ⟨le_trans hc1.1 c1, le_trans c2 hc2.2⟩
  have er : (clamp_mv mv mv_limits).row =
      clamp mv.row mv_limits.row_min mv_limits.row_max :=
    wrap16_of_isInt16 _ ⟨le_trans hr1.1 r1, le_trans r2 hr2.2⟩
  rw [ec, er]
  exact ⟨c1, c2, r1, r2⟩

theorem clamp_mv_within_limits_witness :
    (-16 : Int) ≤ (clamp_mv ⟨9, -40⟩ ⟨-16, 24, -8, 8⟩).col ∧
    (clamp_mv ⟨9, -40⟩ ⟨-16, 24, -8, 8⟩).col ≤ 24 ∧
    (-8 : Int) ≤ (clamp_mv ⟨9, -40⟩ ⟨-16, 24, -8, 8⟩).row ∧
    (clamp_mv ⟨9, -40⟩ ⟨-16, 24, -8, 8⟩).row ≤ 8 :=
  clamp_mv_within_limits ⟨9, -40⟩ ⟨-16, 24, -8, 8⟩ (by decide) (by decide) (by decide)
    (by decide) (by decide) (by decide)

/-- C18: `clamp_fullmv` and `clamp_mv` compute the same function: for every `(row, col)` and
every four limit values, `clamp_fullmv` on a `FULLPEL_MV` with `FullMvLimits` yields the same
row and col numbers as `clamp_mv` on an `MV` with `SubpelMvLimits` holding the same numbers. -/
theorem clamp_fullmv_eq_clamp_mv (row col col_min col_max row_min row_max : Int) :
    (clamp_fullmv { row := row, col := col }
        { col_min := col_min, col_max := col_max, row_min := row_min, row_max := row_max }).row =
      (clamp_mv { row := row, col := col }
        { col_min := col_min, col_max := col_max, row_min := row_min, row_max := row_max }).row ∧
    (clamp_fullmv { row := row, col := col }
        { col_min := col_min, col_max := col_max, row_min := row_min, row_max := row_max }).col =
      (clamp_mv { row := row, col := col }
        { col_min := col_min, col_max := col_max, row_min := row_min, row_max := row_max }).col := by
  unfold clamp_fullmv clamp_mv
  exact ⟨rfl, rfl⟩

/-! ## Claims on the assertions of `gm_get_motion_vector` -/

/-- C19: whenever `get_wmtype` returns ROTZOOM for an `int32_t` coefficient array, that array
satisfies `wmmat[5] == wmmat[2]` and `wmmat[4] == -wmmat[3]`; hence for every model whose
`wmtype` tag equals `get_wmtype` of its own coefficients, the two ROTZOOM assertions inside
`gm_get_motion_vector` hold.  `-wmmat[3]` is the 32-bit negation of the code, which is the
mathematical negation unless `wmmat[3]` is `INT32_MIN`. -/
theorem get_wmtype_rotzoom_asserts (gm : WarpedMotionParams) (hv : gm.isValid) :
    (get_wmtype gm = ROTZOOM →
      gm.wmmat 5 = gm.wmmat 2 ∧ gm.wmmat 4 = neg32 (gm.wmmat 3)) ∧
    (gm.wmtype = get_wmtype gm → gm_rotzoom_asserts gm) ∧
    (gm.wmmat 3 ≠ -2147483648 →
      (gm.wmmat 4 = neg32 (gm.wmmat 3) ↔ gm.wmmat 4 = -gm.wmmat 3)) := by
  have key : get_wmtype gm = ROTZOOM →
      gm.wmmat 5 = gm.wmmat 2 ∧ gm.wmmat 4 = neg32 (gm.wmmat 3) := by
    intro hrz
    unfold get_wmtype at hrz
    split_ifs at hrz with hL h01 hr
    obtain ⟨h25, h34⟩ := hr
    refine ⟨h25.symm, ?_⟩
    rw [h34, neg32_neg32 _ (hv 4)]
  refine ⟨key, ?_, ?_⟩
  · intro htag hrz
    exact key (by rw [← htag]; exact hrz)
  · intro hmin
    rw [neg32_eq_neg _ (hv 3) hmin]

theorem get_wmtype_rotzoom_asserts_witness :
    gm_rotzoom_asserts
      { wmmat := ![4096, -8192, 65000, 300, -300, 65000, 0, 0], alpha := 0, beta := 0,
        gamma := 0, delta := 0, wmtype := ROTZOOM, invalid := 0 } :=
  (get_wmtype_rotzoom_asserts
      { wmmat := ![4096, -8192, 65000, 300, -300, 65000, 0, 0], alpha := 0, beta := 0,
        gamma := 0, delta := 0, wmtype := ROTZOOM, invalid := 0 } (by decide)).2.1 (by decide)

/-- C20: for every model (in particular every TRANSLATION model) and precision such that the
low `13 + get_gm_precision_loss(precision)` bits of `wmmat[0]` and of `wmmat[1]` are zero
(13 bits at EIGHTH, 14 bits at any coarser precision), the assertion in the translation path
of `gm_get_motion_vector` (a set bottom bit of row or col implies `precision == EIGHTH`)
holds. -/
theorem gm_translation_assert_holds (gm : WarpedMotionParams) (precision : MvSubpelPrecision)
    (h0 : gm.wmmat 0 % 2 ^ (13 + (get_gm_precision_loss precision).toNat) = 0)
    (h1 : gm.wmmat 1 % 2 ^ (13 + (get_gm_precision_loss precision).toNat) = 0) :
    gm_translation_assert gm precision = true ∧
    13 + (get_gm_precision_loss precision).toNat =
      (if precision = MV_SUBPEL_EIGHTH_PRECISION then 13 else 14) := by
  constructor
  · unfold gm_translation_assert IMPLIES
    by_cases hp : precision = MV_SUBPEL_EIGHTH_PRECISION
    · simp [hp]
    · have hl : (get_gm_precision_loss precision).toNat = 1 := by
        cases precision <;> first | rfl | exact absurd rfl hp
      rw [hl] at h0 h1
      have e := land_one_lor_of_even _ _ (shifted_even _ h0) (shifted_even _ h1)
      simp only [e]
      simp
  · cases precision <;> rfl

theorem gm_translation_assert_holds_witness :
    gm_translation_assert
      { wmmat := ![81920, -49152, 65536, 0, 0, 65536, 0, 0], alpha := 0, beta := 0,
        gamma := 0, delta := 0, wmtype := TRANSLATION, invalid := 0 }
      MV_SUBPEL_QTR_PRECISION = true ∧
    13 + (get_gm_precision_loss MV_SUBPEL_QTR_PRECISION).toNat =
      (if MV_SUBPEL_QTR_PRECISION = MV_SUBPEL_EIGHTH_PRECISION then 13 else 14) :=
  gm_translation_assert_holds
    { wmmat := ![81920, -49152, 65536, 0, 0, 65536, 0, 0], alpha := 0, beta := 0,
      gamma := 0, delta := 0, wmtype := TRANSLATION, invalid := 0 }
    MV_SUBPEL_QTR_PRECISION (by decide) (by decide)

/-! ## Lemmas on the evaluation with overflow detection -/

theorem checked32_of_isInt32 (v : Int) (h : isInt32 v) : checked32 v = some v := by
  unfold checked32
  rw [if_pos h]

theorem abs_mul_le_of_le (a x A X : Int) (ha : |a| ≤ A) (hx : |x| ≤ X) : |a * x| ≤ A * X := by
  rw [abs_mul]
  exact mul_le_mul ha hx (abs_nonneg _) (le_trans (abs_nonneg _) ha)

theorem gm_constants :
    GM_TRANS_MAX * GM_TRANS_DECODE_FACTOR = 4194304 ∧
    GM_ALPHA_MAX * GM_ALPHA_DECODE_FACTOR = 8192 := by
  decide

/-- Under the bounds on the block position and size the centre coordinate is computed without
overflow, equals its integer value and lies in `[-1, 65595]`. -/
theorem block_center_checked_eq (mi w : Int) (h0 : 0 ≤ mi) (h1 : mi < 16384)
    (hw0 : 0 ≤ w) (hw1 : w ≤ 128) :
    ((checked32 (mi * MI_SIZE)).bind fun a =>
      (checked32 (a + Int.tdiv w 2)).bind fun b => checked32 (b - 1)) =
        some (mi * MI_SIZE + Int.tdiv w 2 - 1) ∧
    sub32 (add32 (mul32 mi MI_SIZE) (Int.tdiv w 2)) 1 = mi * MI_SIZE + Int.tdiv w 2 - 1 ∧
    -1 ≤ mi * MI_SIZE + Int.tdiv w 2 - 1 ∧ mi * MI_SIZE + Int.tdiv w 2 - 1 ≤ 65595 := by
  have hd : Int.tdiv w 2 = w / 2 := Int.tdiv_eq_ediv hw0 (by norm_num)
  have hM : MI_SIZE = 4 := rfl
  rw [hd, hM]
  have i1 : isInt32 (mi * 4) := ⟨by omega, by omega⟩
  have i2 : isInt32 (mi * 4 + w / 2) := ⟨by omega, by omega⟩
  have i3 : isInt32 (mi * 4 + w / 2 - 1) := ⟨by omega, by omega⟩
  refine ⟨?_, ?_, by omega, by omega⟩
  · rw [checked32_of_isInt32 _ i1]
    simp only [Option.some_bind]
    rw [checked32_of_isInt32 _ i2]
    simp only [Option.some_bind]
    rw [checked32_of_isInt32 _ i3]
  · unfold sub32 add32 mul32
    rw [wrap32_of_isInt32 _ i1, wrap32_of_isInt32 _ i2, wrap32_of_isInt32 _ i3]

/-- With coefficients inside the documented bounds and a centre in `[-1, 65595]`, `xc` is
computed without overflow and equals its integer value, at most `1078902784` in magnitude. -/
theorem gm_xc_checked_eq (gm : WarpedMotionParams) (x y : Int)
    (hb : GmParamsInBounds gm) (hx0 : -1 ≤ x) (hx1 : x ≤ 65595) (hy0 : -1 ≤ y)
    (hy1 : y ≤ 65595) :
    gm_xc_checked gm x y = some (gm_xc gm x y) ∧
    add32 (add32 (mul32 (sub32 (gm.wmmat 2) 65536) x) (mul32 (gm.wmmat 3) y)) (gm.wmmat 0) =
      gm_xc gm x y ∧
    |gm_xc gm x y| ≤ 1078902784 := by
  unfold GmParamsInBounds at hb
  rw [gm_constants.1, gm_constants.2] at hb
  obtain ⟨b0, b1, b2, b3, b4, b5⟩ := hb
  have hx : |x| ≤ 65595 := abs_le.mpr ⟨by omega, hx1⟩
  have hy : |y| ≤ 65595 := abs_le.mpr ⟨by omega, hy1⟩
  have p1 := abs_le.mp (abs_mul_le_of_le _ _ _ _ b2 hx)
  have p2 := abs_le.mp (abs_mul_le_of_le _ _ _ _ b3 hy)
  have q0 := abs_le.mp b0
  have q2 := abs_le.mp b2
  norm_num at p1 p2
  have i1 : isInt32 (gm.wmmat 2 - 65536) := ⟨by omega, by omega⟩
  have i2 : isInt32 ((gm.wmmat 2 - 65536) * x) := ⟨by omega, by omega⟩
  have i3 : isInt32 (gm.wmmat 3 * y) := ⟨by omega, by omega⟩
  have i4 : isInt32 ((gm.wmmat 2 - 65536) * x + gm.wmmat 3 * y) := ⟨by omega, by omega⟩
  have i5 : isInt32 ((gm.wmmat 2 - 65536) * x + gm.wmmat 3 * y + gm.wmmat 0) :=
    ⟨by omega, by omega⟩
  refine ⟨?_, ?_, ?_⟩
  · unfold gm_xc_checked gm_xc
    rw [one_shl_prec_bits]
    simp only []
    rw [checked32_of_isInt32 _ i1]
    simp only [Option.some_bind]
    rw [checked32_of_isInt32 _ i2]
    simp only [Option.some_bind]
    rw [checked32_of_isInt32 _ i3]
    simp only [Option.some_bind]
    rw [checked32_of_isInt32 _ i4]
    simp only [Option.some_bind]
    rw [checked32_of_isInt32 _ i5]
  · unfold add32 mul32 sub32 gm_xc
    rw [wrap32_of_isInt32 _ i1, wrap32_of_isInt32 _ i2, wrap32_of_isInt32 _ i3,
      wrap32_of_isInt32 _ i4, wrap32_of_isInt32 _ i5]
  · unfold gm_xc
    rw [abs_le]
    constructor <;> omega

/-- The same for `yc`. -/
theorem gm_yc_checked_eq (gm : WarpedMotionParams) (x y : Int)
    (hb : GmParamsInBounds gm) (hx0 : -1 ≤ x) (hx1 : x ≤ 65595) (hy0 : -1 ≤ y)
    (hy1 : y ≤ 65595) :
    gm_yc_checked gm x y = some (gm_yc gm x y) ∧
    add32 (add32 (mul32 (gm.wmmat 4) x) (mul32 (sub32 (gm.wmmat 5) 65536) y)) (gm.wmmat 1) =
      gm_yc gm x y ∧
    |gm_yc gm x y| ≤ 1078902784 := by
  unfold GmParamsInBounds at hb
  rw [gm_constants.1, gm_constants.2] at hb
  obtain ⟨b0, b1, b2, b3, b4, b5⟩ := hb
  have hx : |x| ≤ 65595 := abs_le.mpr ⟨by omega, hx1⟩
  have hy : |y| ≤ 65595 := abs_le.mpr ⟨by omega, hy1⟩
  have p1 := abs_le.mp (abs_mul_le_of_le _ _ _ _ b4 hx)
  have p2 := abs_le.mp (abs_mul_le_of_le _ _ _ _ b5 hy)
  have q1 := abs_le.mp b1
  have q5 := abs_le.mp b5
  norm_num at p1 p2
  have i1 : isInt32 (gm.wmmat 4 * x) := ⟨by omega, by omega⟩
  have i2 : isInt32 (gm.wmmat 5 - 65536) := ⟨by omega, by omega⟩
  have i3 : isInt32 ((gm.wmmat 5 - 65536) * y) := ⟨by omega, by omega⟩
  have i4 : isInt32 (gm.wmmat 4 * x + (gm.wmmat 5 - 65536) * y) := ⟨by omega, by omega⟩
  have i5 : isInt32 (gm.wmmat 4 * x + (gm.wmmat 5 - 65536) * y + gm.wmmat 1) :=
    ⟨by omega, by omega⟩
  refine ⟨?_, ?_, ?_⟩
  · unfold gm_yc_checked gm_yc
    rw [one_shl_prec_bits]
    simp only []
    rw [checked32_of_isInt32 _ i1]
    simp only [Option.some_bind]
    rw [checked32_of_isInt32 _ i2]
    simp only [Option.some_bind]
    rw [checked32_of_isInt32 _ i3]
    simp only [Option.some_bind]
    rw [checked32_of_isInt32 _ i4]
    simp only [Option.some_bind]
    rw [checked32_of_isInt32 _ i5]
  · unfold add32 mul32 sub32 gm_yc
    rw [wrap32_of_isInt32 _ i1, wrap32_of_isInt32 _ i2, wrap32_of_isInt32 _ i3,
      wrap32_of_isInt32 _ i4, wrap32_of_isInt32 _ i5]
  · unfold gm_yc
    rw [abs_le]
    constructor <;> omega

theorem ROUND_POWER_OF_TWO_SIGNED_checked_13 (coor : Int) (h : |coor| + 4096 ≤ 2147483647) :
    ROUND_POWER_OF_TWO_SIGNED_checked coor 13 = some (ROUND_POWER_OF_TWO_SIGNED coor 13) := by
  have hc := ROUND_POWER_OF_TWO_SIGNED_13 coor h
  have habs := abs_le.mp (show |coor| ≤ 2147483647 - 4096 by omega)
  obtain ⟨h1, h2⟩ := habs
  rw [hc]
  unfold ROUND_POWER_OF_TWO_SIGNED_checked ROUND_POWER_OF_TWO_checked
  have e : (((1 <<< 13) >>> 1 : Nat) : Int) = 4096 := by decide
  rw [e]
  split_ifs with hneg
  · rw [checked32_of_isInt32 (-coor) ⟨by omega, by omega⟩]
    simp only [Option.some_bind]
    rw [checked32_of_isInt32 (-coor + 4096) ⟨by omega, by omega⟩]
    simp only [Option.some_bind, Int.shiftRight_eq_div_pow]
    norm_num
    rw [checked32_of_isInt32 _ ⟨by omega, by omega⟩]
  · rw [checked32_of_isInt32 (coor + 4096) ⟨by omega, by omega⟩]
    simp only [Option.some_bind, Int.shiftRight_eq_div_pow]
    norm_num

theorem ROUND_POWER_OF_TWO_SIGNED_checked_14 (coor : Int) (h : |coor| + 8192 ≤ 2147483647) :
    ROUND_POWER_OF_TWO_SIGNED_checked coor 14 = some (ROUND_POWER_OF_TWO_SIGNED coor 14) := by
  have hc := ROUND_POWER_OF_TWO_SIGNED_14 coor h
  have habs := abs_le.mp (show |coor| ≤ 2147483647 - 8192 by omega)
  obtain ⟨h1, h2⟩ := habs
  rw [hc]
  unfold ROUND_POWER_OF_TWO_SIGNED_checked ROUND_POWER_OF_TWO_checked
  have e : (((1 <<< 14) >>> 1 : Nat) : Int) = 8192 := by decide
  rw [e]
  split_ifs with hneg
  · rw [checked32_of_isInt32 (-coor) ⟨by omega, by omega⟩]
    simp only [Option.some_bind]
    rw [checked32_of_isInt32 (-coor + 8192) ⟨by omega, by omega⟩]
    simp only [Option.some_bind, Int.shiftRight_eq_div_pow]
    norm_num
    rw [checked32_of_isInt32 _ ⟨by omega, by omega⟩]
  · rw [checked32_of_isInt32 (coor + 8192) ⟨by omega, by omega⟩]
    simp only [Option.some_bind, Int.shiftRight_eq_div_pow]
    norm_num

/-- Without overflow of the rounding additions `convert_to_trans_prec` is computed without
overflow and the checked evaluation returns its value. -/
theorem convert_to_trans_prec_checked_eq (precision : MvSubpelPrecision) (coor : Int)
    (h : |coor| + 8192 ≤ 2147483647) :
    convert_to_trans_prec_checked precision coor =
      some (convert_to_trans_prec precision coor) := by
  have habs := abs_le.mp (show |coor| ≤ 2147483647 - 8192 by omega)
  obtain ⟨h1, h2⟩ := habs
  by_cases hp : precision = MV_SUBPEL_EIGHTH_PRECISION
  · subst hp
    exact ROUND_POWER_OF_TWO_SIGNED_checked_13 coor (by omega)
  · have e1 : convert_to_trans_prec precision coor =
        mul32 (ROUND_POWER_OF_TWO_SIGNED coor 14) 2 := by
      cases precision <;> first | rfl | exact absurd rfl hp
    have e2 : convert_to_trans_prec_checked precision coor =
        (ROUND_POWER_OF_TWO_SIGNED_checked coor 14).bind fun r => checked32 (r * 2) := by
      cases precision <;> first | rfl | exact absurd rfl hp
    rw [e1, e2, ROUND_POWER_OF_TWO_SIGNED_checked_14 coor h]
    simp only [Option.some_bind]
    have hc := ROUND_POWER_OF_TWO_SIGNED_14 coor h
    have hi : isInt32 (ROUND_POWER_OF_TWO_SIGNED coor 14 * 2) := by
      rw [hc]
      constructor <;> split_ifs <;> omega
    rw [checked32_of_isInt32 _ hi]
    unfold mul32
    rw [wrap32_of_isInt32 _ hi]

/-! ## Claims on the translation shift and on overflow -/

/-- C21, counterexample: `c = INT32_MIN` is an `int32_t` value whose low 14 bits are zero, and
`c >> 13` is -262144 while `convert_to_trans_prec` returns 262144 at EIGHTH and at QTR: the
negation `-(value)` inside `ROUND_POWER_OF_TWO_SIGNED` overflows (it wraps to `INT32_MIN` in two's
complement), and the checked evaluation has no defined result there. -/
theorem shift_eq_convert_to_trans_prec_counterexample :
    isInt32 (-2147483648) ∧ (-2147483648 : Int) % 2 ^ 14 = 0 ∧
    (-2147483648 : Int) >>> GM_TRANS_ONLY_PREC_DIFF = -262144 ∧
    convert_to_trans_prec MV_SUBPEL_EIGHTH_PRECISION (-2147483648) = 262144 ∧
    convert_to_trans_prec MV_SUBPEL_QTR_PRECISION (-2147483648) = 262144 ∧
    (-2147483648 : Int) >>> GM_TRANS_ONLY_PREC_DIFF ≠
      convert_to_trans_prec MV_SUBPEL_EIGHTH_PRECISION (-2147483648) ∧
    convert_to_trans_prec_checked MV_SUBPEL_EIGHTH_PRECISION (-2147483648) = none := by
  refine ⟨by decide, by decide, by decide, by decide, by decide, by decide, by decide⟩

/-- C21, amended: for every precision and every `int32_t` value `c` other than `INT32_MIN`
whose low 13 bits (14 bits when `precision < EIGHTH`) are zero, `c >> 13` equals
`convert_to_trans_prec(precision, c)`. -/
theorem shift_eq_convert_to_trans_prec (precision : MvSubpelPrecision) (c : Int)
    (hc : isInt32 c) (hmin : c ≠ -2147483648)
    (hlow : c % 2 ^ (if precision = MV_SUBPEL_EIGHTH_PRECISION then 13 else 14) = 0) :
    c >>> GM_TRANS_ONLY_PREC_DIFF = convert_to_trans_prec precision c := by
  obtain ⟨h1, h2⟩ := hc
  have e : GM_TRANS_ONLY_PREC_DIFF = 13 := rfl
  rw [e, Int.shiftRight_eq_div_pow]
  by_cases hp : precision = MV_SUBPEL_EIGHTH_PRECISION
  · subst hp
    rw [if_pos rfl] at hlow
    have e1 : convert_to_trans_prec MV_SUBPEL_EIGHTH_PRECISION c =
        ROUND_POWER_OF_TWO_SIGNED c 13 := rfl
    have hb : |c| + 4096 ≤ 2147483647 := by
      rcases abs_cases c with ⟨e3, _⟩ | ⟨e3, _⟩ <;> rw [e3] <;> norm_num at hlow <;> omega
    rw [e1, ROUND_POWER_OF_TWO_SIGNED_13 c hb]
    norm_num at hlow ⊢
    split_ifs <;> omega
  · rw [if_neg hp] at hlow
    have e1 : convert_to_trans_prec precision c =
        mul32 (ROUND_POWER_OF_TWO_SIGNED c 14) 2 := by
      cases precision <;> first | rfl | exact absurd rfl hp
    have hb : |c| + 8192 ≤ 2147483647 := by
      rcases abs_cases c with ⟨e3, _⟩ | ⟨e3, _⟩ <;> rw [e3] <;> norm_num at hlow <;> omega
    rw [e1, ROUND_POWER_OF_TWO_SIGNED_14 c hb]
    unfold mul32 wrap32
    norm_num at hlow ⊢
    split_ifs <;> omega

theorem shift_eq_convert_to_trans_prec_witness :
    (-49152 : Int) >>> GM_TRANS_ONLY_PREC_DIFF =
      convert_to_trans_prec MV_SUBPEL_HALF_PRECISION (-49152) :=
  shift_eq_convert_to_trans_prec MV_SUBPEL_HALF_PRECISION (-49152) (by decide) (by decide)
    (by decide)

/-- C22: under the documented global-motion parameter bounds (`|wmmat[0]|`, `|wmmat[1]|` at most
`GM_TRANS_MAX * GM_TRANS_DECODE_FACTOR = 2^22`; `|wmmat[2] - 65536|`, `|wmmat[3]|`, `|wmmat[4]|`,
`|wmmat[5] - 65536|` at most `GM_ALPHA_MAX * GM_ALPHA_DECODE_FACTOR = 2^13`) and for
`0 <= mi_col, mi_row < 2^14` with block width and height between 0 and 128, no `int` operation of
`gm_get_motion_vector` overflows: the evaluation with overflow detection returns the vector the
function computes, and `xc`, `yc` with the rounding addition of `convert_to_trans_prec` stay
inside `int32_t`. -/
theorem gm_get_motion_vector_no_overflow (T : BlockSizeTables) (gm : WarpedMotionParams)
    (precision : MvSubpelPrecision) (bsize : BLOCK_SIZE) (mi_col mi_row : Int)
    (hb : GmParamsInBounds gm)
    (hc0 : 0 ≤ mi_col) (hc1 : mi_col < 2 ^ 14) (hr0 : 0 ≤ mi_row) (hr1 : mi_row < 2 ^ 14)
    (hw0 : 0 ≤ T.block_size_wide bsize) (hw1 : T.block_size_wide bsize ≤ 128)
    (hh0 : 0 ≤ T.block_size_high bsize) (hh1 : T.block_size_high bsize ≤ 128) :
    gm_get_motion_vector_checked T gm precision bsize mi_col mi_row =
      some (gm_get_motion_vector T gm precision bsize mi_col mi_row) ∧
    GM_TRANS_MAX * GM_TRANS_DECODE_FACTOR = 2 ^ 22 ∧
    GM_ALPHA_MAX * GM_ALPHA_DECODE_FACTOR = 2 ^ 13 ∧
    |gm_xc gm (mi_col * MI_SIZE + Int.tdiv (T.block_size_wide bsize) 2 - 1)
        (mi_row * MI_SIZE + Int.tdiv (T.block_size_high bsize) 2 - 1)| + 8192 ≤ 2147483647 ∧
    |gm_yc gm (mi_col * MI_SIZE + Int.tdiv (T.block_size_wide bsize) 2 - 1)
        (mi_row * MI_SIZE + Int.tdiv (T.block_size_high bsize) 2 - 1)| + 8192 ≤ 2147483647 := by
  norm_num at hc1 hr1
  obtain ⟨x1, x2, x3, x4⟩ :=
    block_center_checked_eq mi_col (T.block_size_wide bsize) hc0 hc1 hw0 hw1
  obtain ⟨y1, y2, y3, y4⟩ :=
    block_center_checked_eq mi_row (T.block_size_high bsize) hr0 hr1 hh0 hh1
  obtain ⟨xc1, xc2, xc3⟩ := gm_xc_checked_eq gm _ _ hb x3 x4 y3 y4
  obtain ⟨yc1, yc2, yc3⟩ := gm_yc_checked_eq gm _ _ hb x3 x4 y3 y4
  refine ⟨?_, by decide, by decide, by omega, by omega⟩
  unfold gm_get_motion_vector_checked gm_get_motion_vector
  split_ifs
  · rfl
  · rfl
  · have ex : block_center_x_checked T mi_col bsize =
        some (mi_col * MI_SIZE + Int.tdiv (T.block_size_wide bsize) 2 - 1) := x1
    have ey : block_center_y_checked T mi_row bsize =
        some (mi_row * MI_SIZE + Int.tdiv (T.block_size_high bsize) 2 - 1) := y1
    have ex' : block_center_x T mi_col bsize =
        mi_col * MI_SIZE + Int.tdiv (T.block_size_wide bsize) 2 - 1 := x2
    have ey' : block_center_y T mi_row bsize =
        mi_row * MI_SIZE + Int.tdiv (T.block_size_high bsize) 2 - 1 := y2
    rw [ex, ey, one_shl_prec_bits]
    simp only [Option.some_bind]
    rw [ex', ey', xc1, yc1, xc2, yc2]
    simp only [Option.some_bind]
    rw [convert_to_trans_prec_checked_eq precision _ (by omega),
      convert_to_trans_prec_checked_eq precision _ (by omega)]
    simp only [Option.some_bind]

theorem gm_get_motion_vector_no_overflow_witness :
    gm_get_motion_vector_checked ⟨fun _ => 128, fun _ => 128⟩
      { wmmat := ![4194304, -4194304, 73728, -8192, 8192, 57344, 0, 0], alpha := 0, beta := 0,
        gamma := 0, delta := 0, wmtype := AFFINE, invalid := 0 }
      MV_SUBPEL_QTR_PRECISION 0 16383 16383 =
    some (gm_get_motion_vector ⟨fun _ => 128, fun _ => 128⟩
      { wmmat := ![4194304, -4194304, 73728, -8192, 8192, 57344, 0, 0], alpha := 0, beta := 0,
        gamma := 0, delta := 0, wmtype := AFFINE, invalid := 0 }
      MV_SUBPEL_QTR_PRECISION 0 16383 16383) :=
  (gm_get_motion_vector_no_overflow ⟨fun _ => 128, fun _ => 128⟩
      { wmmat := ![4194304, -4194304, 73728, -8192, 8192, 57344, 0, 0], alpha := 0, beta := 0,
        gamma := 0, delta := 0, wmtype := AFFINE, invalid := 0 }
      MV_SUBPEL_QTR_PRECISION 0 16383 16383 (by decide) (by decide) (by decide) (by decide)
      (by decide) (by decide) (by decide) (by decide) (by decide)).1

/-! ## Claims on the reserved vector, the classification and the defaults -/

/-- C23: `MARK_MV_INVALID` sets both fields of the vector to the reserved pattern `0x8000`
(`row == -32768` and `col == -32768`), whatever the vector held and whatever the byte order, and
the resulting vector is never recognised as zero: `is_zero_mv` returns 0 on it and `is_equal_mv`
against `kZeroMv` returns 0. -/
theorem MARK_MV_INVALID_not_zero (big_endian : Bool) (mv : MV) :
    MARK_MV_INVALID big_endian mv = { row := -32768, col := -32768 } ∧
    (MARK_MV_INVALID big_endian mv).row % 65536 = 0x8000 ∧
    (MARK_MV_INVALID big_endian mv).col % 65536 = 0x8000 ∧
    is_zero_mv big_endian (MARK_MV_INVALID big_endian mv) = 0 ∧
    is_equal_mv big_endian (MARK_MV_INVALID big_endian mv) kZeroMv = 0 ∧
    is_equal_mv big_endian kZeroMv (MARK_MV_INVALID big_endian mv) = 0 := by
  have e : MARK_MV_INVALID big_endian mv = { row := -32768, col := -32768 } := by
    unfold MARK_MV_INVALID
    cases big_endian <;> decide
  rw [e]
  cases big_endian <;> decide

/-- C24: `get_wmtype` is a function of the coefficient array alone: any two models with equal
`wmmat[0..7]` receive the same classification, whatever their stored `wmtype`, `invalid` flag
and `alpha`, `beta`, `gamma`, `delta` fields are. -/
theorem get_wmtype_of_wmmat (gm1 gm2 : WarpedMotionParams)
    (h : ∀ i : Fin 8, gm1.wmmat i = gm2.wmmat i) :
    get_wmtype gm1 = get_wmtype gm2 := by
  unfold get_wmtype
  rw [h 0, h 1, h 2, h 3, h 4, h 5]

theorem get_wmtype_of_wmmat_witness :
    get_wmtype
      { wmmat := ![4096, -8192, 65000, 300, -300, 65000, 0, 0], alpha := 0, beta := 0,
        gamma := 0, delta := 0, wmtype := ROTZOOM, invalid := 0 } =
    get_wmtype
      { wmmat := ![4096, -8192, 65000, 300, -300, 65000, 0, 0], alpha := 7, beta := -3,
        gamma := 11, delta := 5, wmtype := IDENTITY, invalid := 1 } :=
  get_wmtype_of_wmmat _ _ (fun _ => rfl)

/-- C25: the parameter counts `trans_model_params = {0, 2, 4, 6}` are the degrees of freedom of
each kind: for every kind `k` and any two `int32_t` coefficient arrays that `get_wmtype` both
classifies as `k` and that agree on `wmmat[0 .. trans_model_params[k] - 1]`, the two arrays agree
on all of `wmmat[0..5]`. -/
theorem trans_model_params_degrees_of_freedom (gm1 gm2 : WarpedMotionParams)
    (k : TransformationType) (hv1 : gm1.isValid) (hv2 : gm2.isValid)
    (h1 : get_wmtype gm1 = k) (h2 : get_wmtype gm2 = k)
    (hagree : ∀ i : Fin 8, i.val < trans_model_params k → gm1.wmmat i = gm2.wmmat i) :
    (∀ i : Fin 8, i.val < 6 → gm1.wmmat i = gm2.wmmat i) ∧
    trans_model_params IDENTITY = 0 ∧ trans_model_params TRANSLATION = 2 ∧
    trans_model_params ROTZOOM = 4 ∧ trans_model_params AFFINE = 6 := by
  refine ⟨?_, rfl, rfl, rfl, rfl⟩
  unfold get_wmtype at h1 h2
  rw [one_shl_prec_bits] at h1 h2
  have all6 : gm1.wmmat 0 = gm2.wmmat 0 → gm1.wmmat 1 = gm2.wmmat 1 →
      gm1.wmmat 2 = gm2.wmmat 2 → gm1.wmmat 3 = gm2.wmmat 3 → gm1.wmmat 4 = gm2.wmmat 4 →
      gm1.wmmat 5 = gm2.wmmat 5 → ∀ i : Fin 8, i.val < 6 → gm1.wmmat i = gm2.wmmat i := by
    intro e0 e1 e2 e3 e4 e5 i hi
    fin_cases i
    · exact e0
    · exact e1
    · exact e2
    · exact e3
    · exact e4
    · exact e5
    · exact absurd hi (by decide)
    · exact absurd hi (by decide)
  cases k
  · split_ifs at h1 with a1 a2
    split_ifs at h2 with c1 c2
    exact all6 (by rw [a2.2, c2.2]) (by rw [a2.1, c2.1]) (by rw [a1.2.2.1, c1.2.2.1])
      (by rw [a1.2.2.2, c1.2.2.2]) (by rw [a1.2.1, c1.2.1]) (by rw [a1.1, c1.1])
  · split_ifs at h1 with a1 a2
    split_ifs at h2 with c1 c2
    exact all6 (hagree 0 (by decide)) (hagree 1 (by decide)) (by rw [a1.2.2.1, c1.2.2.1])
      (by rw [a1.2.2.2, c1.2.2.2]) (by rw [a1.2.1, c1.2.1]) (by rw [a1.1, c1.1])
  · split_ifs at h1 with a1 a2 a3
    split_ifs at h2 with c1 c2 c3
    have e2 := hagree 2 (by decide)
    have e3 := hagree 3 (by decide)
    have e4 : gm1.wmmat 4 = gm2.wmmat 4 := by
      apply neg32_injective _ _ (hv1 4) (hv2 4)
      rw [← a3.2, ← c3.2]
      exact e3
    exact all6 (hagree 0 (by decide)) (hagree 1 (by decide)) e2 e3 e4
      (by rw [← a3.1, ← c3.1]; exact e2)
  · exact all6 (hagree 0 (by decide)) (hagree 1 (by decide)) (hagree 2 (by decide))
      (hagree 3 (by decide)) (hagree 4 (by decide)) (hagree 5 (by decide))

theorem trans_model_params_degrees_of_freedom_witness :
    (∀ i : Fin 8, i.val < 6 →
      (![4096, -8192, 65000, 300, -300, 65000, 0, 0] : Fin 8 → Int) i =
      (![4096, -8192, 65000, 300, -300, 65000, 9, 9] : Fin 8 → Int) i) ∧
    trans_model_params IDENTITY = 0 ∧ trans_model_params TRANSLATION = 2 ∧
    trans_model_params ROTZOOM = 4 ∧ trans_model_params AFFINE = 6 :=
  trans_model_params_degrees_of_freedom
    { wmmat := ![4096, -8192, 65000, 300, -300, 65000, 0, 0], alpha := 0, beta := 0,
      gamma := 0, delta := 0, wmtype := ROTZOOM, invalid := 0 }
    { wmmat := ![4096, -8192, 65000, 300, -300, 65000, 9, 9], alpha := 0, beta := 0,
      gamma := 0, delta := 0, wmtype := ROTZOOM, invalid := 0 }
    ROTZOOM (by decide) (by decide) (by decide) (by decide) (by decide)

/-- C26: `default_warp_params` satisfies the tag invariant: `get_wmtype` of its coefficients
equals its stored `wmtype` (IDENTITY), its `invalid` flag is 0, and `gm_get_motion_vector` on it
returns the zero vector for every precision, block size and position. -/
theorem default_warp_params_invariant (T : BlockSizeTables) (precision : MvSubpelPrecision)
    (bsize : BLOCK_SIZE) (mi_col mi_row : Int) :
    get_wmtype default_warp_params = default_warp_params.wmtype ∧
    default_warp_params.wmtype = IDENTITY ∧
    default_warp_params.invalid = 0 ∧
    gm_get_motion_vector T default_warp_params precision bsize mi_col mi_row =
      { row := 0, col := 0 } := by
  have h : default_warp_params.wmtype = IDENTITY := rfl
  refine ⟨by decide, h, rfl, ?_⟩
  unfold gm_get_motion_vector
  rw [if_pos h]

/-- C27: for every vector, `lower_mv_precision` with precision EIGHTH (`radix == 1`) returns the
vector unchanged. -/
theorem lower_mv_precision_eighth (mv : MV) :
    mv_radix MV_SUBPEL_EIGHTH_PRECISION = 1 ∧
    lower_mv_precision mv MV_SUBPEL_EIGHTH_PRECISION = mv := by
  have h : mv_radix MV_SUBPEL_EIGHTH_PRECISION = 1 := rfl
  refine ⟨h, ?_⟩
  rw [lower_mv_precision_eq, if_pos h]

/-! ## Lemmas on the block hash table -/

/-- After the insertion loop every table address holds what it held before followed by the
entries of the visited positions with that address, in the order of the visit. -/
theorem add_to_hash_map_loop_buckets (F : HashFunctions) (alloc_ok : Nat → Bool)
    (pic_hash : Int → Int → Nat) (block_size : Int) (l : List (Int × Int)) :
    ∀ (n : Nat) (t t' : hash_table),
      add_to_hash_map_loop F alloc_ok pic_hash block_size l n t = some t' →
      ∀ k : Nat, t'.p_lookup_table k = t.p_lookup_table k ++
        (l.filter fun p => decide (position_key F pic_hash block_size p = k)).map
          (position_entry F pic_hash) := by
  induction l with
  | nil =>
    intro n t t' h k
    simp only [add_to_hash_map_loop, Option.some.injEq] at h
    subst h
    simp
  | cons p rest ih =>
    intro n t t' h k
    unfold add_to_hash_map_loop at h
    unfold hash_table_add_to_table at h
    by_cases hok : alloc_ok n = true
    · rw [if_pos hok] at h
      simp only at h
      rw [ih _ _ _ h k]
      by_cases hk : position_key F pic_hash block_size p = k
      · subst hk
        simp [List.filter_cons]
      · have hk' : k ≠ position_key F pic_hash block_size p := fun e => hk e.symm
        simp [List.filter_cons, hk, Function.update_noteq hk']
    · rw [if_neg hok] at h
      exact absurd h (by simp)

/-- The insertion loop succeeds when every allocation succeeds. -/
theorem add_to_hash_map_loop_isSome (F : HashFunctions) (alloc_ok : Nat → Bool)
    (hok : ∀ n, alloc_ok n = true) (pic_hash : Int → Int → Nat) (block_size : Int)
    (l : List (Int × Int)) :
    ∀ (n : Nat) (t : hash_table),
      ∃ t', add_to_hash_map_loop F alloc_ok pic_hash block_size l n t = some t' := by
  induction l with
  | nil => intro n t; exact ⟨t, rfl⟩
  | cons p rest ih =>
    intro n t
    unfold add_to_hash_map_loop hash_table_add_to_table
    rw [if_pos (hok n)]
    exact ih _ _

/-- The positions visited are exactly the top-left positions at which the block fits. -/
theorem mem_block_positions (pic_width pic_height block_size x y : Int) :
    (x, y) ∈ block_positions pic_width pic_height block_size ↔
      0 ≤ x ∧ x ≤ pic_width - block_size ∧ 0 ≤ y ∧ y ≤ pic_height - block_size := by
  unfold block_positions
  simp only [List.mem_flatMap, List.mem_range, List.mem_map, Prod.mk.injEq]
  constructor
  · rintro ⟨b, hb, a, ha, rfl, rfl⟩
    omega
  · rintro ⟨h1, h2, h3, h4⟩
    refine ⟨y.toNat, by omega, x.toNat, by omega, by omega, by omega⟩

/-- No position is visited twice. -/
theorem nodup_block_positions (pic_width pic_height block_size : Int) :
    (block_positions pic_width pic_height block_size).Nodup := by
  unfold block_positions
  rw [List.nodup_flatMap]
  constructor
  · intro y _
    apply List.Nodup.map _ (List.nodup_range _)
    intro a b hab
    simp only [Prod.mk.injEq, Nat.cast_inj, and_true] at hab
    exact hab
  · apply List.Pairwise.imp _ (List.nodup_range _)
    intro a b hab
    simp only [Function.onFun, List.Disjoint, List.mem_map, List.mem_range]
    rintro ⟨x, y⟩ ⟨u, _, hu⟩ ⟨v, _, hv⟩
    simp only [Prod.mk.injEq] at hu hv
    apply hab
    have := hu.2.trans hv.2.symm
    exact_mod_cast this

/-- The two position fields of every entry of the table are `int16_t` values. -/
theorem wrap16_isInt16 (x : Int) : isInt16 (wrap16 x) := by
  unfold isInt16 wrap16
  omega

/-- An element of a list without duplicates is counted once. -/
theorem countP_eq_one_of_nodup {α : Type} [DecidableEq α] (l : List α) (a : α)
    (hnd : l.Nodup) (hmem : a ∈ l) : l.countP (fun p => decide (p = a)) = 1 := by
  induction l with
  | nil => exact absurd hmem (List.not_mem_nil a)
  | cons b rest ih =>
    rw [List.nodup_cons] at hnd
    by_cases hb : b = a
    · subst hb
      rw [List.countP_cons_of_pos _ _ (by simp)]
      have h0 : rest.countP (fun p => decide (p = b)) = 0 := by
        rw [List.countP_eq_zero]
        intro p hp
        simp only [decide_eq_true_eq]
        intro e
        subst e
        exact hnd.1 hp
      rw [h0]
    · rw [List.countP_cons_of_neg _ _ (by simp [hb])]
      rcases List.mem_cons.mp hmem with e | e
      · exact absurd e.symm hb
      · exact ih hnd.2 e

/-- Number of entries with a given position among the entries of the visited positions with
a given table address, when the visited positions are distinct and fit `int16_t`. -/
theorem countP_position_entries (F : HashFunctions) (pic_hash : Int → Int → Nat)
    (block_size : Int) (l : List (Int × Int)) (hnd : l.Nodup)
    (h16 : ∀ p ∈ l, isInt16 p.1 ∧ isInt16 p.2) (x y : Int) (hmem : (x, y) ∈ l) (k : Nat) :
    (((l.filter fun p => decide (position_key F pic_hash block_size p = k)).map
        (position_entry F pic_hash)).countP fun e => decide (e.x = x ∧ e.y = y)) =
      if k = position_key F pic_hash block_size (x, y) then 1 else 0 := by
  rw [List.countP_map, List.countP_filter]
  have hcongr : List.countP (fun p => ((fun e : block_hash => decide (e.x = x ∧ e.y = y)) ∘
        position_entry F pic_hash) p &&
        decide (position_key F pic_hash block_size p = k)) l =
      List.countP (fun p => decide (p = (x, y) ∧
        k = position_key F pic_hash block_size (x, y))) l := by
    apply List.countP_congr
    intro p hp
    obtain ⟨hp1, hp2⟩ := h16 p hp
    simp only [Function.comp, position_entry, Bool.and_eq_true, decide_eq_true_eq,
      wrap16_of_isInt16 _ hp1, wrap16_of_isInt16 _ hp2]
    constructor
    · rintro ⟨⟨e1, e2⟩, e3⟩
      have : p = (x, y) := Prod.ext e1 e2
      subst this
      exact ⟨rfl, e3.symm⟩
    · rintro ⟨rfl, e3⟩
      exact ⟨⟨rfl, rfl⟩, e3.symm⟩
  rw [hcongr]
  by_cases hk : k = position_key F pic_hash block_size (x, y)
  · rw [if_pos hk]
    have h1 : List.countP (fun p => decide (p = (x, y) ∧
        k = position_key F pic_hash block_size (x, y))) l =
        List.countP (fun p => decide (p = (x, y))) l := by
      apply List.countP_congr
      intro p _
      simp [hk]
    rw [h1]
    exact countP_eq_one_of_nodup l (x, y) hnd hmem
  · rw [if_neg hk]
    rw [List.countP_eq_zero]
    intro p _
    simp [hk]

/-- Two predicates that no element satisfies together count at most the length. -/
theorem countP_add_countP_le {α : Type} (l : List α) (p q : α → Bool)
    (hpq : ∀ a, p a = true → q a = true → False) :
    l.countP p + l.countP q ≤ l.length := by
  induction l with
  | nil => simp
  | cons a rest ih =>
    rw [List.length_cons]
    by_cases hp : p a = true
    · have hq : ¬ q a = true := fun hq => hpq a hp hq
      rw [List.countP_cons_of_pos _ _ hp, List.countP_cons_of_neg _ _ hq]
      omega
    · by_cases hq : q a = true
      · rw [List.countP_cons_of_neg _ _ hp, List.countP_cons_of_pos _ _ hq]
        omega
      · rw [List.countP_cons_of_neg _ _ hp, List.countP_cons_of_neg _ _ hq]
        omega

/-- The table built from the empty table: every address holds the entries of the block
positions with that address, in the order of the visit. -/
theorem add_to_hash_map_buckets (F : HashFunctions) (alloc_ok : Nat → Bool)
    (pic_hash : Int → Int → Nat) (pic_width pic_height block_size : Int) (t : hash_table)
    (hrun : av1_add_to_hash_map_by_row_with_precal_data F alloc_ok av1_hash_table_create
      pic_hash pic_width pic_height block_size = some t) (k : Nat) :
    t.p_lookup_table k =
      ((block_positions pic_width pic_height block_size).filter fun p =>
        decide (position_key F pic_hash block_size p = k)).map (position_entry F pic_hash) := by
  unfold av1_add_to_hash_map_by_row_with_precal_data at hrun
  rw [add_to_hash_map_loop_buckets F alloc_ok pic_hash block_size _ _ _ _ hrun k]
  simp [av1_hash_table_create]

/-- The block positions fit `int16_t` when the last column and the last row do. -/
theorem block_positions_isInt16 (pic_width pic_height block_size : Int)
    (hw : pic_width - block_size ≤ 32767) (hh : pic_height - block_size ≤ 32767) :
    ∀ p ∈ block_positions pic_width pic_height block_size, isInt16 p.1 ∧ isInt16 p.2 := by
  rintro ⟨x, y⟩ hp
  rw [mem_block_positions] at hp
  unfold isInt16
  simp only
  omega

/-- No entry of a table built from the empty table has a position field outside
`int16_t`. -/
theorem add_to_hash_map_entries_isInt16 (F : HashFunctions) (alloc_ok : Nat → Bool)
    (pic_hash : Int → Int → Nat) (pic_width pic_height block_size : Int) (t : hash_table)
    (hrun : av1_add_to_hash_map_by_row_with_precal_data F alloc_ok av1_hash_table_create
      pic_hash pic_width pic_height block_size = some t) (k : Nat) :
    ∀ e ∈ t.p_lookup_table k, isInt16 e.x ∧ isInt16 e.y := by
  rw [add_to_hash_map_buckets F alloc_ok pic_hash pic_width pic_height block_size t hrun k]
  intro e he
  rw [List.mem_map] at he
  obtain ⟨p, _, rfl⟩ := he
  exact ⟨wrap16_isInt16 _, wrap16_isInt16 _⟩

/-- In a constant block every level of the pyramid holds the hash of the constant block. -/
theorem hash_pyramid_constant (F : HashFunctions) (picture : YV12_BUFFER_CONFIG) (c : Nat)
    (k : Nat) : ∀ x y : Int, 0 ≤ x → 0 ≤ y →
      x + 2 ^ (k + 1) ≤ picture.y_crop_width → y + 2 ^ (k + 1) ≤ picture.y_crop_height →
      BlockIsConstant picture (2 ^ (k + 1)) x y c →
      hash_pyramid F picture k x y = constant_block_hash F c k := by
  induction k with
  | zero =>
    intro x y hx hy hw hh hc
    norm_num at hw hh hc
    unfold hash_pyramid av1_generate_block_2x2_hash_value constant_block_hash
    rw [if_pos ⟨hx, hy, hw, hh⟩]
    have e00 := hc 0 0 (le_refl _) (by norm_num) (le_refl _) (by norm_num)
    have e10 := hc 1 0 (by norm_num) (by norm_num) (le_refl _) (by norm_num)
    have e01 := hc 0 1 (le_refl _) (by norm_num) (by norm_num) (by norm_num)
    have e11 := hc 1 1 (by norm_num) (by norm_num) (by norm_num) (by norm_num)
    simp only [add_zero] at e00 e10 e01
    rw [e00, e10, e01, e11]
  | succ k ih =>
    intro x y hx hy hw hh hc
    have hs : (0 : Int) < 2 ^ (k + 1) := by positivity
    have h2 : (2 : Int) ^ (k + 1 + 1) = 2 * 2 ^ (k + 1) := by ring
    rw [h2] at hw hh hc
    generalize hS : (2 : Int) ^ (k + 1) = s at *
    have hdiv : Int.tdiv (2 * s) 2 = s := by
      rw [Int.tdiv_eq_ediv (by omega) (by norm_num)]
      omega
    have sub : ∀ ox oy : Int, (ox = 0 ∨ ox = s) → (oy = 0 ∨ oy = s) →
        hash_pyramid F picture k (x + ox) (y + oy) = constant_block_hash F c k := by
      intro ox oy hox hoy
      apply ih (x + ox) (y + oy) (by omega) (by omega) (by omega) (by omega)
      intro dx dy d1 d2 d3 d4
      have := hc (ox + dx) (oy + dy) (by omega) (by omega) (by omega) (by omega)
      rw [← this]
      congr 1 <;> ring
    have s00 := sub 0 0 (Or.inl rfl) (Or.inl rfl)
    have s10 := sub s 0 (Or.inr rfl) (Or.inl rfl)
    have s01 := sub 0 s (Or.inl rfl) (Or.inr rfl)
    have s11 := sub s s (Or.inr rfl) (Or.inr rfl)
    simp only [add_zero] at s00 s10 s01
    have e2 : (2 : Int) ^ (k + 2) = 2 * s := by rw [← hS]; ring
    show av1_generate_block_hash_value F picture (2 ^ (k + 2)) (hash_pyramid F picture k) x y =
      F.hash_compose (2 ^ (k + 2)) (constant_block_hash F c k) (constant_block_hash F c k)
        (constant_block_hash F c k) (constant_block_hash F c k)
    unfold av1_generate_block_hash_value
    simp only [e2, hdiv]
    rw [if_pos ⟨hx, hy, hw, hh⟩, s00, s10, s01, s11]

/-! ## Claims on the block hash engine -/

/-- C28, counterexample: for a 32770 x 2 picture and `block_size = 2` the build succeeds on the
empty table, the top-left position (32768, 0) satisfies `0 <= x <= pic_width - block_size` and
`0 <= y <= pic_height - block_size`, and no table address retains an entry with that position:
the field `int16_t x` of `block_hash` cannot hold 32768. -/
theorem add_to_hash_map_position_counterexample :
    (0 : Int) ≤ 32768 ∧ (32768 : Int) ≤ 32770 - 2 ∧ (0 : Int) ≤ 2 - 2 ∧
    ∃ t : hash_table,
      av1_add_to_hash_map_by_row_with_precal_data
        ⟨fun _ h => h, fun h => h, fun a _ _ _ => a, fun _ a _ _ _ => a⟩
        (fun _ => true) av1_hash_table_create (fun _ _ => 0) 32770 2 2 = some t ∧
      ∀ k : Nat, (t.p_lookup_table k).countP (fun e => decide (e.x = 32768 ∧ e.y = 0)) = 0 := by
  refine ⟨by decide, by decide, by decide, ?_⟩
  obtain ⟨t, ht⟩ := add_to_hash_map_loop_isSome
    ⟨fun _ h => h, fun h => h, fun a _ _ _ => a, fun _ a _ _ _ => a⟩ (fun _ => true)
    (fun _ => rfl) (fun _ _ => 0) 2 (block_positions 32770 2 2) 0 av1_hash_table_create
  refine ⟨t, ht, ?_⟩
  intro k
  rw [List.countP_eq_zero]
  intro e he
  have h16 := (add_to_hash_map_entries_isInt16 _ _ _ _ _ _ t ht k e he).1
  simp only [decide_eq_true_eq, not_and]
  intro hx
  rw [hx] at h16
  exact absurd h16 (by decide)

/-- C28, amended: after `av1_add_to_hash_map_by_row_with_precal_data` succeeds on an empty
table for a `pic_width x pic_height` picture and a `block_size` with
`pic_width - block_size <= 32767` and `pic_height - block_size <= 32767` (every position fits the
`int16_t` fields of `block_hash`), every top-left position `(x, y)` with
`0 <= x <= pic_width - block_size` and `0 <= y <= pic_height - block_size` is retained exactly
once under the key derived from its primary hash and under no other key,
`av1_hash_table_count` of a key equals the number of positions stored under it, and the iterator
from `av1_hash_get_first_iterator` yields exactly those entries in insertion order. -/
theorem add_to_hash_map_retains_positions (F : HashFunctions) (alloc_ok : Nat → Bool)
    (pic_hash : Int → Int → Nat) (pic_width pic_height block_size : Int) (t : hash_table)
    (hw : pic_width - block_size ≤ 32767) (hh : pic_height - block_size ≤ 32767)
    (hrun : av1_add_to_hash_map_by_row_with_precal_data F alloc_ok av1_hash_table_create
      pic_hash pic_width pic_height block_size = some t) :
    (∀ x y : Int, 0 ≤ x → x ≤ pic_width - block_size → 0 ≤ y → y ≤ pic_height - block_size →
      ∀ k : Nat, (t.p_lookup_table k).countP (fun e => decide (e.x = x ∧ e.y = y)) =
        if k = F.hash_value1 block_size (pic_hash x y) then 1 else 0) ∧
    (∀ k : Nat, av1_hash_table_count t k =
      (((block_positions pic_width pic_height block_size).filter fun p =>
        decide (F.hash_value1 block_size (pic_hash p.1 p.2) = k)).length : Int)) ∧
    (∀ k : Nat, av1_hash_get_first_iterator t k =
      ((block_positions pic_width pic_height block_size).filter fun p =>
        decide (F.hash_value1 block_size (pic_hash p.1 p.2) = k)).map fun p =>
          { x := p.1, y := p.2, hash_value2 := F.hash_value2 (pic_hash p.1 p.2) }) ∧
    (∀ x y : Int, (x, y) ∈ block_positions pic_width pic_height block_size ↔
      0 ≤ x ∧ x ≤ pic_width - block_size ∧ 0 ≤ y ∧ y ≤ pic_height - block_size) ∧
    (block_positions pic_width pic_height block_size).Nodup := by
  have hb := add_to_hash_map_buckets F alloc_ok pic_hash pic_width pic_height block_size t hrun
  have h16 := block_positions_isInt16 pic_width pic_height block_size hw hh
  refine ⟨?_, ?_, ?_, fun x y => mem_block_positions _ _ _ x y, nodup_block_positions _ _ _⟩
  · intro x y hx0 hx1 hy0 hy1 k
    rw [hb k]
    exact countP_position_entries F pic_hash block_size _ (nodup_block_positions _ _ _) h16 x y
      ((mem_block_positions _ _ _ x y).mpr ⟨hx0, hx1, hy0, hy1⟩) k
  · intro k
    unfold av1_hash_table_count
    rw [hb k, List.length_map]
    rfl
  · intro k
    unfold av1_hash_get_first_iterator
    rw [hb k]
    apply List.map_congr_left
    intro p hp
    obtain ⟨hp1, hp2⟩ := h16 p (List.mem_of_mem_filter hp)
    unfold position_entry
    rw [wrap16_of_isInt16 _ hp1, wrap16_of_isInt16 _ hp2]

theorem add_to_hash_map_retains_positions_witness :
    ∃ t : hash_table,
      av1_add_to_hash_map_by_row_with_precal_data
        ⟨fun bs h => h % 4 + bs.toNat, fun h => h, fun a _ _ _ => a, fun _ a _ _ _ => a⟩
        (fun _ => true) av1_hash_table_create (fun x y => (x + y).toNat) 4 3 2 = some t ∧
      av1_hash_get_first_iterator t 3 =
        [{ x := 1, y := 0, hash_value2 := 1 }, { x := 0, y := 1, hash_value2 := 1 }] := by
  obtain ⟨t, ht⟩ := add_to_hash_map_loop_isSome
    ⟨fun bs h => h % 4 + bs.toNat, fun h => h, fun a _ _ _ => a, fun _ a _ _ _ => a⟩
    (fun _ => true) (fun _ => rfl) (fun x y => (x + y).toNat) 2 (block_positions 4 3 2) 0
    av1_hash_table_create
  exact ⟨t, ht, ((add_to_hash_map_retains_positions
    ⟨fun bs h => h % 4 + bs.toNat, fun h => h, fun a _ _ _ => a, fun _ a _ _ _ => a⟩
    (fun _ => true) (fun x y => (x + y).toNat) 4 3 2 t (by decide) (by decide) ht).2.2.1 3).trans
    (by decide)⟩

/-- C29, counterexample: a 32832 x 64 picture filled with the sample 255 holds the two
identical non-overlapping 64x64 all-white blocks at (0, 0) and (32768, 0); the 64x64 level of the
pyramid gives both the same hash, the build of the table succeeds, and the iterator for that
hash yields no entry with the position (32768, 0): the field `int16_t x` of `block_hash` cannot
hold 32768. -/
theorem hash_two_white_blocks_counterexample :
    BlockIsConstant ⟨32832, 64, fun _ _ => 255⟩ 64 0 0 255 ∧
    BlockIsConstant ⟨32832, 64, fun _ _ => 255⟩ 64 32768 0 255 ∧
    (0 : Int) + 64 ≤ 32768 ∧ (32768 : Int) + 64 ≤ 32832 ∧
    hash_pyramid ⟨fun _ h => h, fun h => h, fun a _ _ _ => a, fun _ a _ _ _ => a⟩
        ⟨32832, 64, fun _ _ => 255⟩ 5 0 0 =
      hash_pyramid ⟨fun _ h => h, fun h => h, fun a _ _ _ => a, fun _ a _ _ _ => a⟩
        ⟨32832, 64, fun _ _ => 255⟩ 5 32768 0 ∧
    ∃ t : hash_table,
      av1_add_to_hash_map_by_row_with_precal_data
        ⟨fun _ h => h, fun h => h, fun a _ _ _ => a, fun _ a _ _ _ => a⟩
        (fun _ => true) av1_hash_table_create
        (hash_pyramid ⟨fun _ h => h, fun h => h, fun a _ _ _ => a, fun _ a _ _ _ => a⟩
          ⟨32832, 64, fun _ _ => 255⟩ 5) 32832 64 64 = some t ∧
      (av1_hash_get_first_iterator t
        (hash_pyramid ⟨fun _ h => h, fun h => h, fun a _ _ _ => a, fun _ a _ _ _ => a⟩
          ⟨32832, 64, fun _ _ => 255⟩ 5 32768 0)).countP
        (fun e => decide (e.x = 32768 ∧ e.y = 0)) = 0 := by
  have hc1 : BlockIsConstant ⟨32832, 64, fun _ _ => 255⟩ 64 0 0 255 :=
    fun _ _ _ _ _ _ => rfl
  have hc2 : BlockIsConstant ⟨32832, 64, fun _ _ => 255⟩ 64 32768 0 255 :=
    fun _ _ _ _ _ _ => rfl
  refine ⟨hc1, hc2, by decide, by decide, ?_, ?_⟩
  · rw [hash_pyramid_constant _ _ 255 5 0 0 (by decide) (by decide) (by decide) (by decide) hc1,
      hash_pyramid_constant _ _ 255 5 32768 0 (by decide) (by decide) (by decide) (by decide)
        hc2]
  · obtain ⟨t, ht⟩ := add_to_hash_map_loop_isSome
      ⟨fun _ h => h, fun h => h, fun a _ _ _ => a, fun _ a _ _ _ => a⟩ (fun _ => true)
      (fun _ => rfl)
      (hash_pyramid ⟨fun _ h => h, fun h => h, fun a _ _ _ => a, fun _ a _ _ _ => a⟩
        ⟨32832, 64, fun _ _ => 255⟩ 5) 64 (block_positions 32832 64 64) 0
      av1_hash_table_create
    refine ⟨t, ht, ?_⟩
    rw [List.countP_eq_zero]
    intro e he
    have h16 := (add_to_hash_map_entries_isInt16 _ _ _ _ _ _ t ht _ e he).1
    simp only [decide_eq_true_eq, not_and]
    intro hx
    rw [hx] at h16
    exact absurd h16 (by decide)

/-- C29, amended: for every picture with `y_crop_width - 64 <= 32767` and
`y_crop_height - 64 <= 32767` (every 64x64 block position fits the `int16_t` fields of
`block_hash`) holding two identical non-overlapping 64x64 all-white blocks, after the hash
pyramid is built up to the 64x64 level both blocks have the same primary hash,
`av1_hash_table_count` for that hash is at least 2, and the iterator for that hash enumerates
each of the two block positions exactly once. -/
theorem hash_two_white_blocks (F : HashFunctions) (alloc_ok : Nat → Bool)
    (picture : YV12_BUFFER_CONFIG) (x1 y1 x2 y2 : Int) (white : Nat) (t : hash_table)
    (hw : picture.y_crop_width - 64 ≤ 32767) (hh : picture.y_crop_height - 64 ≤ 32767)
    (hx1 : 0 ≤ x1) (hy1 : 0 ≤ y1) (hx1' : x1 + 64 ≤ picture.y_crop_width)
    (hy1' : y1 + 64 ≤ picture.y_crop_height)
    (hx2 : 0 ≤ x2) (hy2 : 0 ≤ y2) (hx2' : x2 + 64 ≤ picture.y_crop_width)
    (hy2' : y2 + 64 ≤ picture.y_crop_height)
    (hdisj : x1 + 64 ≤ x2 ∨ x2 + 64 ≤ x1 ∨ y1 + 64 ≤ y2 ∨ y2 + 64 ≤ y1)
    (hwhite1 : BlockIsConstant picture 64 x1 y1 white)
    (hwhite2 : BlockIsConstant picture 64 x2 y2 white)
    (hrun : av1_add_to_hash_map_by_row_with_precal_data F alloc_ok av1_hash_table_create
      (hash_pyramid F picture 5) picture.y_crop_width picture.y_crop_height 64 = some t) :
    hash_pyramid F picture 5 x1 y1 = hash_pyramid F picture 5 x2 y2 ∧
    2 ≤ av1_hash_table_count t (F.hash_value1 64 (hash_pyramid F picture 5 x1 y1)) ∧
    (av1_hash_get_first_iterator t (F.hash_value1 64 (hash_pyramid F picture 5 x1 y1))).countP
      (fun e => decide (e.x = x1 ∧ e.y = y1)) = 1 ∧
    (av1_hash_get_first_iterator t (F.hash_value1 64 (hash_pyramid F picture 5 x1 y1))).countP
      (fun e => decide (e.x = x2 ∧ e.y = y2)) = 1 := by
  have e1 := hash_pyramid_constant F picture white 5 x1 y1 hx1 hy1 (by norm_num; exact hx1')
    (by norm_num; exact hy1') (by norm_num; exact hwhite1)
  have e2 := hash_pyramid_constant F picture white 5 x2 y2 hx2 hy2 (by norm_num; exact hx2')
    (by norm_num; exact hy2') (by norm_num; exact hwhite2)
  have hsame : hash_pyramid F picture 5 x1 y1 = hash_pyramid F picture 5 x2 y2 := by
    rw [e1, e2]
  have hb := add_to_hash_map_buckets F alloc_ok (hash_pyramid F picture 5)
    picture.y_crop_width picture.y_crop_height 64 t hrun
  have h16 := block_positions_isInt16 picture.y_crop_width picture.y_crop_height 64 hw hh
  have hnd := nodup_block_positions picture.y_crop_width picture.y_crop_height 64
  have m1 := (mem_block_positions picture.y_crop_width picture.y_crop_height 64 x1 y1).mpr
    ⟨hx1, by omega, hy1, by omega⟩
  have m2 := (mem_block_positions picture.y_crop_width picture.y_crop_height 64 x2 y2).mpr
    ⟨hx2, by omega, hy2, by omega⟩
  have c1 := countP_position_entries F (hash_pyramid F picture 5) 64 _ hnd h16 x1 y1 m1
    (F.hash_value1 64 (hash_pyramid F picture 5 x1 y1))
  have c2 := countP_position_entries F (hash_pyramid F picture 5) 64 _ hnd h16 x2 y2 m2
    (F.hash_value1 64 (hash_pyramid F picture 5 x1 y1))
  have k1 : F.hash_value1 64 (hash_pyramid F picture 5 x1 y1) =
      position_key F (hash_pyramid F picture 5) 64 (x1, y1) := rfl
  have k2 : F.hash_value1 64 (hash_pyramid F picture 5 x1 y1) =
      position_key F (hash_pyramid F picture 5) 64 (x2, y2) := by
    unfold position_key
    rw [hsame]
  rw [if_pos k1] at c1
  rw [if_pos k2] at c2
  unfold av1_hash_get_first_iterator av1_hash_table_count
  rw [hb]
  refine ⟨hsame, ?_, c1, c2⟩
  have hle := countP_add_countP_le
    (((block_positions picture.y_crop_width picture.y_crop_height 64).filter fun p =>
      decide (position_key F (hash_pyramid F picture 5) 64 p =
        F.hash_value1 64 (hash_pyramid F picture 5 x1 y1))).map
      (position_entry F (hash_pyramid F picture 5)))
    (fun e => decide (e.x = x1 ∧ e.y = y1)) (fun e => decide (e.x = x2 ∧ e.y = y2))
    (by
      intro e h1 h2
      simp only [decide_eq_true_eq] at h1 h2
      omega)
  rw [c1, c2] at hle
  exact_mod_cast hle

theorem hash_two_white_blocks_witness :
    ∃ t : hash_table,
      av1_add_to_hash_map_by_row_with_precal_data
        ⟨fun _ h => h, fun h => h, fun a b c d => a + b + c + d, fun _ a b c d => a + b + c + d⟩
        (fun _ => true) av1_hash_table_create
        (hash_pyramid
          ⟨fun _ h => h, fun h => h, fun a b c d => a + b + c + d, fun _ a b c d => a + b + c + d⟩
          ⟨200, 100, fun _ _ => 255⟩ 5) 200 100 64 = some t ∧
      (av1_hash_get_first_iterator t
        (hash_pyramid
          ⟨fun _ h => h, fun h => h, fun a b c d => a + b + c + d, fun _ a b c d => a + b + c + d⟩
          ⟨200, 100, fun _ _ => 255⟩ 5 3 7)).countP
        (fun e => decide (e.x = 100 ∧ e.y = 20)) = 1 := by
  obtain ⟨t, ht⟩ := add_to_hash_map_loop_isSome
    ⟨fun _ h => h, fun h => h, fun a b c d => a + b + c + d, fun _ a b c d => a + b + c + d⟩
    (fun _ => true) (fun _ => rfl)
    (hash_pyramid
      ⟨fun _ h => h, fun h => h, fun a b c d => a + b + c + d, fun _ a b c d => a + b + c + d⟩
      ⟨200, 100, fun _ _ => 255⟩ 5) 64 (block_positions 200 100 64) 0 av1_hash_table_create
  exact ⟨t, ht, (hash_two_white_blocks
    ⟨fun _ h => h, fun h => h, fun a b c d => a + b + c + d, fun _ a b c d => a + b + c + d⟩
    (fun _ => true) ⟨200, 100, fun _ _ => 255⟩ 3 7 100 20 255 t (by decide) (by decide)
    (by decide) (by decide) (by decide) (by decide) (by decide) (by decide) (by decide)
    (by decide) (by decide) (fun _ _ _ _ _ _ => rfl) (fun _ _ _ _ _ _ => rfl) ht).2.2.2⟩

/-- C30, counterexample: in the 2x2 block whose first row holds the sample 0 and whose second
row holds the sample 1 the two rows differ from each other, and
`av1_hash_is_horizontal_perfect` returns 1: every row is a constant colour run. -/
theorem hash_is_horizontal_perfect_rows_counterexample :
    (⟨2, 2, fun _ y => y.toNat⟩ : YV12_BUFFER_CONFIG).y_sample 0 0 ≠
      (⟨2, 2, fun _ y => y.toNat⟩ : YV12_BUFFER_CONFIG).y_sample 0 1 ∧
    av1_hash_is_horizontal_perfect ⟨2, 2, fun _ y => y.toNat⟩ 2 0 0 = 1 ∧
    av1_hash_is_horizontal_perfect ⟨2, 2, fun _ y => y.toNat⟩ 2 0 0 ≠ 0 := by
  decide

/-- C30, amended: for every block filled with a single constant colour,
`av1_hash_is_horizontal_perfect` and `av1_hash_is_vertical_perfect` both return 1; for every
block that contains a row holding two different samples, `av1_hash_is_horizontal_perfect`
returns 0; and for every block that contains two rows differing from each other (in some
column), `av1_hash_is_vertical_perfect` returns 0. -/
theorem hash_is_perfect (picture : YV12_BUFFER_CONFIG) (block_size x_start y_start : Int) :
    (∀ c : Nat, BlockIsConstant picture block_size x_start y_start c →
      av1_hash_is_horizontal_perfect picture block_size x_start y_start = 1 ∧
      av1_hash_is_vertical_perfect picture block_size x_start y_start = 1) ∧
    (∀ i j1 j2 : Int, 0 ≤ i → i < block_size → 0 ≤ j1 → j1 < block_size → 0 ≤ j2 →
      j2 < block_size →
      picture.y_sample (x_start + j1) (y_start + i) ≠
        picture.y_sample (x_start + j2) (y_start + i) →
      av1_hash_is_horizontal_perfect picture block_size x_start y_start = 0) ∧
    (∀ i1 i2 j : Int, 0 ≤ i1 → i1 < block_size → 0 ≤ i2 → i2 < block_size → 0 ≤ j →
      j < block_size →
      picture.y_sample (x_start + j) (y_start + i1) ≠
        picture.y_sample (x_start + j) (y_start + i2) →
      av1_hash_is_vertical_perfect picture block_size x_start y_start = 0) := by
  refine ⟨?_, ?_, ?_⟩
  · intro c hc
    unfold av1_hash_is_horizontal_perfect av1_hash_is_vertical_perfect
    constructor
    · rw [if_pos]
      simp only [List.all_eq_true, List.mem_range, decide_eq_true_eq]
      intro i hi j hj
      have a := hc j i (by omega) (by omega) (by omega) (by omega)
      have b := hc 0 i (by omega) (by omega) (by omega) (by omega)
      simp only [add_zero] at b
      rw [a, b]
    · rw [if_pos]
      simp only [List.all_eq_true, List.mem_range, decide_eq_true_eq]
      intro i hi j hj
      have a := hc i j (by omega) (by omega) (by omega) (by omega)
      have b := hc i 0 (by omega) (by omega) (by omega) (by omega)
      simp only [add_zero] at b
      rw [a, b]
  · intro i j1 j2 hi0 hi1 h10 h11 h20 h21 hne
    unfold av1_hash_is_horizontal_perfect
    rw [if_neg]
    simp only [List.all_eq_true, List.mem_range, decide_eq_true_eq]
    intro hall
    have a := hall i.toNat (by omega) j1.toNat (by omega)
    have b := hall i.toNat (by omega) j2.toNat (by omega)
    rw [Int.toNat_of_nonneg hi0, Int.toNat_of_nonneg h10] at a
    rw [Int.toNat_of_nonneg hi0, Int.toNat_of_nonneg h20] at b
    exact hne (a.trans b.symm)
  · intro i1 i2 j h10 h11 h20 h21 hj0 hj1 hne
    unfold av1_hash_is_vertical_perfect
    rw [if_neg]
    simp only [List.all_eq_true, List.mem_range, decide_eq_true_eq]
    intro hall
    have a := hall j.toNat (by omega) i1.toNat (by omega)
    have b := hall j.toNat (by omega) i2.toNat (by omega)
    rw [Int.toNat_of_nonneg hj0, Int.toNat_of_nonneg h10] at a
    rw [Int.toNat_of_nonneg hj0, Int.toNat_of_nonneg h20] at b
    exact hne (a.trans b.symm)

theorem hash_is_perfect_witness :
    (av1_hash_is_horizontal_perfect ⟨8, 8, fun _ _ => 255⟩ 4 2 3 = 1 ∧
      av1_hash_is_vertical_perfect ⟨8, 8, fun _ _ => 255⟩ 4 2 3 = 1) ∧
    av1_hash_is_horizontal_perfect ⟨8, 8, fun x _ => x.toNat⟩ 4 2 3 = 0 ∧
    av1_hash_is_vertical_perfect ⟨8, 8, fun _ y => y.toNat⟩ 4 2 3 = 0 :=
  ⟨(hash_is_perfect ⟨8, 8, fun _ _ => 255⟩ 4 2 3).1 255 (fun _ _ _ _ _ _ => rfl),
   (hash_is_perfect ⟨8, 8, fun x _ => x.toNat⟩ 4 2 3).2.1 1 0 2 (by decide) (by decide)
     (by decide) (by decide) (by decide) (by decide) (by decide),
   (hash_is_perfect ⟨8, 8, fun _ y => y.toNat⟩ 4 2 3).2.2 0 2 1 (by decide) (by decide)
     (by decide) (by decide) (by decide) (by decide) (by decide)⟩

/-! ## Lemmas on conversions, monotonicity and the translation coefficients -/

/-- The lowered field in terms of linear constraints, without a wrapping store. -/
theorem lower_mv_component_le_of_le (r a b : Int) (hr : r = 8 ∨ r = 4 ∨ r = 2 ∨ r = 1)
    (ha : isInt16 a) (hab : a ≤ b) (hb : b ≤ 32760) :
    lower_mv_component r a ≤ lower_mv_component r b := by
  have hb16 : isInt16 b := ⟨le_trans ha.1 hab, by omega⟩
  have da := lower_mv_component_dvd r a hr
  have db := lower_mv_component_dvd r b hr
  have ba := lower_mv_component_bounds r a hr ha
    (by rcases hr with rfl | rfl | rfl | rfl <;> omega)
  have bb := lower_mv_component_bounds r b hr hb16
    (by rcases hr with rfl | rfl | rfl | rfl <;> omega)
  rcases lt_or_eq_of_le hab with hlt | heq
  · generalize lower_mv_component r a = wa at *
    generalize lower_mv_component r b = wb at *
    obtain ⟨a1, a2, a3, a4⟩ := ba
    obtain ⟨b1, b2, b3, b4⟩ := bb
    rcases hr with rfl | rfl | rfl | rfl <;> omega
  · rw [heq]

/-- A field in `[-32768, 32760]` moves by at most half the radix and keeps its sign. -/
theorem lower_mv_component_near (r v : Int) (hr : r = 8 ∨ r = 4 ∨ r = 2 ∨ r = 1)
    (hv0 : -32768 ≤ v) (hv1 : v ≤ 32760) :
    |lower_mv_component r v - v| ≤ r / 2 ∧
    (0 < v → 0 ≤ lower_mv_component r v) ∧ (v < 0 → lower_mv_component r v ≤ 0) ∧
    (v = 0 → lower_mv_component r v = 0) := by
  have d := lower_mv_component_dvd r v hr
  have b := lower_mv_component_bounds r v hr ⟨hv0, by omega⟩
    (by rcases hr with rfl | rfl | rfl | rfl <;> omega)
  generalize lower_mv_component r v = w at *
  obtain ⟨b1, b2, b3, b4⟩ := b
  refine ⟨?_, ?_, ?_, ?_⟩
  · rw [abs_le]
    rcases hr with rfl | rfl | rfl | rfl <;> omega
  · intro h
    rcases hr with rfl | rfl | rfl | rfl <;> omega
  · intro h
    rcases hr with rfl | rfl | rfl | rfl <;> omega
  · intro h
    rcases hr with rfl | rfl | rfl | rfl <;> omega

/-- A multiple of 8 is left unchanged by `lower_mv_precision` at every precision. -/
theorem lower_mv_precision_of_dvd (mv : MV) (precision : MvSubpelPrecision) (d : Int)
    (hd : mv_radix precision ∣ d) (hrow : d ∣ mv.row) (hcol : d ∣ mv.col) :
    lower_mv_precision mv precision = mv := by
  obtain ⟨e1, e2⟩ := lower_mv_precision_fields mv precision
  rw [lower_mv_component_of_dvd _ _ (dvd_trans hd hrow)] at e1
  rw [lower_mv_component_of_dvd _ _ (dvd_trans hd hcol)] at e2
  cases hm : lower_mv_precision mv precision
  cases mv
  rw [hm] at e1 e2
  simp only at e1 e2
  rw [e1, e2]

/-- The radix of a finer precision divides the radix of a coarser one. -/
theorem mv_radix_dvd_of_le (p q : MvSubpelPrecision) (hpq : p.val ≤ q.val) :
    mv_radix q ∣ mv_radix p := by
  cases p <;> cases q <;> first | decide | exact absurd hpq (by decide)

/-- The subpel value of a full-pel component is a multiple of 8 after the `int16_t` cast. -/
theorem wrap16_GET_MV_SUBPEL_dvd (f : Int) : (8 : Int) ∣ wrap16 (GET_MV_SUBPEL f) := by
  unfold wrap16 GET_MV_SUBPEL
  omega

/-- Conversion to full-pel and back agrees with lowering to NONE away from exact halves. -/
theorem rawpel_subpel_eq_lower (v : Int) (hv : isInt16 v) (h4 : v % 8 ≠ 4) :
    wrap16 (GET_MV_SUBPEL (wrap16 (GET_MV_RAWPEL v))) = lower_mv_component 8 v := by
  obtain ⟨h1, h2⟩ := hv
  rw [GET_MV_RAWPEL_eq]
  unfold GET_MV_SUBPEL lower_mv_component
  rw [tmod_eq_ite _ _ (by norm_num)]
  simp only [ABS, wrap16]
  split_ifs <;> omega

/-- For a value other than `INT32_MIN` with clear low bits the rounding of
`convert_to_trans_prec` is the shift by 13. -/
theorem convert_to_trans_prec_of_low_bits (precision : MvSubpelPrecision) (c : Int)
    (hc : isInt32 c) (hmin : c ≠ -2147483648)
    (hlow : c % 2 ^ (if precision = MV_SUBPEL_EIGHTH_PRECISION then 13 else 14) = 0) :
    convert_to_trans_prec precision c = c >>> GM_TRANS_ONLY_PREC_DIFF := by
  obtain ⟨h1, h2⟩ := hc
  have e : GM_TRANS_ONLY_PREC_DIFF = 13 := rfl
  rw [e, Int.shiftRight_eq_div_pow]
  by_cases hp : precision = MV_SUBPEL_EIGHTH_PRECISION
  · subst hp
    rw [if_pos rfl] at hlow
    have e1 : convert_to_trans_prec MV_SUBPEL_EIGHTH_PRECISION c =
        ROUND_POWER_OF_TWO_SIGNED c 13 := rfl
    have hb : |c| + 4096 ≤ 2147483647 := by
      rcases abs_cases c with ⟨e3, _⟩ | ⟨e3, _⟩ <;> rw [e3] <;> norm_num at hlow <;> omega
    rw [e1, ROUND_POWER_OF_TWO_SIGNED_13 c hb]
    norm_num at hlow ⊢
    split_ifs <;> omega
  · rw [if_neg hp] at hlow
    have e1 : convert_to_trans_prec precision c =
        mul32 (ROUND_POWER_OF_TWO_SIGNED c 14) 2 := by
      cases precision <;> first | rfl | exact absurd rfl hp
    have hb : |c| + 8192 ≤ 2147483647 := by
      rcases abs_cases c with ⟨e3, _⟩ | ⟨e3, _⟩ <;> rw [e3] <;> norm_num at hlow <;> omega
    rw [e1, ROUND_POWER_OF_TWO_SIGNED_14 c hb]
    unfold mul32 wrap32
    norm_num at hlow ⊢
    split_ifs <;> omega

/-- A coefficient whose shift by 13 fits `int16_t` is an `int32_t` value above
`INT32_MIN`. -/
theorem isInt32_of_shift_isInt16 (c : Int) (h : isInt16 (c >>> GM_TRANS_ONLY_PREC_DIFF)) :
    isInt32 c ∧ c ≠ -2147483648 := by
  have e : GM_TRANS_ONLY_PREC_DIFF = 13 := rfl
  rw [e, Int.shiftRight_eq_div_pow] at h
  obtain ⟨h1, h2⟩ := h
  norm_num at h1 h2
  unfold isInt32
  omega

/-- The value 1 of `is_same_wm_params` in terms of the compared fields. -/
theorem is_same_wm_params_eq_one (p1 p2 : WarpedMotionParams) :
    is_same_wm_params p1 p2 = 1 ↔
      p1.invalid = p2.invalid ∧ p1.wmtype = p2.wmtype ∧ p1.alpha = p2.alpha ∧
      p1.beta = p2.beta ∧ p1.gamma = p2.gamma ∧ p1.delta = p2.delta ∧
      ∀ i : Fin 8, p1.wmmat i = p2.wmmat i := by
  obtain ⟨hl1, _⟩ := is_same_wm_params_loop_spec p1 p2 [0, 1, 2, 3, 4, 5, 6, 7]
  have hall : (∀ i ∈ ([0, 1, 2, 3, 4, 5, 6, 7] : List (Fin 8)), p1.wmmat i = p2.wmmat i) ↔
      ∀ i : Fin 8, p1.wmmat i = p2.wmmat i := by
    constructor
    · intro h i
      exact h i (by fin_cases i <;> simp)
    · intro h i _
      exact h i
  rw [hall] at hl1
  unfold is_same_wm_params
  split_ifs with h1 h2 h3 h4 h5 h6 <;> simp_all

/-! ## Claims on conversions, rounding distance and monotonicity -/

/-- C31: full-pel to subpel to full-pel is the identity: for every `FULLPEL_MV` whose
components `f` satisfy `-4096 <= f <= 4095` (so that `f*8` fits in `int16_t`),
`get_fullmv_from_mv(get_mv_from_fullmv(f)) == f`, and `get_mv_from_fullmv` returns exactly
`(8*row, 8*col)`. -/
theorem fullmv_subpel_roundtrip (full_mv : FULLPEL_MV)
    (hr0 : -4096 ≤ full_mv.row) (hr1 : full_mv.row ≤ 4095)
    (hc0 : -4096 ≤ full_mv.col) (hc1 : full_mv.col ≤ 4095) :
    get_fullmv_from_mv (get_mv_from_fullmv full_mv) = full_mv ∧
    get_mv_from_fullmv full_mv = { row := 8 * full_mv.row, col := 8 * full_mv.col } := by
  obtain ⟨r, c⟩ := full_mv
  simp only at hr0 hr1 hc0 hc1
  have er : wrap16 (GET_MV_SUBPEL r) = 8 * r := by
    unfold GET_MV_SUBPEL wrap16
    omega
  have ec : wrap16 (GET_MV_SUBPEL c) = 8 * c := by
    unfold GET_MV_SUBPEL wrap16
    omega
  have fr : wrap16 (GET_MV_RAWPEL (8 * r)) = r := by
    rw [GET_MV_RAWPEL_eq]
    unfold wrap16
    split_ifs <;> omega
  have fc : wrap16 (GET_MV_RAWPEL (8 * c)) = c := by
    rw [GET_MV_RAWPEL_eq]
    unfold wrap16
    split_ifs <;> omega
  unfold get_fullmv_from_mv get_mv_from_fullmv
  simp only [er, ec, fr, fc, and_self]

theorem fullmv_subpel_roundtrip_witness :
    get_fullmv_from_mv (get_mv_from_fullmv { row := -4096, col := 4095 }) =
      { row := -4096, col := 4095 } ∧
    get_mv_from_fullmv { row := -4096, col := 4095 } =
      { row := 8 * (-4096), col := 8 * 4095 } :=
  fullmv_subpel_roundtrip { row := -4096, col := 4095 } (by decide) (by decide) (by decide)
    (by decide)

/-- C32: the TRANSLATION path and the general (ROTZOOM/AFFINE) path of `gm_get_motion_vector`
assign the two translation coefficients to opposite axes: for every coefficient array with
identity linear part whose `wmmat[0]` and `wmmat[1]` have their low 14 bits zero and fit
`int16_t` after `>> 13`, and for every precision, block size and position, the vector returned
when the tag is ROTZOOM or AFFINE equals the vector returned when the tag is TRANSLATION with
row and col exchanged (TRANSLATION: row from `wmmat[0]`, col from `wmmat[1]`; general path: col
from `wmmat[0]`, row from `wmmat[1]`). -/
theorem gm_get_motion_vector_axes_exchanged (T : BlockSizeTables)
    (gm1 gm2 : WarpedMotionParams) (precision : MvSubpelPrecision) (bsize : BLOCK_SIZE)
    (mi_col mi_row : Int)
    (hsame : ∀ i : Fin 8, gm1.wmmat i = gm2.wmmat i)
    (hL : LinearPartIsIdentity gm1.wmmat)
    (h0 : gm1.wmmat 0 % 2 ^ 14 = 0) (h1 : gm1.wmmat 1 % 2 ^ 14 = 0)
    (f0 : isInt16 (gm1.wmmat 0 >>> GM_TRANS_ONLY_PREC_DIFF))
    (f1 : isInt16 (gm1.wmmat 1 >>> GM_TRANS_ONLY_PREC_DIFF))
    (ht1 : gm1.wmtype = ROTZOOM ∨ gm1.wmtype = AFFINE) (ht2 : gm2.wmtype = TRANSLATION) :
    (gm_get_motion_vector T gm1 precision bsize mi_col mi_row).row =
      (gm_get_motion_vector T gm2 precision bsize mi_col mi_row).col ∧
    (gm_get_motion_vector T gm1 precision bsize mi_col mi_row).col =
      (gm_get_motion_vector T gm2 precision bsize mi_col mi_row).row ∧
    gm_get_motion_vector T gm2 precision bsize mi_col mi_row =
      lower_mv_precision
        { row := gm1.wmmat 0 >>> GM_TRANS_ONLY_PREC_DIFF,
          col := gm1.wmmat 1 >>> GM_TRANS_ONLY_PREC_DIFF } precision ∧
    gm_get_motion_vector T gm1 precision bsize mi_col mi_row =
      lower_mv_precision
        { row := gm1.wmmat 1 >>> GM_TRANS_ONLY_PREC_DIFF,
          col := gm1.wmmat 0 >>> GM_TRANS_ONLY_PREC_DIFF } precision := by
  obtain ⟨l2, l5, l3, l4⟩ := hL
  obtain ⟨i0, n0⟩ := isInt32_of_shift_isInt16 _ f0
  obtain ⟨i1, n1⟩ := isInt32_of_shift_isInt16 _ f1
  have low : ∀ c : Int, c % 2 ^ 14 = 0 →
      c % 2 ^ (if precision = MV_SUBPEL_EIGHTH_PRECISION then 13 else 14) = 0 := by
    intro c hc
    split_ifs
    · norm_num at hc ⊢
      omega
    · exact hc
  have c0 := convert_to_trans_prec_of_low_bits precision _ i0 n0 (low _ h0)
  have c1 := convert_to_trans_prec_of_low_bits precision _ i1 n1 (low _ h1)
  have e2 : gm_get_motion_vector T gm2 precision bsize mi_col mi_row =
      lower_mv_precision
        { row := gm1.wmmat 0 >>> GM_TRANS_ONLY_PREC_DIFF,
          col := gm1.wmmat 1 >>> GM_TRANS_ONLY_PREC_DIFF } precision := by
    have hne : gm2.wmtype ≠ IDENTITY := by rw [ht2]; decide
    unfold gm_get_motion_vector
    rw [if_neg hne, if_pos ht2, ← hsame 0, ← hsame 1]
    simp only
    rw [wrap16_of_isInt16 _ f0, wrap16_of_isInt16 _ f1]
  have e1 : gm_get_motion_vector T gm1 precision bsize mi_col mi_row =
      lower_mv_precision
        { row := gm1.wmmat 1 >>> GM_TRANS_ONLY_PREC_DIFF,
          col := gm1.wmmat 0 >>> GM_TRANS_ONLY_PREC_DIFF } precision := by
    rw [gm_get_motion_vector_general_eq T gm1 precision bsize mi_col mi_row ht1]
    have x0 : ∀ x y : Int, gm_xc gm1 x y = gm1.wmmat 0 := by
      intro x y
      unfold gm_xc
      rw [l2, l3]
      ring
    have y0 : ∀ x y : Int, gm_yc gm1 x y = gm1.wmmat 1 := by
      intro x y
      unfold gm_yc
      rw [l4, l5]
      ring
    rw [x0, y0, wrap32_of_isInt32 _ i0, wrap32_of_isInt32 _ i1, c0, c1,
      wrap16_of_isInt16 _ f0, wrap16_of_isInt16 _ f1]
  refine ⟨?_, ?_, e2, e1⟩
  · rw [e1, e2, (lower_mv_precision_fields _ precision).1,
      (lower_mv_precision_fields _ precision).2]
  · rw [e1, e2, (lower_mv_precision_fields _ precision).1,
      (lower_mv_precision_fields _ precision).2]

theorem gm_get_motion_vector_axes_exchanged_witness :
    (gm_get_motion_vector ⟨fun _ => 16, fun _ => 8⟩
      { wmmat := ![81920, -49152, 65536, 0, 0, 65536, 0, 0], alpha := 0, beta := 0,
        gamma := 0, delta := 0, wmtype := AFFINE, invalid := 0 }
      MV_SUBPEL_QTR_PRECISION 3 17 29).row =
    (gm_get_motion_vector ⟨fun _ => 16, fun _ => 8⟩
      { wmmat := ![81920, -49152, 65536, 0, 0, 65536, 0, 0], alpha := 0, beta := 0,
        gamma := 0, delta := 0, wmtype := TRANSLATION, invalid := 0 }
      MV_SUBPEL_QTR_PRECISION 3 17 29).col :=
  (gm_get_motion_vector_axes_exchanged ⟨fun _ => 16, fun _ => 8⟩
    { wmmat := ![81920, -49152, 65536, 0, 0, 65536, 0, 0], alpha := 0, beta := 0,
      gamma := 0, delta := 0, wmtype := AFFINE, invalid := 0 }
    { wmmat := ![81920, -49152, 65536, 0, 0, 65536, 0, 0], alpha := 0, beta := 0,
      gamma := 0, delta := 0, wmtype := TRANSLATION, invalid := 0 }
    MV_SUBPEL_QTR_PRECISION 3 17 29 (fun _ => rfl) (by decide) (by decide) (by decide)
    (by decide) (by decide) (Or.inr rfl) rfl).1

/-- C33: for every precision `p` and every component `v` with `-32768 <= v <= 32760` (no
`int16_t` wrap), the value `w` produced by `lower_mv_precision` satisfies
`|w - v| <= radix/2` with `radix = 2^(3 - p)`, and `w` has the same sign as `v` or is zero. -/
theorem lower_mv_precision_near (mv : MV) (precision : MvSubpelPrecision) :
    (-32768 ≤ mv.row → mv.row ≤ 32760 →
      |(lower_mv_precision mv precision).row - mv.row| ≤ 2 ^ (3 - precision.val) / 2 ∧
      (0 < mv.row → 0 ≤ (lower_mv_precision mv precision).row) ∧
      (mv.row < 0 → (lower_mv_precision mv precision).row ≤ 0) ∧
      (mv.row = 0 → (lower_mv_precision mv precision).row = 0)) ∧
    (-32768 ≤ mv.col → mv.col ≤ 32760 →
      |(lower_mv_precision mv precision).col - mv.col| ≤ 2 ^ (3 - precision.val) / 2 ∧
      (0 < mv.col → 0 ≤ (lower_mv_precision mv precision).col) ∧
      (mv.col < 0 → (lower_mv_precision mv precision).col ≤ 0) ∧
      (mv.col = 0 → (lower_mv_precision mv precision).col = 0)) := by
  obtain ⟨e1, e2⟩ := lower_mv_precision_fields mv precision
  rw [e1, e2, ← mv_radix_eq]
  exact ⟨fun h0 h1 => lower_mv_component_near _ _ (mv_radix_cases precision) h0 h1,
    fun h0 h1 => lower_mv_component_near _ _ (mv_radix_cases precision) h0 h1⟩

theorem lower_mv_precision_near_witness :
    |(lower_mv_precision ⟨-32768, 32759⟩ MV_SUBPEL_NONE).row - (-32768)| ≤
      2 ^ (3 - MV_SUBPEL_NONE.val) / 2 ∧
    |(lower_mv_precision ⟨-32768, 32759⟩ MV_SUBPEL_NONE).col - 32759| ≤
      2 ^ (3 - MV_SUBPEL_NONE.val) / 2 :=
  ⟨((lower_mv_precision_near ⟨-32768, 32759⟩ MV_SUBPEL_NONE).1 (by decide) (by decide)).1,
   ((lower_mv_precision_near ⟨-32768, 32759⟩ MV_SUBPEL_NONE).2 (by decide) (by decide)).1⟩

/-- C34: `lower_mv_precision` is monotone on each component: for every precision and all
`int16_t` components `a <= b <= 32760`, the lowered value of `a` is less than or equal to the
lowered value of `b`. -/
theorem lower_mv_precision_monotone (mv1 mv2 : MV) (precision : MvSubpelPrecision) :
    (isInt16 mv1.row → mv1.row ≤ mv2.row → mv2.row ≤ 32760 →
      (lower_mv_precision mv1 precision).row ≤ (lower_mv_precision mv2 precision).row) ∧
    (isInt16 mv1.col → mv1.col ≤ mv2.col → mv2.col ≤ 32760 →
      (lower_mv_precision mv1 precision).col ≤ (lower_mv_precision mv2 precision).col) := by
  obtain ⟨a1, a2⟩ := lower_mv_precision_fields mv1 precision
  obtain ⟨b1, b2⟩ := lower_mv_precision_fields mv2 precision
  rw [a1, a2, b1, b2]
  exact ⟨fun h hab hb => lower_mv_component_le_of_le _ _ _ (mv_radix_cases precision) h hab hb,
    fun h hab hb => lower_mv_component_le_of_le _ _ _ (mv_radix_cases precision) h hab hb⟩

theorem lower_mv_precision_monotone_witness :
    (lower_mv_precision ⟨-5, 4⟩ MV_SUBPEL_NONE).row ≤
      (lower_mv_precision ⟨-4, 5⟩ MV_SUBPEL_NONE).row ∧
    (lower_mv_precision ⟨-5, 4⟩ MV_SUBPEL_NONE).col ≤
      (lower_mv_precision ⟨-4, 5⟩ MV_SUBPEL_NONE).col :=
  ⟨(lower_mv_precision_monotone ⟨-5, 4⟩ ⟨-4, 5⟩ MV_SUBPEL_NONE).1 (by decide) (by decide)
      (by decide),
   (lower_mv_precision_monotone ⟨-5, 4⟩ ⟨-4, 5⟩ MV_SUBPEL_NONE).2 (by decide) (by decide)
      (by decide)⟩

/-- C35: a vector lowered to a coarse precision is a fixed point of lowering at every
precision that is equal or finer: for every vector and all precisions `p <= q`,
`lower_mv_precision` at `q` applied to the result of `lower_mv_precision` at `p` returns that
result unchanged; in particular every vector produced by `get_mv_from_fullmv` is left unchanged
by `lower_mv_precision` at every precision. -/
theorem lower_mv_precision_fixed_point (mv : MV) (p q : MvSubpelPrecision) :
    (p.val ≤ q.val →
      lower_mv_precision (lower_mv_precision mv p) q = lower_mv_precision mv p) ∧
    (∀ full_mv : FULLPEL_MV,
      lower_mv_precision (get_mv_from_fullmv full_mv) q = get_mv_from_fullmv full_mv) := by
  constructor
  · intro hpq
    obtain ⟨d1, d2⟩ := lower_mv_precision_dvd mv p
    rw [← mv_radix_eq] at d1 d2
    exact lower_mv_precision_of_dvd _ q (mv_radix p) (mv_radix_dvd_of_le p q hpq) d1 d2
  · intro full_mv
    have h8 : mv_radix q ∣ (8 : Int) := by
      cases q <;> decide
    exact lower_mv_precision_of_dvd _ q 8 h8 (wrap16_GET_MV_SUBPEL_dvd _)
      (wrap16_GET_MV_SUBPEL_dvd _)

theorem lower_mv_precision_fixed_point_witness :
    lower_mv_precision (lower_mv_precision ⟨13, -7⟩ MV_SUBPEL_HALF_PRECISION)
        MV_SUBPEL_QTR_PRECISION =
      lower_mv_precision ⟨13, -7⟩ MV_SUBPEL_HALF_PRECISION :=
  (lower_mv_precision_fixed_point ⟨13, -7⟩ MV_SUBPEL_HALF_PRECISION
    MV_SUBPEL_QTR_PRECISION).1 (by decide)

/-- C36: rounding a subpel vector to whole pixels by conversion agrees with lowering it to
NONE precision except at exact halves: for every `int16_t` vector none of whose components is
congruent to 4 modulo 8, `get_mv_from_fullmv(get_fullmv_from_mv(mv))` equals
`lower_mv_precision(mv, NONE)`. -/
theorem fullmv_conversion_eq_lower_none (mv : MV) (hv : mv.isValid)
    (hrow : mv.row % 8 ≠ 4) (hcol : mv.col % 8 ≠ 4) :
    get_mv_from_fullmv (get_fullmv_from_mv mv) = lower_mv_precision mv MV_SUBPEL_NONE := by
  obtain ⟨e1, e2⟩ := lower_mv_precision_fields mv MV_SUBPEL_NONE
  have er : mv_radix MV_SUBPEL_NONE = 8 := rfl
  rw [er] at e1 e2
  have r1 := rawpel_subpel_eq_lower mv.row hv.1 hrow
  have r2 := rawpel_subpel_eq_lower mv.col hv.2 hcol
  cases hm : lower_mv_precision mv MV_SUBPEL_NONE
  rw [hm] at e1 e2
  simp only at e1 e2
  unfold get_mv_from_fullmv get_fullmv_from_mv
  simp only [r1, r2, e1, e2]

theorem fullmv_conversion_eq_lower_none_witness :
    get_mv_from_fullmv (get_fullmv_from_mv ⟨32767, -13⟩) =
      lower_mv_precision ⟨32767, -13⟩ MV_SUBPEL_NONE :=
  fullmv_conversion_eq_lower_none ⟨32767, -13⟩ (by decide) (by decide) (by decide)

/-! ## Claims on the fields read by the warp functions -/

/-- C37: `gm_get_motion_vector` reads only `wmtype` and `wmmat[0..5]` of the model: any two
models that agree on `wmtype` and `wmmat[0..5]` yield the same vector for every precision, block
size and position, whatever their `invalid` flag, `alpha`, `beta`, `gamma`, `delta`, `wmmat[6]`
and `wmmat[7]` are. -/
theorem gm_get_motion_vector_reads (T : BlockSizeTables) (gm1 gm2 : WarpedMotionParams)
    (precision : MvSubpelPrecision) (bsize : BLOCK_SIZE) (mi_col mi_row : Int)
    (htype : gm1.wmtype = gm2.wmtype)
    (hmat : ∀ i : Fin 8, i.val < 6 → gm1.wmmat i = gm2.wmmat i) :
    gm_get_motion_vector T gm1 precision bsize mi_col mi_row =
      gm_get_motion_vector T gm2 precision bsize mi_col mi_row := by
  have e0 := hmat 0 (by decide)
  have e1 := hmat 1 (by decide)
  have e2 := hmat 2 (by decide)
  have e3 := hmat 3 (by decide)
  have e4 := hmat 4 (by decide)
  have e5 := hmat 5 (by decide)
  unfold gm_get_motion_vector
  simp only [htype, e0, e1, e2, e3, e4, e5]

theorem gm_get_motion_vector_reads_witness :
    gm_get_motion_vector ⟨fun _ => 16, fun _ => 8⟩
      { wmmat := ![4096, -8192, 65000, 300, -300, 65000, 0, 0], alpha := 0, beta := 0,
        gamma := 0, delta := 0, wmtype := ROTZOOM, invalid := 0 }
      MV_SUBPEL_NONE 3 17 29 =
    gm_get_motion_vector ⟨fun _ => 16, fun _ => 8⟩
      { wmmat := ![4096, -8192, 65000, 300, -300, 65000, 77, -5], alpha := 9, beta := 8,
        gamma := 7, delta := 6, wmtype := ROTZOOM, invalid := 1 }
      MV_SUBPEL_NONE 3 17 29 :=
  gm_get_motion_vector_reads ⟨fun _ => 16, fun _ => 8⟩
    { wmmat := ![4096, -8192, 65000, 300, -300, 65000, 0, 0], alpha := 0, beta := 0,
      gamma := 0, delta := 0, wmtype := ROTZOOM, invalid := 0 }
    { wmmat := ![4096, -8192, 65000, 300, -300, 65000, 77, -5], alpha := 9, beta := 8,
      gamma := 7, delta := 6, wmtype := ROTZOOM, invalid := 1 }
    MV_SUBPEL_NONE 3 17 29 rfl (by decide)

/-- C38: among models that satisfy the tag invariant (`wmtype == get_wmtype` of the model's
own coefficients), the comparison of `wmtype` in `is_same_wm_params` is redundant: for two
such models, `is_same_wm_params` returns 1 if and only if their `invalid` flags, their `alpha`,
`beta`, `gamma`, `delta` and their `wmmat[0..7]` are equal. -/
theorem is_same_wm_params_tag_redundant (p1 p2 : WarpedMotionParams)
    (h1 : p1.wmtype = get_wmtype p1) (h2 : p2.wmtype = get_wmtype p2) :
    is_same_wm_params p1 p2 = 1 ↔
      p1.invalid = p2.invalid ∧ p1.alpha = p2.alpha ∧ p1.beta = p2.beta ∧
      p1.gamma = p2.gamma ∧ p1.delta = p2.delta ∧
      ∀ i : Fin 8, p1.wmmat i = p2.wmmat i := by
  rw [is_same_wm_params_eq_one]
  constructor
  · rintro ⟨a, _, b, c, d, e, f⟩
    exact ⟨a, b, c, d, e, f⟩
  · rintro ⟨a, b, c, d, e, f⟩
    refine ⟨a, ?_, b, c, d, e, f⟩
    rw [h1, h2]
    unfold get_wmtype
    rw [f 0, f 1, f 2, f 3, f 4, f 5]

theorem is_same_wm_params_tag_redundant_witness :
    is_same_wm_params
      { wmmat := ![4096, -8192, 65000, 300, -300, 65000, 0, 0], alpha := 1, beta := 2,
        gamma := 3, delta := 4, wmtype := ROTZOOM, invalid := 0 }
      { wmmat := ![4096, -8192, 65000, 300, -300, 65000, 0, 0], alpha := 1, beta := 2,
        gamma := 3, delta := 4, wmtype := ROTZOOM, invalid := 0 } = 1 :=
  (is_same_wm_params_tag_redundant
    { wmmat := ![4096, -8192, 65000, 300, -300, 65000, 0, 0], alpha := 1, beta := 2,
      gamma := 3, delta := 4, wmtype := ROTZOOM, invalid := 0 }
    { wmmat := ![4096, -8192, 65000, 300, -300, 65000, 0, 0], alpha := 1, beta := 2,
      gamma := 3, delta := 4, wmtype := ROTZOOM, invalid := 0 }
    (by decide) (by decide)).mpr ⟨rfl, rfl, rfl, rfl, rfl, fun _ => rfl⟩

/-- C39: `get_gm_precision_loss` returns `min(1, 3 - precision)`: 0 for EIGHTH and exactly 1
for each of QTR, HALF and NONE, so it never reports more than one unsignalled bit even at NONE
precision. -/
theorem get_gm_precision_loss_values (precision : MvSubpelPrecision) :
    get_gm_precision_loss precision = min 1 (3 - (precision.val : Int)) ∧
    get_gm_precision_loss precision ≤ 1 ∧
    get_gm_precision_loss MV_SUBPEL_EIGHTH_PRECISION = 0 ∧
    get_gm_precision_loss MV_SUBPEL_QTR_PRECISION = 1 ∧
    get_gm_precision_loss MV_SUBPEL_HALF_PRECISION = 1 ∧
    get_gm_precision_loss MV_SUBPEL_NONE = 1 := by
  refine ⟨?_, ?_, by decide, by decide, by decide, by decide⟩
  · cases precision <;> decide
  · cases precision <;> decide

end Aom
